import Mathlib

/-!
Verification of the omnichannel agentic-commerce backend.

This file gives a shallow embedding of the core algorithms of the backend
(the LLM planner output validation, the planner canary bucketing, the
multi-action executor, the admin activity hash chain, the voice-recovery
scheduler and its quiet-hour / backoff / idempotency logic, and the
rule-based intent classifier) and proves the specified properties about
them.

Modelling conventions:
* Python dicts become association lists; Python `None` becomes `Option`.
* Machine time is modelled as integer seconds; `datetime` values become
  `Int` (UTC seconds), and a timezone database lookup is a function
  parameter `tz : String → Option Int` returning a fixed offset in
  seconds (`ZoneInfo` resolution; `none` models the `except` fallback to
  UTC).
* Cryptographic primitives (`hashlib.sha256`, `hmac`) are abstract
  function parameters: the properties proved do not depend on the values
  of the digests, only on how the code around them uses them.
* Python float confidences become exact rationals (the source only ever
  compares decimal literals).
-/

namespace Commerce

/-- Python `str.strip` whitespace set (ASCII part used by the backend). -/
def pyIsSpace (c : Char) : Bool :=
  c = ' ' || c = '\t' || c = '\n' || c = '\r' || c = '\x0b' || c = '\x0c'

/-- Python `str.strip()` on both ends. -/
def pyStrip (s : String) : String :=
  ((s.data.dropWhile pyIsSpace).reverse.dropWhile pyIsSpace).reverse.asString

/-- ASCII lower-casing of one character. -/
def pyLowerChar (c : Char) : Char :=
  if 'A' ≤ c ∧ c ≤ 'Z' then Char.ofNat (c.toNat + 32) else c

/-- Python `str.lower()` (the backend only lower-cases ASCII identifiers and
utterances; non-ASCII characters pass through). -/
def pyLower (s : String) : String :=
  (s.data.map pyLowerChar).asString

/-- Value of a single hexadecimal digit (as produced by `hexdigest`). -/
def hexDigitVal (c : Char) : Nat :=
  if '0' ≤ c ∧ c ≤ '9' then c.toNat - '0'.toNat
  else if 'a' ≤ c ∧ c ≤ 'f' then 10 + c.toNat - 'a'.toNat
  else if 'A' ≤ c ∧ c ≤ 'F' then 10 + c.toNat - 'A'.toNat
  else 0

/-- Python `int(s, 16)` on the hex strings produced by `hexdigest`. -/
def hexValue (s : String) : Nat :=
  s.data.foldl (fun a c => a * 16 + hexDigitVal c) 0

/-- Decoded JSON values (`json.loads` output).  Numbers are modelled as
exact rationals (Python ints and floats). -/
inductive Json where
  | null
  | bool (b : Bool)
  | num (n : ℚ)
  | str (s : String)
  | arr (items : List Json)
  | obj (fields : List (String × Json))

/-- Python slicing `s[:n]` on strings. -/
def pySlice (s : String) (n : Nat) : String :=
  (s.data.take n).asString

/-- `dict.get` on a decoded JSON object's fields. -/
def jsonGet (fields : List (String × Json)) (key : String) : Option Json :=
  match fields.find? (fun kv => kv.1 = key) with
  | some kv => some kv.2
  | none => none

/-- Python dict assignment `d[k] = v`: replaces in place, appends new keys. -/
def dictSet (l : List (String × Json)) (k : String) (v : Json) : List (String × Json) :=
  match l with
  | [] => [(k, v)]
  | (k', v') :: rest => if k' = k then (k, v) :: rest else (k', v') :: dictSet rest k v

/-- Every entry of `dictSet l k v` is the assigned pair or was already
present. -/
theorem dictSet_mem : ∀ (l : List (String × Json)) (k : String) (v : Json),
    ∀ kv ∈ dictSet l k v, kv = (k, v) ∨ kv ∈ l
  | [], k, v => by simp [dictSet]
  | (k', v') :: rest, k, v => by
    intro kv hkv
    simp only [dictSet] at hkv
    by_cases hk : k' = k
    · rw [if_pos hk] at hkv
      rcases List.mem_cons.mp hkv with h | h
      · exact Or.inl h
      · exact Or.inr (List.mem_cons_of_mem _ h)
    · rw [if_neg hk] at hkv
      rcases List.mem_cons.mp hkv with h | h
      · exact Or.inr (by simp [h])
      · rcases dictSet_mem rest k v kv h with h' | h'
        · exact Or.inl h'
        · exact Or.inr (List.mem_cons_of_mem _ h')

/-- Reading back the key just assigned. -/
theorem jsonGet_dictSet_self : ∀ (l : List (String × Json)) (k : String) (v : Json),
    jsonGet (dictSet l k v) k = some v
  | [], k, v => by simp [dictSet, jsonGet, List.find?]
  | (k', v') :: rest, k, v => by
    by_cases hk : k' = k
    · simp [dictSet, hk, jsonGet, List.find?]
    · simp only [dictSet, if_neg hk, jsonGet, List.find?, decide_eq_false hk]
      simpa [jsonGet] using jsonGet_dictSet_self rest k v

/-- A key bound to no entry reads as `none`. -/
theorem jsonGet_eq_none : ∀ (l : List (String × Json)) (k : String),
    (∀ kv ∈ l, kv.1 ≠ k) → jsonGet l k = none
  | [], k => by simp [jsonGet, List.find?]
  | (k', v') :: rest, k => by
    intro h
    have hk : k' ≠ k := h (k', v') (by simp)
    simp only [jsonGet, List.find?, decide_eq_false hk]
    simpa [jsonGet] using jsonGet_eq_none rest k (fun kv hkv => h kv (List.mem_cons_of_mem _ hkv))

/-- Python `str()` of a decoded JSON value, as applied to planner `name`,
`targetAgent` and question fields.  Containers are rendered with their leading
bracket only: the surrounding code only compares the result against closed
identifier sets and the empty string, and every Python `repr` of a non-empty
or empty list/dict starts with the same bracket, so those comparisons
agree. -/
def pyStr : Json → String
  | .null => "None"
  | .bool b => if b then "True" else "False"
  | .num n => toString n
  | .str s => s
  | .arr _ => "["
  | .obj _ => "\x7b"

/-- Python truthiness `bool(x)` of a decoded JSON value. -/
def jsonTruthy : Json → Bool
  | .null => false
  | .bool b => b
  | .num n => n ≠ 0
  | .str s => s ≠ ""
  | .arr items => !items.isEmpty
  | .obj fields => !fields.isEmpty

namespace Canary

/-- Python `user_id or "anonymous"`: `None` and `""` both fall back. -/
def userOrAnonymous (userId : Option String) : String :=
  match userId with
  | none => "anonymous"
  | some s => if s = "" then "anonymous" else s

/-- Embedding of `Orchestrator._planner_enabled_for_request`
(`orchestrator_core.py`).  `sha256hex` abstracts
`hashlib.sha256(seed.encode("utf-8")).hexdigest()`; `hasClient` models
`self.llm_client is None`. -/
def plannerEnabledForRequest (sha256hex : String → String)
    (hasClient plannerFeatureEnabled llmPlannerEnabled : Bool)
    (canaryPercent : Int) (sessionId : String) (userId : Option String) : Bool :=
  if !hasClient then false
  else if !plannerFeatureEnabled then false
  else if !llmPlannerEnabled then false
  else if canaryPercent ≤ 0 then false
  else if canaryPercent ≥ 100 then true
  else
    let seed := userOrAnonymous userId ++ ":" ++ sessionId
    let digest := sha256hex seed
    let bucket : Nat := hexValue (digest.take 8) % 100
    (bucket : Int) < canaryPercent

end Canary

namespace Planner

/-- Per-action canonical target and parameter allow-list
(`LLMClient.SUPPORTED_PLANNER_ACTIONS` in `llm_client.py`). -/
def plannerSpec : String → Option (String × List String)
  | "search_products" => some ("product", ["query", "category", "brand", "minPrice", "maxPrice", "color"])
  | "add_item" => some ("cart", ["query", "productId", "variantId", "quantity", "brand", "color", "minPrice", "maxPrice"])
  | "add_multiple_items" => some ("cart", ["items"])
  | "update_item" => some ("cart", ["itemId", "productId", "variantId", "query", "quantity"])
  | "adjust_item_quantity" => some ("cart", ["itemId", "productId", "variantId", "query", "delta"])
  | "remove_item" => some ("cart", ["itemId", "productId", "variantId", "query", "quantity"])
  | "clear_cart" => some ("cart", [])
  | "get_cart" => some ("cart", [])
  | "apply_discount" => some ("cart", ["code"])
  | "checkout_summary" => some ("order", [])
  | "get_order_status" => some ("order", ["orderId"])
  | "cancel_order" => some ("order", ["orderId", "reason"])
  | "request_refund" => some ("order", ["orderId", "reason"])
  | "change_order_address" => some ("order", ["orderId", "shippingAddress"])
  | "show_memory" => some ("memory", [])
  | "save_preference" => some ("memory", ["updates"])
  | "forget_preference" => some ("memory", ["key", "value"])
  | "clear_memory" => some ("memory", [])
  | "create_ticket" => some ("support", ["query", "priority", "ticketId"])
  | "ticket_status" => some ("support", ["ticketId"])
  | "close_ticket" => some ("support", ["ticketId"])
  | "answer_question" => some ("support", ["query"])
  | _ => none

/-- `LLMClient.SUPPORTED_TARGET_AGENTS`. -/
def supportedTargetAgents : List String :=
  ["product", "cart", "order", "memory", "support", "orchestrator"]

/-- `LLMClient.MAX_PLAN_ACTIONS`. -/
def maxPlanActions : Nat := 5

/-- `LLMClient.PLAN_CONFIDENCE_FLOOR` (0.55). -/
def planConfidenceFloor : ℚ := mkRat 55 100

mutual

/-- Embedding of `LLMClient._normalize_planner_value`: `none` models the
Python `None` (value dropped). -/
def normalizePlannerValue : Json → Option Json
  | .null => none
  | .bool b => some (.bool b)
  | .num n => some (.num n)
  | .str s => some (.str (pySlice s 300))
  | .arr items => some (.arr (normalizeListItems 8 items))
  | .obj fields => some (.obj (normalizeDictFields 12 fields))

/-- The `for item in value[:8]` loop: `budget` counts positions consumed. -/
def normalizeListItems : Nat → List Json → List Json
  | _, [] => []
  | 0, _ => []
  | budget + 1, x :: xs =>
    match normalizePlannerValue x with
    | some clean => clean :: normalizeListItems budget xs
    | none => normalizeListItems budget xs

/-- The `enumerate(value.items())` loop with `if index >= 12: break`:
`budget` counts positions consumed, including skipped entries. -/
def normalizeDictFields : Nat → List (String × Json) → List (String × Json)
  | _, [] => []
  | 0, _ => []
  | budget + 1, (rawKey, rawValue) :: xs =>
    let key := pySlice (pyStrip rawKey) 80
    if key = "" then normalizeDictFields budget xs
    else
      match normalizePlannerValue rawValue with
      | some clean => (key, clean) :: normalizeDictFields budget xs
      | none => normalizeDictFields budget xs

end

mutual

/-- The boundedness invariant claimed for normalized planner values: strings
at most 300 characters, lists at most 8 elements, nested dicts at most 12
entries with non-empty keys of at most 80 characters, recursively. -/
def valueBounded : Json → Bool
  | .null => true
  | .bool _ => true
  | .num _ => true
  | .str s => s.length ≤ 300
  | .arr items => items.length ≤ 8 && listItemsBounded items
  | .obj fields => fields.length ≤ 12 && dictFieldsBounded fields

/-- All list elements bounded. -/
def listItemsBounded : List Json → Bool
  | [] => true
  | x :: xs => valueBounded x && listItemsBounded xs

/-- All dict entries have non-empty keys of at most 80 characters and
bounded values. -/
def dictFieldsBounded : List (String × Json) → Bool
  | [] => true
  | (k, v) :: xs => (decide (k ≠ "") && decide (k.length ≤ 80)) && valueBounded v && dictFieldsBounded xs

end

/-- A planner action as returned by `LLMClient.plan_actions`
(`LLMPlannedAction`). -/
structure PlannedAction where
  name : String
  targetAgent : Option String
  params : List (String × Json)

/-- An action plan as returned by `LLMClient.plan_actions`
(`LLMActionPlan`). -/
structure ActionPlan where
  actions : List PlannedAction
  confidence : ℚ
  needsClarification : Bool
  clarificationQuestion : String

/-- The params filter loop of `LLMClient._parse_planned_action`. -/
def filterParams (allowed : List String) (raw : List (String × Json)) : List (String × Json) :=
  raw.foldl
    (fun acc kv =>
      let normalizedKey := pyStrip kv.1
      if normalizedKey ∈ allowed then
        match normalizePlannerValue kv.2 with
        | some normalizedValue => dictSet acc normalizedKey normalizedValue
        | none => acc
      else acc)
    []

/-- Embedding of `LLMClient._parse_planned_action`. -/
def parsePlannedAction (payload : Json) : Option PlannedAction :=
  match payload with
  | .obj fields =>
    let name := pyStrip (pyStr ((jsonGet fields "name").getD (.str "")))
    if name = "" then none
    else
      match plannerSpec name with
      | none => none
      | some (target, allowed) =>
        let targetRaw := pyStrip (pyStr ((jsonGet fields "targetAgent").getD (.str "")))
        let target0 : Option String :=
          if targetRaw ≠ "" then some targetRaw
          else if pyStrip target ≠ "" then some (pyStrip target) else none
        let targetAgent : Option String :=
          match target0 with
          | some t =>
            if t ∈ supportedTargetAgents then some t
            else if pyStrip target ≠ "" then some (pyStrip target) else none
          | none => none
        let rawParams : List (String × Json) :=
          match (jsonGet fields "params").getD (.obj []) with
          | .obj ps => ps
          | _ => []
        some ⟨name, targetAgent, filterParams allowed rawParams⟩
  | _ => none

/-- `max(0.0, min(1.0, float(value)))` (`LLMClient._normalize_confidence`);
non-numeric payloads make `float()` raise and normalize to `0.0` (string
parsing of numeric literals is subsumed under the numeric case). -/
def normalizeConfidence : Json → ℚ
  | .num n => max 0 (min 1 n)
  | .bool b => if b then 1 else 0
  | _ => 0

/-- The generic clarification question substituted for a blank one. -/
def defaultClarificationQuestion : String :=
  "Could you clarify the exact item details so I can do that safely?"

/-- Embedding of `LLMClient.plan_actions` from the decoded planner payload
onwards (the network call and `_try_parse_json` yield `none` on any failure,
and reject non-object payloads). -/
def planActionsOfPayload (payload : Json) : Option ActionPlan :=
  match payload with
  | .obj fields =>
    let confidence := normalizeConfidence ((jsonGet fields "confidence").getD (.num 0))
    let needsClarification := jsonTruthy ((jsonGet fields "needsClarification").getD (.bool false))
    let question := pyStrip (pyStr ((jsonGet fields "clarificationQuestion").getD (.str "")))
    let rawActions : List Json :=
      match (jsonGet fields "actions").getD (.arr []) with
      | .arr rows => rows
      | _ => []
    let actions := (rawActions.take maxPlanActions).filterMap parsePlannedAction
    if needsClarification then
      some ⟨[], confidence, true,
        if question = "" then defaultClarificationQuestion else question⟩
    else if confidence < planConfidenceFloor then none
    else if actions.isEmpty then none
    else some ⟨actions, confidence, false, ""⟩
  | _ => none

theorem pySlice_length_le (s : String) (n : Nat) : (pySlice s n).length ≤ n := by
  simp only [pySlice, String.length, List.asString]
  simp

theorem pySlice_self_length_le (s : String) (n : Nat) :
    ((pySlice s n).length ≤ n) = true := by
  simp [pySlice_length_le]

mutual

theorem valueBounded_normalize : ∀ j c, normalizePlannerValue j = some c → valueBounded c = true
  | .null, c => by simp [normalizePlannerValue]
  | .bool b, c => by
    intro h
    simp only [normalizePlannerValue, Option.some.injEq] at h
    subst h
    rfl
  | .num n, c => by
    intro h
    simp only [normalizePlannerValue, Option.some.injEq] at h
    subst h
    rfl
  | .str s, c => by
    intro h
    simp only [normalizePlannerValue, Option.some.injEq] at h
    subst h
    simpa [valueBounded] using pySlice_length_le s 300
  | .arr items, c => by
    intro h
    simp only [normalizePlannerValue, Option.some.injEq] at h
    subst h
    have hb := normalizeListItems_bounded 8 items
    simp only [valueBounded, Bool.and_eq_true, decide_eq_true_eq]
    exact ⟨by simpa using hb.1, hb.2⟩
  | .obj fields, c => by
    intro h
    simp only [normalizePlannerValue, Option.some.injEq] at h
    subst h
    have hb := normalizeDictFields_bounded 12 fields
    simp only [valueBounded, Bool.and_eq_true, decide_eq_true_eq]
    exact ⟨by simpa using hb.1, hb.2⟩

theorem normalizeListItems_bounded : ∀ (n : Nat) (l : List Json),
    (normalizeListItems n l).length ≤ n ∧ listItemsBounded (normalizeListItems n l) = true
  | _, [] => by simp [normalizeListItems, listItemsBounded]
  | 0, _ :: _ => by simp [normalizeListItems, listItemsBounded]
  | n + 1, x :: xs => by
    rcases hx : normalizePlannerValue x with _ | c
    · have hrest := normalizeListItems_bounded n xs
      simp only [normalizeListItems, hx]
      exact ⟨Nat.le_succ_of_le hrest.1, hrest.2⟩
    · have hrest := normalizeListItems_bounded n xs
      have hc := valueBounded_normalize x c hx
      simp only [normalizeListItems, hx, List.length_cons, listItemsBounded,
        Bool.and_eq_true]
      exact ⟨Nat.succ_le_succ hrest.1, hc, hrest.2⟩

theorem normalizeDictFields_bounded : ∀ (n : Nat) (l : List (String × Json)),
    (normalizeDictFields n l).length ≤ n ∧ dictFieldsBounded (normalizeDictFields n l) = true
  | _, [] => by simp [normalizeDictFields, dictFieldsBounded]
  | 0, _ :: _ => by simp [normalizeDictFields, dictFieldsBounded]
  | n + 1, (rawKey, rawValue) :: xs => by
    by_cases hkey : pySlice (pyStrip rawKey) 80 = ""
    · have hrest := normalizeDictFields_bounded n xs
      simp only [normalizeDictFields, hkey, if_pos rfl]
      exact ⟨Nat.le_succ_of_le hrest.1, hrest.2⟩
    · rcases hv : normalizePlannerValue rawValue with _ | c
      · have hrest := normalizeDictFields_bounded n xs
        simp only [normalizeDictFields, hv, if_neg hkey]
        exact ⟨Nat.le_succ_of_le hrest.1, hrest.2⟩
      · have hrest := normalizeDictFields_bounded n xs
        have hc := valueBounded_normalize rawValue c hv
        simp only [normalizeDictFields, hv, if_neg hkey, List.length_cons,
          dictFieldsBounded, Bool.and_eq_true, decide_eq_true_eq]
        exact ⟨Nat.succ_le_succ hrest.1,
          ⟨⟨hkey, pySlice_length_le (pyStrip rawKey) 80⟩, hc⟩, hrest.2⟩

end

theorem filterParams_go (allowed : List String) :
    ∀ (raw : List (String × Json)) (acc : List (String × Json)),
    (∀ kv ∈ acc, kv.1 ∈ allowed ∧ valueBounded kv.2 = true) →
    ∀ kv ∈ List.foldl
      (fun acc kv =>
        let normalizedKey := pyStrip kv.1
        if normalizedKey ∈ allowed then
          match normalizePlannerValue kv.2 with
          | some normalizedValue => dictSet acc normalizedKey normalizedValue
          | none => acc
        else acc)
      acc raw, kv.1 ∈ allowed ∧ valueBounded kv.2 = true
  | [], acc => by
    intro hacc kv hkv
    exact hacc kv hkv
  | (k0, v0) :: rest, acc => by
    intro hacc
    simp only [List.foldl_cons]
    apply filterParams_go allowed rest
    by_cases hk : pyStrip k0 ∈ allowed
    · rcases hv : normalizePlannerValue v0 with _ | c
      · simpa [hk, hv] using hacc
      · simp only [hk, if_pos, hv]
        intro kv hkv
        rcases dictSet_mem acc (pyStrip k0) c kv hkv with h | h
        · subst h
          exact ⟨hk, valueBounded_normalize v0 c hv⟩
        · exact hacc kv h
    · simpa [hk] using hacc

/-- Every parameter kept by the allow-list filter has an allow-listed key and
a bounded value. -/
theorem filterParams_sound (allowed : List String) (raw : List (String × Json)) :
    ∀ kv ∈ filterParams allowed raw, kv.1 ∈ allowed ∧ valueBounded kv.2 = true := by
  intro kv hkv
  exact filterParams_go allowed raw [] (by simp) kv hkv

/-- Every action produced by `_parse_planned_action` carries a supported name
and only allow-listed, bounded params. -/
theorem parsePlannedAction_sound (payload : Json) (a : PlannedAction)
    (h : parsePlannedAction payload = some a) :
    ∃ target allowed, plannerSpec a.name = some (target, allowed) ∧
      ∀ kv ∈ a.params, kv.1 ∈ allowed ∧ valueBounded kv.2 = true := by
  cases payload with
  | obj fields =>
    simp only [parsePlannedAction] at h
    split at h
    · exact absurd h (by simp)
    · rename_i hname
      split at h
      · exact absurd h (by simp)
      · rename_i target allowed hspec
        simp only [Option.some.injEq] at h
        subst h
        exact ⟨target, allowed, hspec, filterParams_sound allowed _⟩
  | null => simp [parsePlannedAction] at h
  | bool b => simp [parsePlannedAction] at h
  | num n => simp [parsePlannedAction] at h
  | str s => simp [parsePlannedAction] at h
  | arr items => simp [parsePlannedAction] at h

end Planner

namespace Exec

/-- The agents wired into the orchestrator's `self.agents` dict. -/
inductive Agent where
  | product
  | cart
  | order
  | support
  | memory
  | orchestrator
deriving DecidableEq

/-- The dict key under which an agent's data is aggregated. -/
def Agent.key : Agent → String
  | .product => "product"
  | .cart => "cart"
  | .order => "order"
  | .support => "support"
  | .memory => "memory"
  | .orchestrator => "orchestrator"

/-- An action handed to `_execute_planned_actions` (planner actions always
carry a target agent in the supported set, or none). -/
structure Action where
  name : String
  targetAgent : Option Agent

/-- `AgentExecutionResult` as returned by `agent.execute`. -/
structure ExecResult where
  success : Bool
  message : String
  data : Json
  nextActions : List Json

/-- One per-step record appended to `steps`. -/
structure Step where
  index : Nat
  action : String
  targetAgent : String
  success : Bool
  message : String
  error : Option (String × String)

/-- The `combined_data[agent_name]` merge of `_execute_planned_actions`. -/
def mergeData (cd : List (String × Json)) (agentKey : String) (d : Json) : List (String × Json) :=
  match jsonGet cd agentKey with
  | some existing =>
    match existing with
    | .arr l => dictSet cd agentKey (.arr (l ++ [d]))
    | e => dictSet cd agentKey (.arr [e, d])
  | none => dictSet cd agentKey d

/-- Error-code extraction for a failed step (`data.get("code")` fallback
`ACTION_FAILED`). -/
def stepErrorCode (r : ExecResult) : String :=
  match r.data with
  | .obj fields =>
    let raw := pyStrip (pyStr ((jsonGet fields "code").getD (.str "")))
    if raw ≠ "" then raw else "ACTION_FAILED"
  | _ => "ACTION_FAILED"

/-- The message recorded on steps skipped in atomic mode. -/
def skipMessage : String := "Skipped due to previous failure in atomic mode."

/-- The fallback message when no action executed. -/
def emptyPlanMessage : String := "I couldn't execute the requested action plan."

/-- The records appended for the remaining actions after an atomic-mode
failure. -/
def skippedSteps (routeAgent : Agent) : Nat → List Action → List Step
  | _, [] => []
  | i, a :: rest =>
    ⟨i, a.name, (a.targetAgent.getD routeAgent).key, false, skipMessage,
      some ("SKIPPED_ATOMIC_MODE", skipMessage)⟩ :: skippedSteps routeAgent (i + 1) rest

/-- Loop state of `_execute_planned_actions`. -/
structure LoopState where
  combinedData : List (String × Json)
  messages : List String
  suggested : List Json
  steps : List Step
  anySuccess : Bool
  allSuccess : Bool

/-- Initial loop state. -/
def initState : LoopState := ⟨[], [], [], [], false, true⟩

/-- The `for index, action in enumerate(actions, start=1)` loop of
`_execute_planned_actions`; `exec` abstracts `agent.execute`. -/
def runPlanned (exec : Agent → Action → ExecResult) (routeAgent : Agent)
    (atomic : Bool) : Nat → LoopState → List Action → LoopState
  | _, st, [] => st
  | i, st, a :: rest =>
    let agent := a.targetAgent.getD routeAgent
    let r := exec agent a
    let cd := mergeData st.combinedData agent.key r.data
    let error : Option (String × String) :=
      if r.success then none else some (stepErrorCode r, r.message)
    let step : Step := ⟨i, a.name, agent.key, r.success, r.message, error⟩
    let st' : LoopState :=
      ⟨cd, st.messages ++ [r.message], st.suggested ++ r.nextActions,
        st.steps ++ [step], st.anySuccess || r.success, st.allSuccess && r.success⟩
    if atomic && !r.success then
      { st' with steps := st'.steps ++ skippedSteps routeAgent (i + 1) rest }
    else runPlanned exec routeAgent atomic (i + 1) st' rest

/-- Embedding of `Orchestrator._planner_execution_mode`. -/
def plannerExecutionMode (raw : String) : String :=
  let r := pyLower (pyStrip raw)
  if r = "strict" ∨ r = "atomic" then "atomic"
  else if r = "partial" then r
  else "partial"

/-- Embedding of `Orchestrator._execute_planned_actions`; returns the
aggregate result, the reporting agent name and the step records. -/
def executePlannedActions (exec : Agent → Action → ExecResult) (routeAgent : Agent)
    (rawMode : String) (actions : List Action) :
    ExecResult × String × List Step :=
  let atomic := plannerExecutionMode rawMode = "atomic"
  let st := runPlanned exec routeAgent atomic 1 initState actions
  let overallSuccess := if atomic then st.allSuccess else st.anySuccess
  let messages := if st.messages.isEmpty then [emptyPlanMessage] else st.messages
  let combined :=
    if !st.allSuccess && !atomic then dictSet st.combinedData "partialFailure" (.bool true)
    else st.combinedData
  (⟨overallSuccess, String.intercalate " " messages, .obj combined, st.suggested.take 6⟩,
    "orchestrator", st.steps)

/-- Reading a key out of a result's data dict. -/
def dataGet (r : ExecResult) (k : String) : Option Json :=
  match r.data with
  | .obj fields => jsonGet fields k
  | _ => none

/-- The step records the loop produces from position `i` on (the executed
prefix, plus the skipped suffix after an atomic-mode failure). -/
def plannedSteps (exec : Agent → Action → ExecResult) (routeAgent : Agent)
    (atomic : Bool) : Nat → List Action → List Step
  | _, [] => []
  | i, a :: rest =>
    let agent := a.targetAgent.getD routeAgent
    let r := exec agent a
    let error : Option (String × String) :=
      if r.success then none else some (stepErrorCode r, r.message)
    let step : Step := ⟨i, a.name, agent.key, r.success, r.message, error⟩
    if atomic && !r.success then step :: skippedSteps routeAgent (i + 1) rest
    else step :: plannedSteps exec routeAgent atomic (i + 1) rest

theorem skippedSteps_mem (routeAgent : Agent) : ∀ (i : Nat) (l : List Action),
    ∀ s ∈ skippedSteps routeAgent i l,
      s.success = false ∧ s.error = some ("SKIPPED_ATOMIC_MODE", skipMessage)
  | _, [] => by simp [skippedSteps]
  | i, a :: rest => by
    intro s hs
    rcases List.mem_cons.mp hs with h | h
    · subst h
      exact ⟨rfl, rfl⟩
    · exact skippedSteps_mem routeAgent (i + 1) rest s h

theorem skippedSteps_length (routeAgent : Agent) : ∀ (i : Nat) (l : List Action),
    (skippedSteps routeAgent i l).length = l.length
  | _, [] => rfl
  | i, _ :: rest => by
    simp [skippedSteps, skippedSteps_length routeAgent (i + 1) rest]

theorem skippedSteps_record (routeAgent : Agent) : ∀ (l : List Action) (i k : Nat)
    (hk : k < (skippedSteps routeAgent i l).length) (hk' : k < l.length),
    ((skippedSteps routeAgent i l).get ⟨k, hk⟩).index = i + k ∧
    ((skippedSteps routeAgent i l).get ⟨k, hk⟩).action = (l.get ⟨k, hk'⟩).name ∧
    ((skippedSteps routeAgent i l).get ⟨k, hk⟩).targetAgent =
      ((l.get ⟨k, hk'⟩).targetAgent.getD routeAgent).key
  | a :: rest, i, 0, hk, hk' => by simp [skippedSteps]
  | a :: rest, i, k + 1, hk, hk' => by
    have ih := skippedSteps_record routeAgent rest (i + 1) k
      (by simpa [skippedSteps] using hk) (by simpa using hk')
    simpa [skippedSteps, Nat.add_assoc, Nat.add_comm 1 k] using ih

theorem plannedSteps_length (exec : Agent → Action → ExecResult) (routeAgent : Agent)
    (atomic : Bool) : ∀ (i : Nat) (l : List Action),
    (plannedSteps exec routeAgent atomic i l).length = l.length
  | _, [] => rfl
  | i, a :: rest => by
    by_cases h : atomic && !(exec (a.targetAgent.getD routeAgent) a).success
    · simp [plannedSteps, h, skippedSteps_length]
    · simp [plannedSteps, h, plannedSteps_length exec routeAgent atomic (i + 1) rest]

theorem plannedSteps_record (exec : Agent → Action → ExecResult) (routeAgent : Agent)
    (atomic : Bool) : ∀ (l : List Action) (i k : Nat)
    (hk : k < (plannedSteps exec routeAgent atomic i l).length) (hk' : k < l.length),
    ((plannedSteps exec routeAgent atomic i l).get ⟨k, hk⟩).index = i + k ∧
    ((plannedSteps exec routeAgent atomic i l).get ⟨k, hk⟩).action = (l.get ⟨k, hk'⟩).name ∧
    ((plannedSteps exec routeAgent atomic i l).get ⟨k, hk⟩).targetAgent =
      ((l.get ⟨k, hk'⟩).targetAgent.getD routeAgent).key
  | a :: rest, i, 0, hk, hk' => by
    by_cases h : atomic && !(exec (a.targetAgent.getD routeAgent) a).success
    · simp [plannedSteps, h]
    · simp [plannedSteps, h]
  | a :: rest, i, k + 1, hk, hk' => by
    by_cases h : atomic && !(exec (a.targetAgent.getD routeAgent) a).success
    · have ih := skippedSteps_record routeAgent rest (i + 1) k
        (by
          have := hk
          simp only [plannedSteps, h, if_pos] at this
          simpa [skippedSteps_length] using Nat.lt_of_succ_lt_succ this)
        (by simpa using hk')
      simpa [plannedSteps, h, Nat.add_assoc, Nat.add_comm 1 k] using ih
    · have ih := plannedSteps_record exec routeAgent atomic rest (i + 1) k
        (by
          have := hk
          simp only [plannedSteps, h, if_neg] at this
          simpa [plannedSteps_length] using Nat.lt_of_succ_lt_succ this)
        (by simpa using hk')
      simpa [plannedSteps, h, Nat.add_assoc, Nat.add_comm 1 k] using ih

theorem plannedSteps_atomic_skip (exec : Agent → Action → ExecResult) (routeAgent : Agent) :
    ∀ (l : List Action) (i j1 j2 : Nat)
    (h1 : j1 < (plannedSteps exec routeAgent true i l).length)
    (h2 : j2 < (plannedSteps exec routeAgent true i l).length),
    j1 < j2 →
    ((plannedSteps exec routeAgent true i l).get ⟨j1, h1⟩).success = false →
    ((plannedSteps exec routeAgent true i l).get ⟨j2, h2⟩).success = false ∧
    ((plannedSteps exec routeAgent true i l).get ⟨j2, h2⟩).error =
      some ("SKIPPED_ATOMIC_MODE", skipMessage)
  | [], i, j1, j2, h1, h2 => by simp [plannedSteps] at h1
  | a :: rest, i, j1, j2, h1, h2 => by
    intro hlt hfail
    by_cases h : (exec (a.targetAgent.getD routeAgent) a).success
    · -- executed head succeeded, so the loop continued
      match j1, j2 with
      | 0, _ =>
        rw [show ((plannedSteps exec routeAgent true i (a :: rest)).get ⟨0, h1⟩).success
            = (exec (a.targetAgent.getD routeAgent) a).success by
          simp [plannedSteps, h]] at hfail
        exact absurd hfail (by simp [h])
      | k1 + 1, 0 => omega
      | k1 + 1, k2 + 1 =>
        have hlen : (plannedSteps exec routeAgent true (i + 1) rest).length = rest.length :=
          plannedSteps_length exec routeAgent true (i + 1) rest
        have hk1 : k1 < (plannedSteps exec routeAgent true (i + 1) rest).length := by
          have := h1
          simp only [plannedSteps, h, Bool.not_true, Bool.and_false, if_neg] at this
          simpa using Nat.lt_of_succ_lt_succ this
        have hk2 : k2 < (plannedSteps exec routeAgent true (i + 1) rest).length := by
          have := h2
          simp only [plannedSteps, h, Bool.not_true, Bool.and_false, if_neg] at this
          simpa using Nat.lt_of_succ_lt_succ this
        have ih := plannedSteps_atomic_skip exec routeAgent rest (i + 1) k1 k2 hk1 hk2
          (by omega)
          (by
            have heq : ((plannedSteps exec routeAgent true i (a :: rest)).get ⟨k1 + 1, h1⟩)
                = ((plannedSteps exec routeAgent true (i + 1) rest).get ⟨k1, hk1⟩) := by
              simp [plannedSteps, h]
            rw [heq] at hfail
            exact hfail)
        have heq2 : ((plannedSteps exec routeAgent true i (a :: rest)).get ⟨k2 + 1, h2⟩)
            = ((plannedSteps exec routeAgent true (i + 1) rest).get ⟨k2, hk2⟩) := by
          simp [plannedSteps, h]
        rw [heq2]
        exact ih
    · -- executed head failed: everything after position 0 is a skipped record
      have hstop : (plannedSteps exec routeAgent true i (a :: rest)) =
          (⟨i, a.name, (a.targetAgent.getD routeAgent).key, false,
            (exec (a.targetAgent.getD routeAgent) a).message,
            some (stepErrorCode (exec (a.targetAgent.getD routeAgent) a),
              (exec (a.targetAgent.getD routeAgent) a).message)⟩ : Step)
            :: skippedSteps routeAgent (i + 1) rest := by
        have hs : (exec (a.targetAgent.getD routeAgent) a).success = false :=
          Bool.eq_false_iff.mpr h
        simp [plannedSteps, hs]
      match j2 with
      | 0 => omega
      | k2 + 1 =>
        have hk2 : k2 < (skippedSteps routeAgent (i + 1) rest).length := by
          have := h2
          rw [hstop] at this
          simpa using Nat.lt_of_succ_lt_succ this
        have heq2 : ((plannedSteps exec routeAgent true i (a :: rest)).get ⟨k2 + 1, h2⟩)
            = ((skippedSteps routeAgent (i + 1) rest).get ⟨k2, hk2⟩) := by
          have : ∀ (hx : k2 + 1 < ((⟨i, a.name, (a.targetAgent.getD routeAgent).key, false,
              (exec (a.targetAgent.getD routeAgent) a).message,
              some (stepErrorCode (exec (a.targetAgent.getD routeAgent) a),
                (exec (a.targetAgent.getD routeAgent) a).message)⟩ : Step)
              :: skippedSteps routeAgent (i + 1) rest).length),
              (((⟨i, a.name, (a.targetAgent.getD routeAgent).key, false,
                (exec (a.targetAgent.getD routeAgent) a).message,
                some (stepErrorCode (exec (a.targetAgent.getD routeAgent) a),
                  (exec (a.targetAgent.getD routeAgent) a).message)⟩ : Step)
                :: skippedSteps routeAgent (i + 1) rest).get ⟨k2 + 1, hx⟩)
              = ((skippedSteps routeAgent (i + 1) rest).get ⟨k2, hk2⟩) := by
            intro hx
            rfl
          rw [List.get_of_eq hstop]
          exact this _
        rw [heq2]
        exact skippedSteps_mem routeAgent (i + 1) rest _ (List.get_mem _ _ hk2)

theorem runPlanned_spec (exec : Agent → Action → ExecResult) (routeAgent : Agent)
    (atomic : Bool) : ∀ (l : List Action) (i : Nat) (st : LoopState),
    (runPlanned exec routeAgent atomic i st l).steps =
      st.steps ++ plannedSteps exec routeAgent atomic i l ∧
    (runPlanned exec routeAgent atomic i st l).allSuccess =
      (st.allSuccess && (plannedSteps exec routeAgent atomic i l).all (·.success)) ∧
    (runPlanned exec routeAgent atomic i st l).anySuccess =
      (st.anySuccess || (plannedSteps exec routeAgent atomic i l).any (·.success))
  | [], i, st => by simp [runPlanned, plannedSteps]
  | a :: rest, i, st => by
    by_cases h : atomic && !(exec (a.targetAgent.getD routeAgent) a).success
    · have hat : atomic = true := by
        cases atomic
        · simp at h
        · rfl
      have hs : (exec (a.targetAgent.getD routeAgent) a).success = false := by
        cases hsx : (exec (a.targetAgent.getD routeAgent) a).success
        · rfl
        · rw [hat, hsx] at h
          simp at h
      have hany : (skippedSteps routeAgent (i + 1) rest).any (·.success) = false := by
        rw [List.any_eq_false]
        intro s hsmem
        simpa using (skippedSteps_mem routeAgent (i + 1) rest s hsmem).1
      refine ⟨?_, ?_, ?_⟩
      · simp [runPlanned, plannedSteps, hat, hs]
      · simp [runPlanned, plannedSteps, hat, hs]
      · simp [runPlanned, plannedSteps, hat, hs, hany]
    · have ih := runPlanned_spec exec routeAgent atomic rest (i + 1)
        ⟨mergeData st.combinedData (a.targetAgent.getD routeAgent).key
            (exec (a.targetAgent.getD routeAgent) a).data,
          st.messages ++ [(exec (a.targetAgent.getD routeAgent) a).message],
          st.suggested ++ (exec (a.targetAgent.getD routeAgent) a).nextActions,
          st.steps ++ [⟨i, a.name, (a.targetAgent.getD routeAgent).key,
            (exec (a.targetAgent.getD routeAgent) a).success,
            (exec (a.targetAgent.getD routeAgent) a).message,
            if (exec (a.targetAgent.getD routeAgent) a).success then none
            else some (stepErrorCode (exec (a.targetAgent.getD routeAgent) a),
              (exec (a.targetAgent.getD routeAgent) a).message)⟩],
          st.anySuccess || (exec (a.targetAgent.getD routeAgent) a).success,
          st.allSuccess && (exec (a.targetAgent.getD routeAgent) a).success⟩
      refine ⟨?_, ?_, ?_⟩
      · simp only [runPlanned]
        rw [if_neg h, ih.1]
        simp [plannedSteps, h]
      · simp only [runPlanned]
        rw [if_neg h, ih.2.1]
        simp [plannedSteps, h, Bool.and_assoc]
      · simp only [runPlanned]
        rw [if_neg h, ih.2.2]
        simp [plannedSteps, h, Bool.or_assoc]

/-- No agent aggregates its data under the `partialFailure` key. -/
theorem Agent.key_ne_partialFailure (a : Agent) : a.key ≠ "partialFailure" := by
  cases a <;> simp [Agent.key]

theorem mergeData_keys (cd : List (String × Json)) (agentKey : String) (d : Json) :
    ∀ kv ∈ mergeData cd agentKey d, kv.1 = agentKey ∨ kv ∈ cd := by
  intro kv hkv
  unfold mergeData at hkv
  rcases hget : jsonGet cd agentKey with _ | existing
  · rw [hget] at hkv
    rcases dictSet_mem cd agentKey d kv hkv with h | h
    · exact Or.inl (by simp [h])
    · exact Or.inr h
  · rw [hget] at hkv
    cases existing with
    | arr l =>
      rcases dictSet_mem cd agentKey _ kv hkv with h | h
      · exact Or.inl (by simp [h])
      · exact Or.inr h
    | null =>
      rcases dictSet_mem cd agentKey _ kv hkv with h | h
      · exact Or.inl (by simp [h])
      · exact Or.inr h
    | bool b =>
      rcases dictSet_mem cd agentKey _ kv hkv with h | h
      · exact Or.inl (by simp [h])
      · exact Or.inr h
    | num n =>
      rcases dictSet_mem cd agentKey _ kv hkv with h | h
      · exact Or.inl (by simp [h])
      · exact Or.inr h
    | str s =>
      rcases dictSet_mem cd agentKey _ kv hkv with h | h
      · exact Or.inl (by simp [h])
      · exact Or.inr h
    | obj fields =>
      rcases dictSet_mem cd agentKey _ kv hkv with h | h
      · exact Or.inl (by simp [h])
      · exact Or.inr h

theorem runPlanned_combined_keys (exec : Agent → Action → ExecResult) (routeAgent : Agent)
    (atomic : Bool) : ∀ (l : List Action) (i : Nat) (st : LoopState),
    (∀ kv ∈ st.combinedData, ∃ ag : Agent, kv.1 = Agent.key ag) →
    ∀ kv ∈ (runPlanned exec routeAgent atomic i st l).combinedData,
      ∃ ag : Agent, kv.1 = Agent.key ag
  | [], i, st => by
    intro hst kv hkv
    exact hst kv hkv
  | a :: rest, i, st => by
    intro hst kv hkv
    have hmerge : ∀ kv ∈ mergeData st.combinedData (a.targetAgent.getD routeAgent).key
        (exec (a.targetAgent.getD routeAgent) a).data, ∃ ag : Agent, kv.1 = Agent.key ag := by
      intro kv' hkv'
      rcases mergeData_keys _ _ _ kv' hkv' with h | h
      · exact ⟨a.targetAgent.getD routeAgent, h⟩
      · exact hst kv' h
    by_cases h : atomic && !(exec (a.targetAgent.getD routeAgent) a).success
    · simp only [runPlanned, h, if_pos] at hkv
      exact hmerge kv hkv
    · simp only [runPlanned, h, if_neg, Bool.false_eq_true, not_false_iff] at hkv
      exact runPlanned_combined_keys exec routeAgent atomic rest (i + 1) _ hmerge kv hkv

end Exec

namespace Voice

/-- The tenant voice settings singleton (`store.voice_settings`), with the
fields the scheduler reads.  Counts are `Int` (Python ints), money is exact
rational, times are UTC seconds. -/
structure VoiceSettings where
  enabled : Bool
  killSwitch : Bool
  abandonmentMinutes : Int
  maxAttemptsPerCart : Int
  maxCallsPerUserPerDay : Int
  maxCallsPerDay : Int
  dailyBudgetUsd : ℚ
  estimatedCostPerCallUsd : ℚ
  quietHoursStart : Int
  quietHoursEnd : Int
  retryBackoffSeconds : List Int
  assistantId : String
  fromPhoneNumber : String
  defaultTimezone : String

/-- A user record, restricted to the fields the voice scheduler reads. -/
structure VUser where
  id : String
  phone : String
  timezone : String

/-- A cart record, restricted to the fields the voice scheduler reads.
`updatedAtRaw` is the stored ISO string (used verbatim in the recovery key);
`updatedAt` is its parsed UTC time (`_parse_iso`; `none` models an
unparseable value). -/
structure VCart where
  id : String
  userId : String
  sessionId : String
  itemCount : Int
  updatedAtRaw : String
  updatedAt : Option Int

/-- An order record, restricted to the fields `_has_newer_order` reads. -/
structure VOrder where
  userId : String
  createdAt : Option Int

/-- `VoiceJob.status` (every status the source ever assigns). -/
inductive JobStatus where
  | queued
  | retrying
  | processing
  | completed
  | cancelled
  | deadLetter
deriving DecidableEq

/-- A voice-recovery job (`store.voice_jobs_by_id` entries). -/
structure VJob where
  id : Nat
  status : JobStatus
  userId : String
  sessionId : String
  cartId : String
  recoveryKey : String
  attempt : Nat
  nextRunAt : Option Int
  lastError : Option String

/-- `VoiceCall.status`. -/
inductive CallStatus where
  | queued
  | initiated
  | ringing
  | inProgress
  | completed
  | failed
  | suppressed
  | skipped
deriving DecidableEq

/-- A provider event appended by the webhook ingestor. -/
structure ProviderEvent where
  key : String
  status : CallStatus
  outcome : String

/-- A voice call record (`store.voice_calls_by_id` entries); the
`providerEventKeys`/`providerEvents` buffers are written by the webhook
ingestor. -/
structure VCall where
  id : Nat
  recoveryKey : String
  userId : String
  sessionId : String
  cartId : String
  status : CallStatus
  attemptCount : Nat
  providerCallId : Option String
  outcome : String
  followupApplied : Bool
  createdAt : Int
  providerEventKeys : List String
  providerEvents : List ProviderEvent

/-- Embedding of `_normalize_backoff_list` on stored settings values (which
are always lists of Python ints; `int(float(v))` is the identity on them):
keep positive entries, default `[60, 300, 900]` when none survive. -/
def normalizeBackoffList (raw : List Int) : List Int :=
  let values := raw.filter (fun v => 0 < v)
  if values.isEmpty then [60, 300, 900] else values

/-- Hour-of-day of a local timestamp in seconds. -/
def localHourOf (t : Int) : Int := (t % 86400) / 3600

/-- Midnight of the local day containing `t`. -/
def startOfDay (t : Int) : Int := t - t % 86400

/-- `tz_name = user.timezone.strip() or defaultTimezone.strip()`, resolved
through the tz database `tz` (fixed offsets in seconds; `none` models the
`ZoneInfo` failure fallback to UTC). -/
def resolveOffset (tz : String → Option Int) (user : VUser) (settings : VoiceSettings) : Int :=
  let tzName :=
    if pyStrip user.timezone ≠ "" then pyStrip user.timezone
    else pyStrip settings.defaultTimezone
  (tz tzName).getD 0

/-- The three-case quiet window test on a local hour. -/
def quietPred (s e hour : Int) : Bool :=
  if s = e then false
  else if s < e then decide (s ≤ hour ∧ hour < e)
  else decide (hour ≥ s ∨ hour < e)

/-- Embedding of `VoiceRecoveryService._in_quiet_hours`. -/
def inQuietHours (tz : String → Option Int) (user : VUser) (now : Int)
    (settings : VoiceSettings) : Bool :=
  let offset := resolveOffset tz user settings
  quietPred settings.quietHoursStart settings.quietHoursEnd (localHourOf (now + offset))

/-- The `local_target` computation of `_next_non_quiet_time` before the
final collision adjustment (`base` is today's `end:00` local time). -/
def quietLocalTarget (s e localNow : Int) : Int :=
  if s < e then
    if localHourOf localNow ≥ e then startOfDay localNow + e * 3600 + 86400
    else startOfDay localNow + e * 3600
  else
    if localHourOf localNow ≥ s then startOfDay localNow + e * 3600 + 86400
    else if localHourOf localNow < e ∧ startOfDay localNow + e * 3600 ≤ localNow then
      startOfDay localNow + e * 3600 + 86400
    else startOfDay localNow + e * 3600

/-- The local-time target of `_next_non_quiet_time` (the `start == end`
early return is handled by the caller; the final guard adds a minute on a
midnight-boundary collision). -/
def nextNonQuietLocal (s e localNow : Int) : Int :=
  if quietLocalTarget s e localNow ≤ localNow then quietLocalTarget s e localNow + 60
  else quietLocalTarget s e localNow

/-- Embedding of `VoiceRecoveryService._next_non_quiet_time` (returns UTC
seconds; local arithmetic happens at the fixed resolved offset). -/
def nextNonQuietTime (tz : String → Option Int) (user : VUser) (now : Int)
    (settings : VoiceSettings) : Int :=
  let offset := resolveOffset tz user settings
  let s := settings.quietHoursStart
  let e := settings.quietHoursEnd
  if s = e then now + 60
  else nextNonQuietLocal s e (now + offset) - offset

/-- Embedding of `VoiceRecoveryService._budget_and_cap_guardrails`. -/
def budgetAndCapGuardrails (calls : List VCall) (userId : String)
    (settings : VoiceSettings) (now : Int) : String :=
  let callsToday := calls.filter (fun c => startOfDay c.createdAt = startOfDay now)
  if (callsToday.length : Int) ≥ settings.maxCallsPerDay then "max_calls_per_day_reached"
  else
    let userCallsToday := callsToday.filter (fun c => c.userId = userId)
    if (userCallsToday.length : Int) ≥ settings.maxCallsPerUserPerDay then
      "max_calls_per_user_per_day_reached"
    else
      let spendToday := (callsToday.length : ℚ) * settings.estimatedCostPerCallUsd
      if spendToday + settings.estimatedCostPerCallUsd > settings.dailyBudgetUsd then
        "daily_budget_exceeded"
      else "ok"

/-- Embedding of `VoiceRecoveryService._extract_provider_call_id`. -/
def extractProviderCallId (payload : List (String × Json)) : Option String :=
  let direct := ["call_id", "callId", "id", "uuid"]
  match direct.findSome? (fun key =>
    match jsonGet payload key with
    | some (.str v) => if pyStrip v ≠ "" then some (pyStrip v) else none
    | _ => none) with
  | some v => some v
  | none =>
    match jsonGet payload "data" with
    | some (.obj data) =>
      direct.findSome? (fun key =>
        match jsonGet data key with
        | some (.str v) => if pyStrip v ≠ "" then some (pyStrip v) else none
        | _ => none)
    | _ => none

/-- The branch taken by `_process_single_job` for one due job. -/
inductive ProcessDecision where
  | killSwitch
  | cartOrUserMissing
  | suppressedUser
  | missingPhone
  | quietHours (nextRun : Int)
  | guardrail (reason : String)
  | providerNotConfigured
  | dispatched (providerCallId : Option String)
  | dispatchFailedDead (error : String)
  | dispatchFailedRetry (error : String) (attempt : Nat) (nextRun : Int)

/-- Embedding of `VoiceRecoveryService._process_single_job` as a decision
function: `providerResult` abstracts `superu_client.start_outbound_call`
(`Except.error` models a raised exception), `providerEnabled` models
`superu_client.enabled`, `suppressed` the suppression keys, `calls` the
stored calls read by the guardrails. -/
def processSingleJob (tz : String → Option Int) (settings : VoiceSettings)
    (user : Option VUser) (cart : Option VCart) (suppressed : List String)
    (calls : List VCall) (providerEnabled : Bool)
    (providerResult : Except String (List (String × Json)))
    (job : VJob) (now : Int) : ProcessDecision :=
  if settings.killSwitch then .killSwitch
  else
    match user, cart with
    | some u, some c =>
      if c.itemCount ≤ 0 then .cartOrUserMissing
      else if pyStrip u.id ∈ suppressed then .suppressedUser
      else if pyStrip u.phone = "" then .missingPhone
      else if inQuietHours tz u now settings then
        .quietHours (nextNonQuietTime tz u now settings)
      else if budgetAndCapGuardrails calls (pyStrip u.id) settings now ≠ "ok" then
        .guardrail (budgetAndCapGuardrails calls (pyStrip u.id) settings now)
      else if ¬providerEnabled then .providerNotConfigured
      else if pyStrip settings.assistantId = "" ∨ pyStrip settings.fromPhoneNumber = "" then
        .providerNotConfigured
      else
        match providerResult with
        | .ok response => .dispatched (extractProviderCallId response)
        | .error e =>
          let attemptNumber := job.attempt + 1
          let maxAttempts := max 1 settings.maxAttemptsPerCart
          if (attemptNumber : Int) ≥ maxAttempts then .dispatchFailedDead e
          else
            let backoffs := normalizeBackoffList settings.retryBackoffSeconds
            let delay := backoffs.getD (min (attemptNumber - 1) (backoffs.length - 1)) 0
            .dispatchFailedRetry e attemptNumber (now + delay)
    | _, _ => .cartOrUserMissing

/-- Embedding of `VoiceRecoveryService._complete_job` on one job record. -/
def completeJobUpdate (job : VJob) (status : JobStatus) (error : Option String) : VJob :=
  { job with
    status := status
    lastError := error
    nextRunAt :=
      if status = .completed ∨ status = .cancelled ∨ status = .deadLetter then none
      else job.nextRunAt }

/-- Embedding of `VoiceRecoveryService._reschedule_job` on one job record
(`max(0, attempt)` is the identity on `Nat`). -/
def rescheduleJobUpdate (job : VJob) (attempt : Nat) (nextRun : Int)
    (error : Option String) : VJob :=
  { job with
    status := .retrying
    attempt := attempt
    nextRunAt := some nextRun
    lastError := error }

/-- The job update `_process_single_job` performs for each decision. -/
def applyDecisionToJob (d : ProcessDecision) (job : VJob) : VJob :=
  match d with
  | .killSwitch => completeJobUpdate job .cancelled (some "kill_switch")
  | .cartOrUserMissing => completeJobUpdate job .cancelled (some "cart_or_user_missing")
  | .suppressedUser => completeJobUpdate job .cancelled (some "suppressed_user")
  | .missingPhone => completeJobUpdate job .cancelled (some "missing_phone")
  | .quietHours nextRun => rescheduleJobUpdate job job.attempt nextRun none
  | .guardrail reason => completeJobUpdate job .cancelled (some reason)
  | .providerNotConfigured => completeJobUpdate job .cancelled (some "provider_not_configured")
  | .dispatched _ => completeJobUpdate job .completed none
  | .dispatchFailedDead e => completeJobUpdate job .deadLetter (some e)
  | .dispatchFailedRetry e attempt nextRun => rescheduleJobUpdate job attempt nextRun (some e)

/-- The alert `_process_single_job` emits for each decision. -/
def decisionAlert : ProcessDecision → Option String
  | .killSwitch => some "VOICE_KILL_SWITCH_ACTIVE"
  | .guardrail _ => some "VOICE_GUARDRAIL_TRIGGERED"
  | .providerNotConfigured => some "VOICE_PROVIDER_NOT_CONFIGURED"
  | .dispatchFailedDead _ => some "VOICE_DEAD_LETTER"
  | _ => none

theorem normalizeBackoffList_ne_nil (raw : List Int) : normalizeBackoffList raw ≠ [] := by
  unfold normalizeBackoffList
  by_cases h : (raw.filter (fun v => 0 < v)).isEmpty
  · simp [h]
  · simp only [h, if_neg, Bool.false_eq_true, not_false_iff]
    simpa [List.isEmpty_iff] using h

/-- Rescheduling inside quiet hours lands on the first non-quiet instant: the
target is strictly later than `localNow`, not quiet, and every instant in
between is quiet. -/
theorem nextNonQuietLocal_spec (s e L : Int)
    (hs0 : 0 ≤ s) (hs23 : s ≤ 23) (he0 : 0 ≤ e) (he23 : e ≤ 23)
    (hq : quietPred s e (localHourOf L) = true) :
    L < nextNonQuietLocal s e L ∧
    quietPred s e (localHourOf (nextNonQuietLocal s e L)) = false ∧
    ∀ T, L < T → T < nextNonQuietLocal s e L → quietPred s e (localHourOf T) = true := by
  have hne : s ≠ e := by
    intro h
    simp [quietPred, h] at hq
  rcases lt_or_gt_of_ne hne with hlt | hgt
  · have hq' : s ≤ L % 86400 / 3600 ∧ L % 86400 / 3600 < e := by
      simpa [quietPred, hne, hlt, localHourOf] using hq
    have hQ : quietLocalTarget s e L = startOfDay L + e * 3600 := by
      unfold quietLocalTarget
      rw [if_pos hlt,
        if_neg (show ¬ localHourOf L ≥ e by simp only [localHourOf]; omega)]
    have htarget : nextNonQuietLocal s e L = startOfDay L + e * 3600 := by
      unfold nextNonQuietLocal
      rw [hQ,
        if_neg (show ¬ startOfDay L + e * 3600 ≤ L by simp only [startOfDay]; omega)]
    rw [htarget]
    simp only [quietPred, if_neg hne, if_pos hlt, localHourOf, startOfDay,
      decide_eq_false_iff_not, not_and, not_lt, decide_eq_true_eq]
    refine ⟨by omega, by omega, ?_⟩
    intro T h1 h2
    omega
  · have hnlt : ¬ s < e := by omega
    have hq' : s ≤ L % 86400 / 3600 ∨ L % 86400 / 3600 < e := by
      simpa [quietPred, hne, hnlt, localHourOf] using hq
    rcases Classical.em (s ≤ L % 86400 / 3600) with hcase | hcase
    · have hQ : quietLocalTarget s e L = startOfDay L + e * 3600 + 86400 := by
        unfold quietLocalTarget
        rw [if_neg hnlt,
          if_pos (show localHourOf L ≥ s by simp only [localHourOf]; omega)]
      have htarget : nextNonQuietLocal s e L = startOfDay L + e * 3600 + 86400 := by
        unfold nextNonQuietLocal
        rw [hQ,
          if_neg (show ¬ startOfDay L + e * 3600 + 86400 ≤ L by
            simp only [startOfDay]; omega)]
      rw [htarget]
      simp only [quietPred, if_neg hne, if_neg hnlt, localHourOf, startOfDay,
        decide_eq_false_iff_not, not_or, not_le, not_lt, decide_eq_true_eq, ge_iff_le]
      refine ⟨by omega, by omega, ?_⟩
      intro T h1 h2
      omega
    · have hend : L % 86400 / 3600 < e := by
        rcases hq' with h | h
        · exact absurd h hcase
        · exact h
      have hQ : quietLocalTarget s e L = startOfDay L + e * 3600 := by
        unfold quietLocalTarget
        rw [if_neg hnlt,
          if_neg (show ¬ localHourOf L ≥ s by simp only [localHourOf]; omega),
          if_neg (show ¬ (localHourOf L < e ∧ startOfDay L + e * 3600 ≤ L) by
            simp only [localHourOf, startOfDay]
            intro hx
            omega)]
      have htarget : nextNonQuietLocal s e L = startOfDay L + e * 3600 := by
        unfold nextNonQuietLocal
        rw [hQ,
          if_neg (show ¬ startOfDay L + e * 3600 ≤ L by simp only [startOfDay]; omega)]
      rw [htarget]
      simp only [quietPred, if_neg hne, if_neg hnlt, localHourOf, startOfDay,
        decide_eq_false_iff_not, not_or, not_le, not_lt, decide_eq_true_eq, ge_iff_le]
      refine ⟨by omega, by omega, ?_⟩
      intro T h1 h2
      omega

theorem getD_pred_length_eq_getLastD (l : List Int) (h : l ≠ []) :
    l.getD (l.length - 1) 0 = l.getLastD 0 := by
  induction l with
  | nil => exact absurd rfl h
  | cons x xs ih =>
    cases xs with
    | nil => rfl
    | cons y ys =>
      have hne : y :: ys ≠ [] := by simp
      have := ih hne
      simpa [List.getD, List.getLastD_cons] using this

/-- Association-list assignment for string-valued maps
(`store.voice_call_idempotency`). -/
def assocSet (l : List (String × String)) (k v : String) : List (String × String) :=
  match l with
  | [] => [(k, v)]
  | (k', v') :: rest => if k' = k then (k, v) :: rest else (k', v') :: assocSet rest k v

/-- The in-memory store state read and written by `VoiceRecoveryService`.
`counter` models the monotone `next_id` counter. -/
structure StoreState where
  jobs : List VJob
  calls : List VCall
  idem : List (String × String)
  carts : List VCart
  users : List VUser
  orders : List VOrder
  suppressions : List String
  settings : VoiceSettings
  counter : Nat

/-- `recoveryKey = f"{cart['id']}::{cart['updatedAt']}"`. -/
def cartRecoveryKey (cart : VCart) : String :=
  cart.id ++ "::" ++ cart.updatedAtRaw

/-- The status filter of `_enqueue_abandoned_cart_jobs` (every job status). -/
def jobStatusFull : List JobStatus :=
  [.queued, .retrying, .processing, .completed, .cancelled, .deadLetter]

/-- `existing_keys`: recovery keys of jobs whose status is in the filter. -/
def existingJobKeys (jobs : List VJob) : List String :=
  (jobs.filter (fun j => j.status ∈ jobStatusFull)).map (fun j => j.recoveryKey)

/-- Embedding of `VoiceRecoveryService._has_newer_order`. -/
def hasNewerOrder (orders : List VOrder) (userId : String) (since : Int) : Bool :=
  orders.any (fun o =>
    decide (o.userId = userId) &&
      match o.createdAt with
      | some createdAt => decide (since < createdAt)
      | none => false)

/-- The per-cart loop of `_enqueue_abandoned_cart_jobs`: returns the newly
created jobs and the advanced id counter. -/
def enqueueLoop (settings : VoiceSettings) (orders : List VOrder) (now : Int) :
    List VCart → List String → List (String × String) → Nat → List VJob × Nat
  | [], _, _, counter => ([], counter)
  | cart :: rest, keys, idem, counter =>
    if pyStrip cart.userId = "" then enqueueLoop settings orders now rest keys idem counter
    else if cart.itemCount ≤ 0 then enqueueLoop settings orders now rest keys idem counter
    else
      match cart.updatedAt with
      | none => enqueueLoop settings orders now rest keys idem counter
      | some updatedAt =>
        if now - settings.abandonmentMinutes * 60 < updatedAt then
          enqueueLoop settings orders now rest keys idem counter
        else if hasNewerOrder orders (pyStrip cart.userId) updatedAt then
          enqueueLoop settings orders now rest keys idem counter
        else if cartRecoveryKey cart ∈ idem.map (fun kv => kv.1) then
          enqueueLoop settings orders now rest keys idem counter
        else if cartRecoveryKey cart ∈ keys then
          enqueueLoop settings orders now rest keys idem counter
        else
          let job : VJob :=
            ⟨counter, .queued, pyStrip cart.userId, cart.sessionId, cart.id,
              cartRecoveryKey cart, 0, some now, none⟩
          let result := enqueueLoop settings orders now rest
            (cartRecoveryKey cart :: keys) idem (counter + 1)
          (job :: result.1, result.2)

/-- Embedding of `VoiceRecoveryService._enqueue_abandoned_cart_jobs`. -/
def enqueueAbandonedCartJobs (st : StoreState) (now : Int) : StoreState :=
  if ¬ st.settings.enabled then st
  else
    let result := enqueueLoop st.settings st.orders now st.carts
      (existingJobKeys st.jobs) st.idem st.counter
    { st with jobs := st.jobs ++ result.1, counter := result.2 }

/-- `store.voice_calls_by_id[call["id"]] = call`: replace by id or append. -/
def storeCall : List VCall → VCall → List VCall
  | [], c => [c]
  | x :: rest, c => if x.id = c.id then c :: rest else x :: storeCall rest c

/-- The lookup loop of `_get_or_create_call`. -/
def findCallByKey (calls : List VCall) (key : String) : Option VCall :=
  calls.find? (fun c => c.recoveryKey = key)

/-- The fresh call payload created by `_get_or_create_call`. -/
def newCallPayload (st : StoreState) (job : VJob) (user : Option VUser) (now : Int) : VCall :=
  ⟨st.counter, pyStrip job.recoveryKey, (user.map (fun u => u.id)).getD "",
    job.sessionId, job.cartId, .queued, 0, none, "", false, now, [], []⟩

/-- Embedding of `VoiceRecoveryService._get_or_create_call`: reuse the call
with the job's recovery key, else create one under a fresh id. -/
def getOrCreateCall (st : StoreState) (job : VJob) (user : Option VUser) (now : Int) :
    VCall × StoreState :=
  match findCallByKey st.calls (pyStrip job.recoveryKey) with
  | some existing => (existing, st)
  | none =>
    (newCallPayload st job user now,
      { st with
        calls := storeCall st.calls (newCallPayload st job user now)
        counter := st.counter + 1 })

/-- The field updates `_record_call_event` applies to the call (the appended
attempt row is summarised by `attemptCount`). -/
def updatedCallEvent (c : VCall) (status : CallStatus)
    (providerCallId : Option String) : VCall :=
  { c with
    status := status
    attemptCount := c.attemptCount + 1
    providerCallId :=
      match providerCallId with
      | some p => some p
      | none => c.providerCallId }

/-- Embedding of `VoiceRecoveryService._record_call_event`. -/
def recordCallEvent (st : StoreState) (job : VJob) (user : Option VUser)
    (status : CallStatus) (providerCallId : Option String) (now : Int) : StoreState :=
  let result := getOrCreateCall st job user now
  { result.2 with
    calls := storeCall result.2.calls (updatedCallEvent result.1 status providerCallId) }

/-- One store mutation performed by the voice-recovery service.  Job and
call field updates (`_complete_job`, `_reschedule_job`,
`_update_call_progress`, `_update_call_terminal`, the webhook ingestor's
event appends) never touch `id` or `recoveryKey`, which the `hf` premises
record. -/
inductive VStep : StoreState → StoreState → Prop where
  | enqueue (st : StoreState) (now : Int) :
      VStep st (enqueueAbandonedCartJobs st now)
  | jobUpdate (st : StoreState) (id : Nat) (f : VJob → VJob)
      (hf : ∀ j, (f j).recoveryKey = j.recoveryKey) :
      VStep st { st with jobs := st.jobs.map (fun j => if j.id = id then f j else j) }
  | callEvent (st : StoreState) (job : VJob) (user : Option VUser)
      (status : CallStatus) (providerCallId : Option String) (now : Int) :
      VStep st (recordCallEvent st job user status providerCallId now)
  | callUpdate (st : StoreState) (id : Nat) (f : VCall → VCall)
      (hf : ∀ c, (f c).recoveryKey = c.recoveryKey ∧ (f c).id = c.id) :
      VStep st { st with calls := st.calls.map (fun c => if c.id = id then f c else c) }
  | setIdem (st : StoreState) (key value : String) :
      VStep st { st with idem := assocSet st.idem key value }
  | externals (st : StoreState) (carts : List VCart) (users : List VUser)
      (orders : List VOrder) (suppressions : List String) (settings : VoiceSettings) :
      VStep st
        { st with
          carts := carts
          users := users
          orders := orders
          suppressions := suppressions
          settings := settings }

/-- The store states reachable from a boot state (no jobs, calls or
idempotency marks) through the service's mutations. -/
inductive VReachable : StoreState → Prop where
  | init (carts : List VCart) (users : List VUser) (orders : List VOrder)
      (suppressions : List String) (settings : VoiceSettings) (counter : Nat) :
      VReachable ⟨[], [], [], carts, users, orders, suppressions, settings, counter⟩
  | step (st st' : StoreState) : VReachable st → VStep st st' → VReachable st'

/-- The inductive invariant: recovery keys are unique among jobs and among
calls, call ids are unique and below the counter. -/
def VoiceKeyInvariant (st : StoreState) : Prop :=
  (st.jobs.map (fun j => j.recoveryKey)).Nodup ∧
  (st.calls.map (fun c => c.recoveryKey)).Nodup ∧
  (st.calls.map (fun c => c.id)).Nodup ∧
  ∀ c ∈ st.calls, c.id < st.counter

theorem jobStatus_mem_full (s : JobStatus) : s ∈ jobStatusFull := by
  cases s <;> simp [jobStatusFull]

theorem existingJobKeys_eq (jobs : List VJob) :
    existingJobKeys jobs = jobs.map (fun j => j.recoveryKey) := by
  unfold existingJobKeys
  rw [List.filter_eq_self.mpr]
  intro j _
  simp [jobStatus_mem_full]

theorem count_le_one_of_nodup_map {α : Type} (f : α → String) :
    ∀ (l : List α), (l.map f).Nodup →
    ∀ key, (l.filter (fun x => f x = key)).length ≤ 1
  | [], _, key => by simp
  | x :: rest, h, key => by
    have hpair : (∀ y ∈ rest, ¬ f y = f x) ∧ (rest.map f).Nodup := by simpa using h
    have hrest := count_le_one_of_nodup_map f rest hpair.2 key
    by_cases hx : f x = key
    · have hfilter : rest.filter (fun y => decide (f y = key)) = [] := by
        rw [List.filter_eq_nil_iff]
        intro y hy
        simp only [decide_eq_true_eq]
        intro hk
        exact hpair.1 y hy (hk.trans hx.symm)
      simp [List.filter_cons, hx, hfilter]
    · simpa [List.filter_cons, hx] using hrest

theorem enqueueLoop_fresh (settings : VoiceSettings) (orders : List VOrder) (now : Int) :
    ∀ (carts : List VCart) (keys : List String) (idem : List (String × String))
      (counter : Nat),
    ∀ j ∈ (enqueueLoop settings orders now carts keys idem counter).1,
      j.recoveryKey ∉ keys ∧ j.recoveryKey ∉ idem.map (fun kv => kv.1)
  | [], keys, idem, counter => by simp [enqueueLoop]
  | cart :: rest, keys, idem, counter => by
    intro j hj
    unfold enqueueLoop at hj
    split at hj
    · exact enqueueLoop_fresh settings orders now rest keys idem counter j hj
    · split at hj
      · exact enqueueLoop_fresh settings orders now rest keys idem counter j hj
      · split at hj
        · exact enqueueLoop_fresh settings orders now rest keys idem counter j hj
        · rename_i updatedAt
          split at hj
          · exact enqueueLoop_fresh settings orders now rest keys idem counter j hj
          · split at hj
            · exact enqueueLoop_fresh settings orders now rest keys idem counter j hj
            · split at hj
              · exact enqueueLoop_fresh settings orders now rest keys idem counter j hj
              · split at hj
                · exact enqueueLoop_fresh settings orders now rest keys idem counter j hj
                · rename_i hidem hkeys
                  rcases List.mem_cons.mp hj with hj | hj
                  · subst hj
                    exact ⟨hkeys, hidem⟩
                  · have := enqueueLoop_fresh settings orders now rest
                      (cartRecoveryKey cart :: keys) idem (counter + 1) j hj
                    exact ⟨fun hmem => this.1 (List.mem_cons_of_mem _ hmem), this.2⟩

theorem enqueueLoop_nodup (settings : VoiceSettings) (orders : List VOrder) (now : Int) :
    ∀ (carts : List VCart) (keys : List String) (idem : List (String × String))
      (counter : Nat),
    ((enqueueLoop settings orders now carts keys idem counter).1.map
      (fun j => j.recoveryKey)).Nodup
  | [], keys, idem, counter => by simp [enqueueLoop]
  | cart :: rest, keys, idem, counter => by
    unfold enqueueLoop
    split
    · exact enqueueLoop_nodup settings orders now rest keys idem counter
    · split
      · exact enqueueLoop_nodup settings orders now rest keys idem counter
      · split
        · exact enqueueLoop_nodup settings orders now rest keys idem counter
        · split
          · exact enqueueLoop_nodup settings orders now rest keys idem counter
          · split
            · exact enqueueLoop_nodup settings orders now rest keys idem counter
            · split
              · exact enqueueLoop_nodup settings orders now rest keys idem counter
              · split
                · exact enqueueLoop_nodup settings orders now rest keys idem counter
                · rw [List.map_cons, List.nodup_cons]
                  refine ⟨?_, enqueueLoop_nodup settings orders now rest
                    (cartRecoveryKey cart :: keys) idem (counter + 1)⟩
                  intro hmem
                  rcases List.mem_map.mp hmem with ⟨j, hj, hkey⟩
                  have := (enqueueLoop_fresh settings orders now rest
                    (cartRecoveryKey cart :: keys) idem (counter + 1) j hj).1
                  exact this (by simp [hkey])

theorem enqueueLoop_counter_le (settings : VoiceSettings) (orders : List VOrder) (now : Int) :
    ∀ (carts : List VCart) (keys : List String) (idem : List (String × String))
      (counter : Nat),
    counter ≤ (enqueueLoop settings orders now carts keys idem counter).2
  | [], keys, idem, counter => Nat.le_refl counter
  | cart :: rest, keys, idem, counter => by
    unfold enqueueLoop
    split
    · exact enqueueLoop_counter_le settings orders now rest keys idem counter
    · split
      · exact enqueueLoop_counter_le settings orders now rest keys idem counter
      · split
        · exact enqueueLoop_counter_le settings orders now rest keys idem counter
        · split
          · exact enqueueLoop_counter_le settings orders now rest keys idem counter
          · split
            · exact enqueueLoop_counter_le settings orders now rest keys idem counter
            · split
              · exact enqueueLoop_counter_le settings orders now rest keys idem counter
              · split
                · exact enqueueLoop_counter_le settings orders now rest keys idem counter
                · exact Nat.le_trans (Nat.le_succ counter)
                    (enqueueLoop_counter_le settings orders now rest
                      (cartRecoveryKey cart :: keys) idem (counter + 1))

theorem storeCall_mem : ∀ (calls : List VCall) (c : VCall),
    ∀ x ∈ storeCall calls c, x = c ∨ x ∈ calls
  | [], c => by simp [storeCall]
  | y :: rest, c => by
    intro x hx
    unfold storeCall at hx
    by_cases h : y.id = c.id
    · rw [if_pos h] at hx
      rcases List.mem_cons.mp hx with h' | h'
      · exact Or.inl h'
      · exact Or.inr (List.mem_cons_of_mem _ h')
    · rw [if_neg h] at hx
      rcases List.mem_cons.mp hx with h' | h'
      · exact Or.inr (by simp [h'])
      · rcases storeCall_mem rest c x h' with h'' | h''
        · exact Or.inl h''
        · exact Or.inr (List.mem_cons_of_mem _ h'')

theorem storeCall_append : ∀ (calls : List VCall) (c : VCall),
    (∀ x ∈ calls, x.id ≠ c.id) → storeCall calls c = calls ++ [c]
  | [], c => by simp [storeCall]
  | y :: rest, c => by
    intro h
    unfold storeCall
    rw [if_neg (h y (by simp))]
    rw [storeCall_append rest c (fun x hx => h x (List.mem_cons_of_mem _ hx))]
    simp

theorem storeCall_maps : ∀ (calls : List VCall) (c existing : VCall),
    (calls.map (fun x => x.id)).Nodup → existing ∈ calls →
    c.id = existing.id → c.recoveryKey = existing.recoveryKey →
    (storeCall calls c).map (fun x => x.recoveryKey) =
      calls.map (fun x => x.recoveryKey) ∧
    (storeCall calls c).map (fun x => x.id) = calls.map (fun x => x.id)
  | [], c, existing => by simp
  | y :: rest, c, existing => by
    intro hnodup hmem hid hkey
    have hpair : (∀ x ∈ rest, ¬ x.id = y.id) ∧ (rest.map (fun x => x.id)).Nodup := by
      simpa using hnodup
    unfold storeCall
    by_cases h : y.id = c.id
    · rw [if_pos h]
      have hxy : existing = y := by
        rcases List.mem_cons.mp hmem with h' | h'
        · exact h'
        · exact absurd (h.trans hid).symm (hpair.1 existing h')
      subst hxy
      refine ⟨?_, ?_⟩
      · simp only [List.map_cons]
        rw [hkey]
      · simp only [List.map_cons]
        rw [hid]
    · rw [if_neg h]
      have hmem' : existing ∈ rest := by
        rcases List.mem_cons.mp hmem with h' | h'
        · exact absurd (h' ▸ hid.symm) h
        · exact h'
      have ih := storeCall_maps rest c existing hpair.2 hmem' hid hkey
      simp [ih.1, ih.2]

/-- Every service mutation preserves the key-uniqueness invariant. -/
theorem vstep_preserves (st st' : StoreState) (hstep : VStep st st')
    (hinv : VoiceKeyInvariant st) : VoiceKeyInvariant st' := by
  cases hstep with
  | enqueue now =>
    unfold enqueueAbandonedCartJobs
    by_cases hen : ¬ st.settings.enabled
    · rw [if_pos hen]
      exact hinv
    · rw [if_neg hen]
      refine ⟨?_, hinv.2.1, hinv.2.2.1, ?_⟩
      · rw [List.map_append]
        refine List.Nodup.append hinv.1 (enqueueLoop_nodup _ _ _ _ _ _ _) ?_
        intro k hk1 hk2
        rcases List.mem_map.mp hk2 with ⟨j, hj, hkey⟩
        have := (enqueueLoop_fresh st.settings st.orders now st.carts
          (existingJobKeys st.jobs) st.idem st.counter j hj).1
        rw [existingJobKeys_eq] at this
        exact this (hkey ▸ hk1)
      · intro c hc
        exact Nat.lt_of_lt_of_le (hinv.2.2.2 c hc)
          (enqueueLoop_counter_le st.settings st.orders now st.carts
            (existingJobKeys st.jobs) st.idem st.counter)
  | jobUpdate id f hf =>
    refine ⟨?_, hinv.2.1, hinv.2.2.1, hinv.2.2.2⟩
    have hmapeq : (st.jobs.map (fun j => if j.id = id then f j else j)).map
        (fun j => j.recoveryKey) = st.jobs.map (fun j => j.recoveryKey) := by
      rw [List.map_map]
      apply List.map_congr_left
      intro j _
      by_cases hj : j.id = id
      · simp [hj, hf j]
      · simp [hj]
    rw [hmapeq]
    exact hinv.1
  | callEvent job user status providerCallId now =>
    cases hfind : findCallByKey st.calls (pyStrip job.recoveryKey) with
    | some existing =>
      have hmem : existing ∈ st.calls := List.mem_of_find?_eq_some hfind
      have hgoal : recordCallEvent st job user status providerCallId now =
          { st with calls :=
            storeCall st.calls (updatedCallEvent existing status providerCallId) } := by
        unfold recordCallEvent getOrCreateCall
        rw [hfind]
      rw [hgoal]
      have hmaps := storeCall_maps st.calls
        (updatedCallEvent existing status providerCallId) existing
        hinv.2.2.1 hmem rfl rfl
      refine ⟨hinv.1, ?_, ?_, ?_⟩
      · rw [hmaps.1]
        exact hinv.2.1
      · rw [hmaps.2]
        exact hinv.2.2.1
      · intro c hc
        rcases storeCall_mem _ _ c hc with h | h
        · rw [h]
          exact hinv.2.2.2 existing hmem
        · exact hinv.2.2.2 c h
    | none =>
      have hnokey : ∀ c ∈ st.calls, ¬ c.recoveryKey = pyStrip job.recoveryKey := by
        intro c hc
        have := List.find?_eq_none.mp hfind c hc
        simpa using this
      have hfresh : ∀ x ∈ st.calls, x.id ≠ st.counter := by
        intro x hx
        exact Nat.ne_of_lt (hinv.2.2.2 x hx)
      have hgoal : recordCallEvent st job user status providerCallId now =
          { st with
            calls := storeCall (storeCall st.calls (newCallPayload st job user now))
              (updatedCallEvent (newCallPayload st job user now) status providerCallId)
            counter := st.counter + 1 } := by
        unfold recordCallEvent getOrCreateCall
        rw [hfind]
      rw [hgoal]
      rw [storeCall_append st.calls _ hfresh]
      have hkeys1 : ((st.calls ++ [newCallPayload st job user now]).map
          (fun c => c.recoveryKey)).Nodup := by
        rw [List.map_append]
        refine List.Nodup.append hinv.2.1 (by simp) ?_
        intro k hk1 hk2
        simp only [List.map_cons, List.map_nil, List.mem_singleton] at hk2
        subst hk2
        rcases List.mem_map.mp hk1 with ⟨c, hc, hkey⟩
        exact hnokey c hc hkey
      have hids1 : ((st.calls ++ [newCallPayload st job user now]).map
          (fun c => c.id)).Nodup := by
        rw [List.map_append]
        refine List.Nodup.append hinv.2.2.1 (by simp) ?_
        intro k hk1 hk2
        simp only [List.map_cons, List.map_nil, List.mem_singleton] at hk2
        subst hk2
        rcases List.mem_map.mp hk1 with ⟨c, hc, hkey⟩
        exact hfresh c hc hkey
      have hmem1 : newCallPayload st job user now ∈
          st.calls ++ [newCallPayload st job user now] := by simp
      have hmaps := storeCall_maps (st.calls ++ [newCallPayload st job user now])
        (updatedCallEvent (newCallPayload st job user now) status providerCallId)
        (newCallPayload st job user now) hids1 hmem1 rfl rfl
      refine ⟨hinv.1, ?_, ?_, ?_⟩
      · rw [hmaps.1]
        exact hkeys1
      · rw [hmaps.2]
        exact hids1
      · intro c hc
        rcases storeCall_mem _ _ c hc with h | h
        · rw [h]
          exact Nat.lt_succ_self st.counter
        · rcases List.mem_append.mp h with h' | h'
          · exact Nat.lt_succ_of_lt (hinv.2.2.2 c h')
          · simp only [List.mem_singleton] at h'
            rw [h']
            exact Nat.lt_succ_self st.counter
  | callUpdate id f hf =>
    refine ⟨hinv.1, ?_, ?_, ?_⟩
    · have hmapeq : (st.calls.map (fun c => if c.id = id then f c else c)).map
          (fun c => c.recoveryKey) = st.calls.map (fun c => c.recoveryKey) := by
        rw [List.map_map]
        apply List.map_congr_left
        intro c _
        by_cases hc : c.id = id
        · simp [hc, (hf c).1]
        · simp [hc]
      rw [hmapeq]
      exact hinv.2.1
    · have hmapeq : (st.calls.map (fun c => if c.id = id then f c else c)).map
          (fun c => c.id) = st.calls.map (fun c => c.id) := by
        rw [List.map_map]
        apply List.map_congr_left
        intro c _
        by_cases hc : c.id = id
        · simp [hc, (hf c).2]
        · simp [hc]
      rw [hmapeq]
      exact hinv.2.2.1
    · intro c hc
      rcases List.mem_map.mp hc with ⟨c0, hc0, hmap⟩
      by_cases h0 : c0.id = id
      · rw [← hmap]
        simp only [h0, if_pos]
        rw [(hf c0).2]
        exact hinv.2.2.2 c0 hc0
      · rw [← hmap]
        simp only [h0, if_neg, ite_false]
        exact hinv.2.2.2 c0 hc0
  | setIdem key value => exact hinv
  | externals carts users orders suppressions settings => exact hinv

/-- Every reachable store state satisfies the invariant. -/
theorem vreachable_invariant (st : StoreState) (h : VReachable st) :
    VoiceKeyInvariant st := by
  induction h with
  | init carts users orders suppressions settings counter =>
    exact ⟨by simp, by simp, by simp, by simp⟩
  | step st st' hr hstep ih => exact vstep_preserves st st' hstep ih

end Voice

end Commerce

/-- C3: in every reachable store state, each `recoveryKey` is carried by at
most one `VoiceJob` with status in the full status set and by at most one
`VoiceCall`; enqueueing skips every cart whose key already has such a job or
an idempotency mark, and call creation reuses the existing call with the same
key. -/
theorem C3_recovery_key_uniqueness (st : Commerce.Voice.StoreState)
    (h : Commerce.Voice.VReachable st) :
    (∀ key, (st.jobs.filter (fun j =>
      j.status ∈ Commerce.Voice.jobStatusFull ∧ j.recoveryKey = key)).length ≤ 1) ∧
    (∀ key, (st.calls.filter (fun c => c.recoveryKey = key)).length ≤ 1) ∧
    (∀ (now : Int), ∀ j ∈ (Commerce.Voice.enqueueAbandonedCartJobs st now).jobs,
      j ∈ st.jobs ∨
      (j.recoveryKey ∉ st.jobs.map (fun j' => j'.recoveryKey) ∧
        j.recoveryKey ∉ st.idem.map (fun kv => kv.1))) ∧
    (∀ (job : Commerce.Voice.VJob) (user : Option Commerce.Voice.VUser) (now : Int)
        (existing : Commerce.Voice.VCall),
      Commerce.Voice.findCallByKey st.calls (Commerce.pyStrip job.recoveryKey) =
        some existing →
      Commerce.Voice.getOrCreateCall st job user now = (existing, st)) := by
  have hinv := Commerce.Voice.vreachable_invariant st h
  refine ⟨?_, ?_, ?_, ?_⟩
  · intro key
    have hfilter : st.jobs.filter (fun j =>
        j.status ∈ Commerce.Voice.jobStatusFull ∧ j.recoveryKey = key) =
        st.jobs.filter (fun j => j.recoveryKey = key) := by
      apply List.filter_congr
      intro j _
      simp [Commerce.Voice.jobStatus_mem_full]
    rw [hfilter]
    exact Commerce.Voice.count_le_one_of_nodup_map _ st.jobs hinv.1 key
  · intro key
    exact Commerce.Voice.count_le_one_of_nodup_map _ st.calls hinv.2.1 key
  · intro now j hj
    unfold Commerce.Voice.enqueueAbandonedCartJobs at hj
    by_cases hen : ¬ st.settings.enabled
    · rw [if_pos hen] at hj
      exact Or.inl hj
    · rw [if_neg hen] at hj
      rcases List.mem_append.mp hj with hmem | hmem
      · exact Or.inl hmem
      · right
        have := Commerce.Voice.enqueueLoop_fresh st.settings st.orders now st.carts
          (Commerce.Voice.existingJobKeys st.jobs) st.idem st.counter j hmem
        rw [Commerce.Voice.existingJobKeys_eq] at this
        exact this
  · intro job user now existing hfind
    unfold Commerce.Voice.getOrCreateCall
    rw [hfind]

/-- The C3 witness initial state: one abandoned cart, scheduler enabled. -/
def c3State0 : Commerce.Voice.StoreState :=
  ⟨[], [], [], [⟨"cart_1", "user_1", "sess_1", 1, "t0", some 0⟩],
    [⟨"user_1", "+200", ""⟩], [], [],
    ⟨true, false, 30, 1, 2, 300, 0, 0, 0, 0, [60], "asst", "+100", "UTC"⟩, 0⟩

/-- The C3 witness state after one enqueue tick. -/
def c3State1 : Commerce.Voice.StoreState :=
  Commerce.Voice.enqueueAbandonedCartJobs c3State0 100000

/-- Witness for C3: after an enqueue tick on the concrete state, the cart's
recovery key is carried by at most one job and one call. -/
theorem C3_recovery_key_uniqueness_witness :
    (c3State1.jobs.filter (fun j =>
      j.status ∈ Commerce.Voice.jobStatusFull ∧ j.recoveryKey = "cart_1::t0")).length ≤ 1 ∧
    (c3State1.calls.filter (fun c => c.recoveryKey = "cart_1::t0")).length ≤ 1 := by
  have hr : Commerce.Voice.VReachable c3State1 :=
    Commerce.Voice.VReachable.step c3State0 c3State1
      (Commerce.Voice.VReachable.init _ _ _ _ _ _)
      (Commerce.Voice.VStep.enqueue c3State0 100000)
  have h := C3_recovery_key_uniqueness c3State1 hr
  exact ⟨h.1 "cart_1::t0", h.2.1 "cart_1::t0"⟩

namespace Commerce

namespace Ingest

open Voice

/-- A terminal-outcome follow-up action selected by `_apply_outcome_actions`
(suppression, support ticket plus notification, or a notification). -/
inductive FollowupEffect where
  | suppress (userId : String)
  | callbackTicket (userId : String) (sessionId : String)
  | conversionIntent (userId : String)
  | callFailed (userId : String)
deriving DecidableEq

/-- Embedding of `VoiceRecoveryService._apply_outcome_actions`: choose the
follow-up action for a call's terminal outcome; the caller performs the
corresponding suppression / ticket / notification side effect. -/
def applyOutcomeActions (call : VCall) : Option FollowupEffect :=
  if pyStrip call.userId = "" then none
  else if pyLower (pyStrip call.outcome) = "do_not_call" ∨
      pyLower (pyStrip call.outcome) = "opt_out" ∨
      pyLower (pyStrip call.outcome) = "dnc" then
    some (.suppress (pyStrip call.userId))
  else if pyLower (pyStrip call.outcome) = "requested_callback" ∨
      pyLower (pyStrip call.outcome) = "needs_help" ∨
      pyLower (pyStrip call.outcome) = "agent_handoff" then
    some (.callbackTicket (pyStrip call.userId)
      (if pyStrip call.sessionId ≠ "" then pyStrip call.sessionId else "voice-session"))
  else if pyLower (pyStrip call.outcome) = "converted" ∨
      pyLower (pyStrip call.outcome) = "checkout_intent" ∨
      pyLower (pyStrip call.outcome) = "interested" then
    some (.conversionIntent (pyStrip call.userId))
  else if call.status = CallStatus.failed then
    some (.callFailed (pyStrip call.userId))
  else none

/-- Embedding of `VoiceRecoveryService._update_call_terminal`
(voice_recovery_service.py lines 597-622): set the call's status and
outcome, and only when `followupApplied` is not yet set, run the follow-up
dispatcher once and mark `followupApplied`.  The store keys calls by id, so
the source's two dict writes collapse to one list update. -/
def updateCallTerminal (calls : List VCall) (id : Nat) (status : CallStatus)
    (outcome : String) : List VCall × Option FollowupEffect :=
  match calls.find? (fun c => c.id = id) with
  | none => (calls, none)
  | some call =>
    if call.followupApplied then
      (calls.map (fun x => if x.id = id then
        { call with status := status, outcome := outcome } else x), none)
    else
      (calls.map (fun x => if x.id = id then
        { call with status := status, outcome := outcome, followupApplied := true } else x),
        applyOutcomeActions { call with status := status, outcome := outcome })

/-- Embedding of `VoiceRecoveryService._update_call_progress`: set the
call's non-terminal status. -/
def updateCallProgress (calls : List VCall) (id : Nat) (status : CallStatus) :
    List VCall :=
  calls.map (fun x => if x.id = id then { x with status := status } else x)

/-- The 200-entry ring buffer behind `providerEventKeys` / `providerEvents`. -/
def ringAppend {α : Type} (l : List α) (x : α) : List α :=
  (l ++ [x]).drop ((l ++ [x]).length - 200)

/-- Append the event key and event record to the matched call's buffers. -/
def appendEvent (calls : List VCall) (id : Nat) (key : String)
    (status : CallStatus) (outcome : String) : List VCall :=
  calls.map (fun c =>
    if c.id = id then
      { c with providerEventKeys := ringAppend c.providerEventKeys key,
               providerEvents := ringAppend c.providerEvents ⟨key, status, outcome⟩ }
    else c)

/-- `str(value).strip().lower().replace("-", "_").replace(" ", "_")`
without the `str` step (applied by the callers). -/
def normToken (s : String) : String :=
  ((pyLower (pyStrip s)).data.map
    (fun c => if c = '-' ∨ c = ' ' then '_' else c)).asString

/-- The Python `a or b or ... or ""` chain: the first truthy value, else
the empty string. -/
def firstTruthy : List (Option Json) → Json
  | [] => Json.str ""
  | some v :: rest => if jsonTruthy v then v else firstTruthy rest
  | none :: rest => firstTruthy rest

/-- The normalized raw-status token of
`VoiceRecoveryService._normalize_provider_status`: the first truthy of the
`status`/`call_status`/`state`/`event` keys, rendered with `str`, stripped,
lower-cased, with dashes and spaces mapped to underscores. -/
def statusToken (payload : List (String × Json)) : String :=
  normToken (pyStr (firstTruthy
    [jsonGet payload "status", jsonGet payload "call_status",
     jsonGet payload "state", jsonGet payload "event"]))

/-- Embedding of `VoiceRecoveryService._normalize_provider_status`
(voice_recovery_service.py lines 898-925): the normalized token is looked
up in the synonym tables; anything unrecognized maps to `in_progress`. -/
def normalizeProviderStatus (payload : List (String × Json)) : CallStatus :=
  if statusToken payload ∈ ["queued", "dialing", "ringing"] then
    CallStatus.ringing
  else if statusToken payload ∈ ["connected", "answered", "in_progress", "active"] then
    CallStatus.inProgress
  else if statusToken payload ∈ ["completed", "success", "ended", "done"] then
    CallStatus.completed
  else if statusToken payload ∈ ["failed", "error", "busy", "cancelled", "canceled",
      "no_answer", "voicemail", "dropped", "timeout"] then
    CallStatus.failed
  else CallStatus.inProgress

/-- The serialized names of the call statuses (as stored by the service;
`_normalize_provider_status` returns the four live ones). -/
def statusName : CallStatus → String
  | CallStatus.queued => "queued"
  | CallStatus.initiated => "initiated"
  | CallStatus.ringing => "ringing"
  | CallStatus.inProgress => "in_progress"
  | CallStatus.completed => "completed"
  | CallStatus.failed => "failed"
  | CallStatus.suppressed => "suppressed"
  | CallStatus.skipped => "skipped"

/-- Embedding of `VoiceRecoveryService._extract_outcome`
(voice_recovery_service.py lines 927-932): the first of
`outcome`/`disposition`/`result`/`intent` holding a non-blank string,
normalized; otherwise the normalized provider status' name. -/
def extractOutcome (payload : List (String × Json)) : String :=
  match ["outcome", "disposition", "result", "intent"].findSome? (fun key =>
    match jsonGet payload key with
    | some (Json.str v) => if pyStrip v ≠ "" then some (normToken v) else none
    | _ => none) with
  | some v => v
  | none => statusName (normalizeProviderStatus payload)

/-- The webhook ingestor's result payload. -/
structure IngestResult where
  accepted : Bool
  matched : Bool
  idempotent : Bool
  reason : String
  status : Option CallStatus
deriving DecidableEq

/-- Modelled from the spec: `ingest_provider_callback` (spec section 4.7;
the function itself is absent from the backend sources, which contain only
its route callers and tests).  `eventKey` abstracts the signature-aware
event-key derivation; being a function of the payload it is stable across
redeliveries.  Steps: extract the provider call id
(`missing_provider_call_id` when absent); locate the call by
`providerCallId` (`call_not_found`); return an idempotent success when the
event key was already recorded; normalize status and outcome through the
source-backed `_normalize_provider_status` and `_extract_outcome`; apply
the terminal update (with the one-shot follow-up of
`_update_call_terminal`) or the progress update; append the event key and
event record to the 200-entry ring buffers. -/
def ingestProviderCallback (eventKey : List (String × Json) → String)
    (calls : List VCall) (payload : List (String × Json)) :
    IngestResult × List VCall × Option FollowupEffect :=
  match extractProviderCallId payload with
  | none => (⟨false, false, false, "missing_provider_call_id", none⟩, calls, none)
  | some pcid =>
    match calls.find? (fun c => c.providerCallId = some pcid) with
    | none => (⟨true, false, false, "call_not_found", none⟩, calls, none)
    | some call =>
      if eventKey payload ∈ call.providerEventKeys then
        (⟨true, true, true, "", some call.status⟩, calls, none)
      else if normalizeProviderStatus payload = CallStatus.completed ∨
          normalizeProviderStatus payload = CallStatus.failed then
        (⟨true, true, false, "", some (normalizeProviderStatus payload)⟩,
          appendEvent
            (updateCallTerminal calls call.id
              (normalizeProviderStatus payload)
              (extractOutcome payload)).1
            call.id (eventKey payload)
            (normalizeProviderStatus payload)
            (extractOutcome payload),
          (updateCallTerminal calls call.id
            (normalizeProviderStatus payload)
            (extractOutcome payload)).2)
      else
        (⟨true, true, false, "", some (normalizeProviderStatus payload)⟩,
          appendEvent
            (updateCallProgress calls call.id
              (normalizeProviderStatus payload))
            call.id (eventKey payload)
            (normalizeProviderStatus payload)
            (extractOutcome payload),
          none)

/-- `find?` commutes with a map whose function preserves the predicate on
the list's members. -/
theorem find?_map_pres {α : Type} (p : α → Bool) (f : α → α) :
    ∀ (l : List α), (∀ x ∈ l, p (f x) = p x) →
      (l.map f).find? p = (l.find? p).map f := by
  intro l
  induction l with
  | nil => intro _; rfl
  | cons x xs ih =>
    intro hp
    have hx := hp x (List.mem_cons_self x xs)
    rw [List.map_cons]
    by_cases h : p x = true
    · rw [List.find?_cons_of_pos _ (by rw [hx]; exact h), List.find?_cons_of_pos _ h]
      rfl
    · rw [List.find?_cons_of_neg _ (by rw [hx]; simpa using h),
        List.find?_cons_of_neg _ (by simpa using h)]
      exact ih (fun y hy => hp y (List.mem_cons_of_mem x hy))

/-- The element just pushed into the ring buffer is in the buffer. -/
theorem mem_ringAppend_self {α : Type} (l : List α) (x : α) : x ∈ ringAppend l x := by
  unfold ringAppend
  have hle : (l ++ [x]).length - 200 ≤ l.length := by
    rw [List.length_append]
    simp only [List.length_cons, List.length_nil]
    omega
  rw [List.drop_append_of_le_length hle]
  exact List.mem_append_right _ (List.mem_singleton.mpr rfl)

/-- In a store whose call ids are duplicate-free, looking a member call up
by its own id finds exactly that call. -/
theorem find?_id_of_nodup (calls : List VCall) (hn : (calls.map VCall.id).Nodup)
    (call : VCall) (hmem : call ∈ calls) :
    calls.find? (fun c => c.id = call.id) = some call := by
  cases hfind : calls.find? (fun c => c.id = call.id) with
  | none =>
    exfalso
    have := List.find?_eq_none.mp hfind call hmem
    simp at this
  | some c =>
    have hcmem := List.mem_of_find?_eq_some hfind
    have hcid : c.id = call.id := by
      have := List.find?_some hfind
      simpa using this
    rw [List.inj_on_of_nodup_map hn hcmem hmem hcid]

/-- The one-shot guard of `_update_call_terminal`: a second terminal update
on the same call never emits a follow-up action again. -/
theorem updateCallTerminal_once (calls : List VCall) (id : Nat)
    (s s' : CallStatus) (o o' : String) :
    (updateCallTerminal (updateCallTerminal calls id s o).1 id s' o').2 = none := by
  cases hfind : calls.find? (fun c => c.id = id) with
  | none =>
    have h1 : updateCallTerminal calls id s o = (calls, none) := by
      simp only [updateCallTerminal, hfind]
    rw [h1]
    simp only [updateCallTerminal, hfind]
  | some call =>
    have hcid : call.id = id := by
      have := List.find?_some hfind
      simpa using this
    by_cases hfa : call.followupApplied = true
    · have h1 : (updateCallTerminal calls id s o).1 =
          calls.map (fun x => if x.id = id then
            { call with status := s, outcome := o } else x) := by
        simp only [updateCallTerminal, hfind]
        rw [if_pos hfa]
      have h2 := find?_map_pres (fun c => c.id = id)
          (fun x => if x.id = id then { call with status := s, outcome := o } else x) calls
          (by
            intro x _
            by_cases hxid : x.id = id <;> simp [hxid, hcid])
      have hfind2 : (calls.map (fun x => if x.id = id then
            { call with status := s, outcome := o } else x)).find? (fun c => c.id = id) =
          some { call with status := s, outcome := o } := by
        rw [h2, hfind]
        simp [hcid]
      rw [h1]
      simp only [updateCallTerminal, hfind2]
      rw [if_pos hfa]
    · have h1 : (updateCallTerminal calls id s o).1 =
          calls.map (fun x => if x.id = id then
            { call with status := s, outcome := o, followupApplied := true } else x) := by
        simp only [updateCallTerminal, hfind]
        rw [if_neg hfa]
      have h2 := find?_map_pres (fun c => c.id = id)
          (fun x => if x.id = id then
            { call with status := s, outcome := o, followupApplied := true } else x) calls
          (by
            intro x _
            by_cases hxid : x.id = id <;> simp [hxid, hcid])
      have hfind2 : (calls.map (fun x => if x.id = id then
            { call with status := s, outcome := o, followupApplied := true } else x)).find?
            (fun c => c.id = id) =
          some { call with status := s, outcome := o, followupApplied := true } := by
        rw [h2, hfind]
        simp [hcid]
      rw [h1]
      simp only [updateCallTerminal, hfind2]
      simp

/-- `_update_call_terminal` rewrites the store by one per-element map whose
updated element keeps the call's id, providerCallId and event-key buffer. -/
theorem updateCallTerminal_maps (calls : List VCall) (id : Nat) (s : CallStatus)
    (o : String) (call : VCall)
    (hfind : calls.find? (fun c => c.id = id) = some call) :
    ∃ u : VCall, u.id = call.id ∧ u.providerCallId = call.providerCallId ∧
      u.providerEventKeys = call.providerEventKeys ∧
      (updateCallTerminal calls id s o).1 =
        calls.map (fun x => if x.id = id then u else x) := by
  by_cases hfa : call.followupApplied = true
  · refine ⟨{ call with status := s, outcome := o }, rfl, rfl, rfl, ?_⟩
    simp only [updateCallTerminal, hfind]
    rw [if_pos hfa]
  · refine ⟨{ call with status := s, outcome := o, followupApplied := true },
      rfl, rfl, rfl, ?_⟩
    simp only [updateCallTerminal, hfind]
    rw [if_neg hfa]

/-- With duplicate-free call ids, `_update_call_progress` is the map that
rewrites the looked-up call's status in place. -/
theorem updateCallProgress_maps (calls : List VCall) (call : VCall) (s : CallStatus)
    (hnodup : (calls.map VCall.id).Nodup) (hmem : call ∈ calls) :
    updateCallProgress calls call.id s =
      calls.map (fun x => if x.id = call.id then { call with status := s } else x) := by
  unfold updateCallProgress
  refine List.map_congr_left ?_
  intro x hx
  by_cases hxid : x.id = call.id
  · rw [List.inj_on_of_nodup_map hnodup hx hmem hxid]
  · simp [hxid]

/-- Updating the matched call in place preserves the provider-call-id
lookup predicate on every store element. -/
theorem pres_of_nodup (pcid : String) (calls : List VCall) (call u : VCall)
    (hnodup : (calls.map VCall.id).Nodup) (hmem : call ∈ calls)
    (hupc : u.providerCallId = call.providerCallId) :
    ∀ x ∈ calls,
      ((fun c => c.providerCallId = some pcid) : VCall → Bool)
        ((fun x => if x.id = call.id then u else x) x) =
      ((fun c => c.providerCallId = some pcid) : VCall → Bool) x := by
  intro x hx
  by_cases hxid : x.id = call.id
  · rw [List.inj_on_of_nodup_map hnodup hx hmem hxid]
    simp [hupc]
  · simp [hxid]

/-- The matched call after the event-key and event-record append. -/
def eventStamped (u : VCall) (key : String) (status : CallStatus)
    (outcome : String) : VCall :=
  { u with providerEventKeys := ringAppend u.providerEventKeys key,
           providerEvents := ringAppend u.providerEvents ⟨key, status, outcome⟩ }

/-- After an in-place update of the matched call followed by the event
append, the provider-call-id lookup finds the stamped call. -/
theorem find?_append_event (pcid key : String) (status : CallStatus) (outcome : String)
    (calls : List VCall) (call u : VCall)
    (hfind : calls.find? (fun c => c.providerCallId = some pcid) = some call)
    (hpres : ∀ x ∈ calls,
      ((fun c => c.providerCallId = some pcid) : VCall → Bool)
        ((fun x => if x.id = call.id then u else x) x) =
      ((fun c => c.providerCallId = some pcid) : VCall → Bool) x)
    (huid : u.id = call.id) :
    (appendEvent (calls.map (fun x => if x.id = call.id then u else x))
        call.id key status outcome).find? (fun c => c.providerCallId = some pcid) =
      some (eventStamped u key status outcome) := by
  rw [show appendEvent (calls.map (fun x => if x.id = call.id then u else x))
        call.id key status outcome =
      (calls.map (fun x => if x.id = call.id then u else x)).map
        (fun c => if c.id = call.id then
          { c with providerEventKeys := ringAppend c.providerEventKeys key,
                   providerEvents := ringAppend c.providerEvents
                     ⟨key, status, outcome⟩ } else c) from rfl]
  rw [find?_map_pres _ _ _ (by intro y _; by_cases hy : y.id = call.id <;> simp [hy]),
    find?_map_pres _ _ _ hpres, hfind]
  simp [eventStamped, huid]

/-- Re-delivering an identical webhook payload to a store with
duplicate-free call ids leaves the store unchanged, emits no second
follow-up action, and reports an idempotent success whenever the first
delivery matched a call. -/
theorem ingest_idempotent (eventKey : List (String × Json) → String)
    (calls : List VCall) (payload : List (String × Json))
    (hnodup : (calls.map VCall.id).Nodup) :
    (ingestProviderCallback eventKey
        (ingestProviderCallback eventKey calls payload).2.1 payload).2.1 =
      (ingestProviderCallback eventKey calls payload).2.1 ∧
    (ingestProviderCallback eventKey
        (ingestProviderCallback eventKey calls payload).2.1 payload).2.2 = none ∧
    ((ingestProviderCallback eventKey calls payload).1.matched = true →
      (ingestProviderCallback eventKey
        (ingestProviderCallback eventKey calls payload).2.1 payload).1.idempotent = true) := by
  cases hext : extractProviderCallId payload with
  | none =>
    simp only [ingestProviderCallback, hext]
    simp
  | some pcid =>
    cases hfind : calls.find? (fun c => c.providerCallId = some pcid) with
    | none =>
      simp only [ingestProviderCallback, hext, hfind]
      simp
    | some call =>
      have hmem : call ∈ calls := List.mem_of_find?_eq_some hfind
      have hpcid : call.providerCallId = some pcid := by
        have := List.find?_some hfind
        simpa using this
      by_cases hkey : eventKey payload ∈ call.providerEventKeys
      · have hpass1 : ingestProviderCallback eventKey calls payload =
            (⟨true, true, true, "", some call.status⟩, calls, none) := by
          simp only [ingestProviderCallback, hext, hfind]
          rw [if_pos hkey]
        simp only [hpass1]
        simp
      · by_cases hterm :
            normalizeProviderStatus payload = CallStatus.completed ∨
            normalizeProviderStatus payload = CallStatus.failed
        · obtain ⟨u, huid, hupc, hupek, humap⟩ :=
            updateCallTerminal_maps calls call.id
              (normalizeProviderStatus payload)
              (extractOutcome payload) call
              (find?_id_of_nodup calls hnodup call hmem)
          have hpass1 : ingestProviderCallback eventKey calls payload =
              (⟨true, true, false, "",
                  some (normalizeProviderStatus payload)⟩,
                appendEvent
                  (updateCallTerminal calls call.id
                    (normalizeProviderStatus payload)
                    (extractOutcome payload)).1
                  call.id (eventKey payload)
                  (normalizeProviderStatus payload)
                  (extractOutcome payload),
                (updateCallTerminal calls call.id
                  (normalizeProviderStatus payload)
                  (extractOutcome payload)).2) := by
            simp only [ingestProviderCallback, hext, hfind]
            rw [if_neg hkey, if_pos hterm]
          have hfind2 : (appendEvent
              (updateCallTerminal calls call.id
                (normalizeProviderStatus payload)
                (extractOutcome payload)).1
              call.id (eventKey payload)
              (normalizeProviderStatus payload)
              (extractOutcome payload)).find?
                (fun c => c.providerCallId = some pcid) =
              some (eventStamped u (eventKey payload)
                (normalizeProviderStatus payload)
                (extractOutcome payload)) := by
            rw [humap]
            exact find?_append_event pcid (eventKey payload)
              (normalizeProviderStatus payload)
              (extractOutcome payload) calls call u hfind
              (pres_of_nodup pcid calls call u hnodup hmem hupc) huid
          have hkey2 : eventKey payload ∈
              (eventStamped u (eventKey payload)
                (normalizeProviderStatus payload)
                (extractOutcome payload)).providerEventKeys := by
            simp only [eventStamped]
            exact mem_ringAppend_self _ _
          have hpass2 : ingestProviderCallback eventKey
              (appendEvent
                (updateCallTerminal calls call.id
                  (normalizeProviderStatus payload)
                  (extractOutcome payload)).1
                call.id (eventKey payload)
                (normalizeProviderStatus payload)
                (extractOutcome payload)) payload =
              (⟨true, true, true, "",
                  some (eventStamped u (eventKey payload)
                    (normalizeProviderStatus payload)
                    (extractOutcome payload)).status⟩,
                appendEvent
                  (updateCallTerminal calls call.id
                    (normalizeProviderStatus payload)
                    (extractOutcome payload)).1
                  call.id (eventKey payload)
                  (normalizeProviderStatus payload)
                  (extractOutcome payload), none) := by
            simp only [ingestProviderCallback, hext, hfind2]
            rw [if_pos hkey2]
          simp only [hpass1]
          simp only [hpass2]
          exact ⟨trivial, trivial, fun _ => trivial⟩
        · have hprog := updateCallProgress_maps calls call
            (normalizeProviderStatus payload) hnodup hmem
          have hpass1 : ingestProviderCallback eventKey calls payload =
              (⟨true, true, false, "",
                  some (normalizeProviderStatus payload)⟩,
                appendEvent
                  (updateCallProgress calls call.id
                    (normalizeProviderStatus payload))
                  call.id (eventKey payload)
                  (normalizeProviderStatus payload)
                  (extractOutcome payload),
                none) := by
            simp only [ingestProviderCallback, hext, hfind]
            rw [if_neg hkey, if_neg hterm]
          have hfind2 : (appendEvent
              (updateCallProgress calls call.id
                (normalizeProviderStatus payload))
              call.id (eventKey payload)
              (normalizeProviderStatus payload)
              (extractOutcome payload)).find?
                (fun c => c.providerCallId = some pcid) =
              some (eventStamped
                { call with status := normalizeProviderStatus payload }
                (eventKey payload)
                (normalizeProviderStatus payload)
                (extractOutcome payload)) := by
            rw [hprog]
            exact find?_append_event pcid (eventKey payload)
              (normalizeProviderStatus payload)
              (extractOutcome payload) calls call
              { call with status := normalizeProviderStatus payload }
              hfind
              (pres_of_nodup pcid calls call
                { call with status := normalizeProviderStatus payload }
                hnodup hmem rfl) rfl
          have hkey2 : eventKey payload ∈
              (eventStamped
                { call with status := normalizeProviderStatus payload }
                (eventKey payload)
                (normalizeProviderStatus payload)
                (extractOutcome payload)).providerEventKeys := by
            simp only [eventStamped]
            exact mem_ringAppend_self _ _
          have hpass2 : ingestProviderCallback eventKey
              (appendEvent
                (updateCallProgress calls call.id
                  (normalizeProviderStatus payload))
                call.id (eventKey payload)
                (normalizeProviderStatus payload)
                (extractOutcome payload)) payload =
              (⟨true, true, true, "",
                  some (eventStamped
                    { call with
                      status := normalizeProviderStatus payload }
                    (eventKey payload)
                    (normalizeProviderStatus payload)
                    (extractOutcome payload)).status⟩,
                appendEvent
                  (updateCallProgress calls call.id
                    (normalizeProviderStatus payload))
                  call.id (eventKey payload)
                  (normalizeProviderStatus payload)
                  (extractOutcome payload), none) := by
            simp only [ingestProviderCallback, hext, hfind2]
            rw [if_pos hkey2]
          simp only [hpass1]
          simp only [hpass2]
          exact ⟨trivial, trivial, fun _ => trivial⟩

end Ingest

namespace Chain

/-- One lowercase hex digit. -/
def hexDigitChar (n : Nat) : Char :=
  if n < 10 then Char.ofNat ('0'.toNat + n) else Char.ofNat ('a'.toNat + n - 10)

/-- Four lowercase hex digits (`\uXXXX` payload). -/
def toHex4 (n : Nat) : String :=
  String.mk [hexDigitChar (n / 4096 % 16), hexDigitChar (n / 256 % 16),
    hexDigitChar (n / 16 % 16), hexDigitChar (n % 16)]

/-- `json.dumps` (`ensure_ascii=True`) escaping of one character. -/
def jsonEscapeChar (c : Char) : String :=
  if c = '"' then "\\\""
  else if c = '\\' then "\\\\"
  else if c = '\n' then "\\n"
  else if c = '\t' then "\\t"
  else if c = '\r' then "\\r"
  else if c = '\x08' then "\\b"
  else if c = '\x0c' then "\\f"
  else if 0x20 ≤ c.toNat ∧ c.toNat ≤ 0x7e then String.singleton c
  else if c.toNat < 0x10000 then "\\u" ++ toHex4 c.toNat
  else
    "\\u" ++ toHex4 (0xD800 + (c.toNat - 0x10000) / 0x400) ++
      "\\u" ++ toHex4 (0xDC00 + (c.toNat - 0x10000) % 0x400)

/-- A JSON string literal. -/
def jsonStr (s : String) : String :=
  "\"" ++ s.data.foldl (fun acc c => acc ++ jsonEscapeChar c) "" ++ "\""

/-- Integer JSON numbers render as in Python; non-integer numbers are
rendered as exact ratios (Python's float repr differs, and no hashed admin
payload relies on it). -/
def jsonNumRepr (q : ℚ) : String :=
  if q.den = 1 then toString q.num else toString q.num ++ "/" ++ toString q.den

/-- Ascending insertion by key (Python `sort_keys=True`: code-point
lexicographic). -/
def insertByKey (kv : String × String) : List (String × String) → List (String × String)
  | [] => [kv]
  | head :: rest =>
    if kv.1 < head.1 then kv :: head :: rest else head :: insertByKey kv rest

/-- Insertion sort of encoded fields by key. -/
def sortByKey : List (String × String) → List (String × String)
  | [] => []
  | kv :: rest => insertByKey kv (sortByKey rest)

mutual

/-- Canonical JSON encoding: keys sorted, separators `(",", ":")`,
`ensure_ascii` escaping (`json.dumps(..., sort_keys=True,
separators=(",", ":"))`). -/
def encodeCanonical : Json → String
  | .null => "null"
  | .bool b => if b then "true" else "false"
  | .num q => jsonNumRepr q
  | .str s => jsonStr s
  | .arr items => "[" ++ String.intercalate "," (encodeItemsList items) ++ "]"
  | .obj fields =>
    "\x7b" ++
      String.intercalate ","
        ((sortByKey (encodeFieldsList fields)).map (fun kv => jsonStr kv.1 ++ ":" ++ kv.2)) ++
      "\x7d"

/-- Encodings of the elements of a JSON array. -/
def encodeItemsList : List Json → List String
  | [] => []
  | x :: xs => encodeCanonical x :: encodeItemsList xs

/-- Keys paired with the encodings of their values. -/
def encodeFieldsList : List (String × Json) → List (String × String)
  | [] => []
  | (k, v) :: xs => (k, encodeCanonical v) :: encodeFieldsList xs

end

/-- An admin activity log entry (`store.admin_activity_logs` rows). -/
structure LogEntry where
  id : String
  adminId : String
  adminEmail : String
  action : String
  resource : String
  resourceId : String
  changes : Json
  ipAddress : String
  userAgent : String
  timestamp : String
  prevHash : String
  hashVersion : String
  entryHash : String

/-- The caller-supplied part of one `record` call. -/
structure EntryData where
  id : String
  adminId : String
  adminEmail : String
  action : String
  resource : String
  resourceId : String
  changesBefore : Option Json
  changesAfter : Option Json
  ipAddress : String
  userAgent : String
  timestamp : String

/-- `str(token_secret or "").strip() or "replace-with-strong-secret"`. -/
def effectiveSecret (tokenSecret : String) : String :=
  if pyStrip tokenSecret = "" then "replace-with-strong-secret" else pyStrip tokenSecret

/-- Embedding of `AdminActivityService._compute_entry_hash`: the canonical
JSON of the fixed field set (every payload key except `entryHash`), with the
keys already written in sorted order, fed to `hmacHex` (which abstracts
`hmac.new(secret, ..., sha256).hexdigest()`). -/
def computeEntryHash (hmacHex : String → String → String) (tokenSecret : String)
    (e : LogEntry) : String :=
  let canonical :=
    "\x7b" ++
    jsonStr "action" ++ ":" ++ jsonStr e.action ++ "," ++
    jsonStr "adminEmail" ++ ":" ++ jsonStr e.adminEmail ++ "," ++
    jsonStr "adminId" ++ ":" ++ jsonStr e.adminId ++ "," ++
    jsonStr "changes" ++ ":" ++ encodeCanonical e.changes ++ "," ++
    jsonStr "hashVersion" ++ ":" ++ jsonStr e.hashVersion ++ "," ++
    jsonStr "id" ++ ":" ++ jsonStr e.id ++ "," ++
    jsonStr "ipAddress" ++ ":" ++ jsonStr e.ipAddress ++ "," ++
    jsonStr "prevHash" ++ ":" ++ jsonStr e.prevHash ++ "," ++
    jsonStr "resource" ++ ":" ++ jsonStr e.resource ++ "," ++
    jsonStr "resourceId" ++ ":" ++ jsonStr e.resourceId ++ "," ++
    jsonStr "timestamp" ++ ":" ++ jsonStr e.timestamp ++ "," ++
    jsonStr "userAgent" ++ ":" ++ jsonStr e.userAgent ++
    "\x7d"
  hmacHex (effectiveSecret tokenSecret) canonical

/-- Embedding of `AdminActivityService.record` followed by the repository
append: `prevHash` is the stripped `entryHash` of the last entry (or `""`),
and `entryHash` is the HMAC of the canonical payload without `entryHash`. -/
def record (hmacHex : String → String → String) (tokenSecret : String)
    (logs : List LogEntry) (d : EntryData) : List LogEntry :=
  let previousHash :=
    match logs.getLast? with
    | some last => pyStrip last.entryHash
    | none => ""
  let payload : LogEntry :=
    ⟨d.id, d.adminId, d.adminEmail, d.action, d.resource, d.resourceId,
      .obj [("before", d.changesBefore.getD .null), ("after", d.changesAfter.getD .null)],
      d.ipAddress, d.userAgent, d.timestamp, previousHash, "v1", ""⟩
  logs ++ [{ payload with entryHash := computeEntryHash hmacHex tokenSecret payload }]

/-- The per-row scan of `verify_integrity`, carrying `expected_prev`. -/
def verifyScan (hmacHex : String → String → String) (tokenSecret : String) :
    String → List LogEntry → List (String × String)
  | _, [] => []
  | expectedPrev, row :: rest =>
    let rowId := pyStrip row.id
    let prevHash := pyStrip row.prevHash
    let entryHash := pyStrip row.entryHash
    let prevIssues :=
      if prevHash ≠ expectedPrev then [(rowId, "prev_hash_mismatch")] else []
    let expectedEntry := computeEntryHash hmacHex tokenSecret row
    let entryIssues :=
      if entryHash = "" then [(rowId, "missing_entry_hash")]
      else if entryHash ≠ expectedEntry then [(rowId, "entry_hash_mismatch")] else []
    prevIssues ++ entryIssues ++ verifyScan hmacHex tokenSecret entryHash rest

/-- The window `logs[-max(1, min(limit, 10000)):]` that
`verify_integrity` inspects. -/
def verifyWindow (logs : List LogEntry) (limit : Int) : List LogEntry :=
  logs.drop (logs.length - (max 1 (min limit 10000)).toNat)

/-- Embedding of `AdminActivityService.verify_integrity`: returns
`(ok, total, issues)` over the inspected window. -/
def verifyIntegrity (hmacHex : String → String → String) (tokenSecret : String)
    (logs : List LogEntry) (limit : Int) : Bool × Nat × List (String × String) :=
  if (verifyWindow logs limit).isEmpty then (true, 0, [])
  else
    ((verifyScan hmacHex tokenSecret "" (verifyWindow logs limit)).isEmpty,
      (verifyWindow logs limit).length,
      verifyScan hmacHex tokenSecret "" (verifyWindow logs limit))

/-- The lists of entries reachable by repeated `record` calls on an
initially empty log. -/
inductive IsChain (hmacHex : String → String → String) (tokenSecret : String) :
    List LogEntry → Prop where
  | nil : IsChain hmacHex tokenSecret []
  | push (logs : List LogEntry) (d : EntryData) :
      IsChain hmacHex tokenSecret logs →
      IsChain hmacHex tokenSecret (record hmacHex tokenSecret logs d)

/-- The linkage predicate: each entry's `prevHash` matches the hash carried
forward from its predecessor. -/
def chainLinked : String → List LogEntry → Prop
  | _, [] => True
  | prev, row :: rest => row.prevHash = prev ∧ chainLinked row.entryHash rest

/-- The hash carried forward after scanning a list of entries. -/
def lastHash : String → List LogEntry → String
  | prev, [] => prev
  | _, row :: rest => lastHash row.entryHash rest

theorem chainLinked_append (y : LogEntry) : ∀ (xs : List LogEntry) (prev : String),
    chainLinked prev xs → y.prevHash = lastHash prev xs → chainLinked prev (xs ++ [y])
  | [], prev => by
    intro _ hy
    exact ⟨hy, trivial⟩
  | x :: rest, prev => by
    intro hl hy
    exact ⟨hl.1, chainLinked_append y rest x.entryHash hl.2 hy⟩

theorem lastHash_getLast : ∀ (xs : List LogEntry) (prev : String) (last : LogEntry),
    xs.getLast? = some last → lastHash prev xs = last.entryHash
  | [], prev, last => by simp
  | x :: rest, prev, last => by
    intro h
    cases rest with
    | nil =>
      simp only [List.getLast?_singleton, Option.some.injEq] at h
      subst h
      rfl
    | cons y ys =>
      have hr : (y :: ys).getLast? = some last := List.getLast?_cons_cons.symm.trans h
      exact lastHash_getLast (y :: ys) x.entryHash last hr

theorem mem_of_getLast?_eq : ∀ (xs : List LogEntry) (last : LogEntry),
    xs.getLast? = some last → last ∈ xs
  | [], last => by simp
  | x :: rest, last => by
    intro h
    cases rest with
    | nil =>
      simp only [List.getLast?_singleton, Option.some.injEq] at h
      simp [h]
    | cons y ys =>
      have hr : (y :: ys).getLast? = some last := List.getLast?_cons_cons.symm.trans h
      exact List.mem_cons_of_mem _ (mem_of_getLast?_eq (y :: ys) last hr)

theorem chainLinked_zero : ∀ (logs : List LogEntry) (prev : String),
    chainLinked prev logs → ∀ (h0 : 0 < logs.length), (logs.get ⟨0, h0⟩).prevHash = prev
  | [], _ => by simp
  | row :: rest, prev => by
    intro h _
    exact h.1

theorem chainLinked_succ : ∀ (logs : List LogEntry) (prev : String),
    chainLinked prev logs → ∀ (i : Nat) (hi : i + 1 < logs.length),
    (logs.get ⟨i + 1, hi⟩).prevHash =
      (logs.get ⟨i, Nat.lt_of_succ_lt hi⟩).entryHash
  | [], _ => by simp
  | row :: rest, prev => by
    intro h i hi
    cases i with
    | zero =>
      have h0 : 0 < rest.length := by
        simpa using Nat.lt_of_succ_lt_succ hi
      exact chainLinked_zero rest row.entryHash h.2 h0
    | succ j =>
      have hj : j + 1 < rest.length := by
        simpa using Nat.lt_of_succ_lt_succ hi
      exact chainLinked_succ rest row.entryHash h.2 j hj

/-- The chain invariant: a log built by `record` is linked from `""` and
every entry's hash recomputes. -/
theorem chain_invariant (hmacHex : String → String → String) (tokenSecret : String)
    (htrim : ∀ k m, pyStrip (hmacHex k m) = hmacHex k m)
    (logs : List LogEntry) (hc : IsChain hmacHex tokenSecret logs) :
    chainLinked "" logs ∧
    ∀ e ∈ logs, e.entryHash = computeEntryHash hmacHex tokenSecret e := by
  induction hc with
  | nil => exact ⟨trivial, by simp⟩
  | push logs d hprev ih =>
    refine ⟨?_, ?_⟩
    · apply chainLinked_append _ _ _ ih.1
      show (match logs.getLast? with
        | some last => pyStrip last.entryHash
        | none => "") = lastHash "" logs
      cases hlast : logs.getLast? with
      | none =>
        have : logs = [] := List.getLast?_eq_none_iff.mp hlast
        subst this
        rfl
      | some last =>
        have hmem : last ∈ logs := mem_of_getLast?_eq logs last hlast
        have hhash := ih.2 last hmem
        show pyStrip last.entryHash = lastHash "" logs
        rw [hhash]
        rw [show pyStrip (computeEntryHash hmacHex tokenSecret last) =
          computeEntryHash hmacHex tokenSecret last from htrim _ _]
        rw [← hhash]
        exact (lastHash_getLast logs "" last hlast).symm
    · intro e he
      rcases List.mem_append.mp he with h | h
      · exact ih.2 e h
      · have : e = _ := List.mem_singleton.mp h
        subst this
        rfl

theorem pyStrip_empty : pyStrip "" = "" := rfl

theorem verifyScan_clean (hmacHex : String → String → String) (tokenSecret : String)
    (htrim : ∀ k m, pyStrip (hmacHex k m) = hmacHex k m)
    (hne : ∀ k m, hmacHex k m ≠ "") :
    ∀ (logs : List LogEntry) (prev : String), chainLinked prev logs →
    (∀ e ∈ logs, e.entryHash = computeEntryHash hmacHex tokenSecret e) →
    pyStrip prev = prev → verifyScan hmacHex tokenSecret prev logs = []
  | [], prev => by
    intro _ _ _
    rfl
  | row :: rest, prev => by
    intro hl hh hp
    have hhash := hh row (by simp)
    have hstrip : pyStrip row.entryHash = row.entryHash := by
      rw [hhash]
      exact htrim _ _
    have hprevEq : pyStrip row.prevHash = prev := by
      rw [hl.1, hp]
    have hrec := verifyScan_clean hmacHex tokenSecret htrim hne rest (pyStrip row.entryHash)
      (by rw [hstrip]; exact hl.2)
      (fun e he => hh e (List.mem_cons_of_mem _ he))
      (by rw [hstrip]; exact hstrip)
    simp only [verifyScan]
    rw [if_neg (by simp [hprevEq])]
    rw [if_neg (by rw [hstrip, hhash]; exact hne _ _)]
    rw [if_neg (by rw [hstrip]; simp [hhash])]
    simpa using hrec

theorem verifyScan_codes (hmacHex : String → String → String) (tokenSecret : String) :
    ∀ (prev : String) (logs : List LogEntry),
    ∀ iss ∈ verifyScan hmacHex tokenSecret prev logs,
      iss.2 = "prev_hash_mismatch" ∨ iss.2 = "missing_entry_hash" ∨
        iss.2 = "entry_hash_mismatch"
  | prev, [] => by simp [verifyScan]
  | prev, row :: rest => by
    intro iss hiss
    simp only [verifyScan] at hiss
    rcases List.mem_append.mp hiss with h | h
    · rcases List.mem_append.mp h with h' | h'
      · split at h'
        · rcases List.mem_singleton.mp h' with rfl
          exact Or.inl rfl
        · simp at h'
      · split at h'
        · rcases List.mem_singleton.mp h' with rfl
          exact Or.inr (Or.inl rfl)
        · split at h'
          · rcases List.mem_singleton.mp h' with rfl
            exact Or.inr (Or.inr rfl)
          · simp at h'
    · exact verifyScan_codes hmacHex tokenSecret _ rest iss h

end Chain

namespace Intent

/-! ### Intent classifier (`app/orchestrator/intent_classifier.py`)

The classifier's regular expressions are embedded as explicit scanners over
character lists.  Backtracking constructs enumerate their choice points in
the engine's order (greedy quantifiers descend, alternations and optional
groups are tried left to right, the empty option last) and take the first
success, which is exactly Python `re` behaviour for these patterns.  The
case-insensitive patterns use a case-folding literal matcher; the patterns
applied to already lower-cased text behave identically under it. -/

/-- ASCII word character (regex `\w`; the classifier handles ASCII text). -/
def isWordChar (c : Char) : Bool :=
  ('a' ≤ c && c ≤ 'z') || ('A' ≤ c && c ≤ 'Z') || ('0' ≤ c && c ≤ '9') || c = '_'

/-- ASCII digit. -/
def isDigitChar (c : Char) : Bool := '0' ≤ c && c ≤ '9'

/-- ASCII letter or digit (regex `[A-Za-z0-9]`). -/
def isAlnumChar (c : Char) : Bool :=
  ('a' ≤ c && c ≤ 'z') || ('A' ≤ c && c ≤ 'Z') || ('0' ≤ c && c ≤ '9')

/-- `needle` occurs contiguously in the list (empty needles match). -/
def infixAux : List Char → List Char → Bool
  | needle, [] => needle.isEmpty
  | needle, c :: rest => needle.isPrefixOf (c :: rest) || infixAux needle rest

/-- Python `sub in s`. -/
def strContains (s sub : String) : Bool := infixAux sub.data s.data

/-- Python `any(token in s for token in subs)`. -/
def anySub (s : String) (subs : List String) : Bool := subs.any (fun t => strContains s t)

/-- `int(digits)` of a digit run. -/
def digitsVal (ds : List Char) : Nat :=
  ds.foldl (fun a c => a * 10 + (c.toNat - Char.toNat (Char.ofNat 48))) 0

/-- ASCII upper-casing of one character. -/
def pyUpperChar (c : Char) : Char :=
  if ('a' ≤ c && c ≤ 'z') = true then Char.ofNat (c.toNat - 32) else c

/-- Python `str.upper()` on ASCII. -/
def pyUpper (s : String) : String := (s.data.map pyUpperChar).asString

/-- Python `str.strip(chars)`: drop the given characters from both ends. -/
def stripCharsList (extra : List Char) (cs : List Char) : List Char :=
  ((cs.dropWhile (fun c => extra.contains c)).reverse.dropWhile
    (fun c => extra.contains c)).reverse

/-- Case-sensitive literal at the head; returns the remainder. -/
def chopLit? (lit l : List Char) : Option (List Char) :=
  if lit.isPrefixOf l then some (l.drop lit.length) else none

/-- Case-insensitive literal at the head; returns the remainder. -/
def ciChopLit? (lit l : List Char) : Option (List Char) :=
  if (lit.map pyLowerChar).isPrefixOf ((l.take lit.length).map pyLowerChar) &&
      lit.length ≤ l.length then
    some (l.drop lit.length)
  else none

/-- `\b` on the right of a match: end of input or a non-word character. -/
def boundaryAfter : List Char → Bool
  | [] => true
  | d :: _ => !isWordChar d

/-- Suffixes after consuming `\s*` greedily: all spaces first, then fewer,
down to none (the engine's backtracking order). -/
def spaceDrops (cs : List Char) : List (List Char) :=
  (List.range ((cs.takeWhile pyIsSpace).length + 1)).map
    (fun k => cs.drop ((cs.takeWhile pyIsSpace).length - k))

/-- `re.sub(r"[_\s]+", " ", ...)`: squash runs of underscores and
whitespace into one space. -/
def squashSepAux : Bool → List Char → List Char
  | _, [] => []
  | prevSep, c :: rest =>
    if c = '_' || pyIsSpace c then
      if prevSep then squashSepAux true rest else ' ' :: squashSepAux true rest
    else c :: squashSepAux false rest

/-- `re.sub(r"\s+", " ", ...)`: squash whitespace runs into one space. -/
def squashWsAux : Bool → List Char → List Char
  | _, [] => []
  | prevSp, c :: rest =>
    if pyIsSpace c then
      if prevSp then squashWsAux true rest else ' ' :: squashWsAux true rest
    else c :: squashWsAux false rest

/-- `phrase_text = re.sub(r"[_\s]+", " ", text).strip()`. -/
def phraseTextOf (text : String) : String :=
  pyStrip ((squashSepAux false text.data).asString)

/-- `\s*\$?(\d+)` after a matched literal: spaces, an optional dollar
sign, then the digit group (giving spaces back never reaches a digit, so
the greedy take is exact). -/
def priceTail (rest : List Char) : Option (List Char) :=
  match (match rest.dropWhile pyIsSpace with
         | '$' :: t => t
         | r1 => r1).takeWhile isDigitChar with
  | [] => none
  | ds => some ds

/-- Scan for the first position where one of the literal heads is followed
by `priceTail`, alternatives tried in order. -/
def scanPriceLits (lits : List (List Char)) : List Char → Option (List Char)
  | [] => none
  | c :: rest =>
    match lits.findSome? (fun lit =>
      match chopLit? lit (c :: rest) with
      | some r => priceTail r
      | none => none) with
    | some ds => some ds
    | none => scanPriceLits lits rest

/-- Embedding of `_extract_price_range` (`(under|below)\s*\$?(\d+)` and
`(over|above)\s*\$?(\d+)`, `maxPrice` inserted before `minPrice`). -/
def extractPriceRange (text : String) : List (String × Json) :=
  (match scanPriceLits [('u' :: "nder".data), ('b' :: "elow".data)] text.data with
   | some ds => [("maxPrice", Json.num ((digitsVal ds : Nat) : ℚ))]
   | none => []) ++
  (match scanPriceLits [('o' :: "ver".data), ('a' :: "bove".data)] text.data with
   | some ds => [("minPrice", Json.num ((digitsVal ds : Nat) : ℚ))]
   | none => [])

/-- The colour vocabulary of `_extract_color`. -/
def colorList : List String :=
  ["black", "blue", "white", "green", "red", "gray", "charcoal", "navy"]

/-- Embedding of `_extract_color`: first listed colour occurring in the
text. -/
def extractColor (text : String) : List (String × Json) :=
  match colorList.find? (fun c => strContains text c) with
  | some c => [("color", Json.str c)]
  | none => []

/-- `LIT[_\-]?\d+` at one position (used by the id extractors; when the
digits are missing, giving the separator back cannot produce one, so the
position fails outright). -/
def matchLitIdAt (lit : List Char) (cs : List Char) : Option (List Char) :=
  match ciChopLit? lit cs with
  | none => none
  | some rest =>
    match (match rest with
           | c :: t => if c = '_' || c = '-' then (([c], t) : List Char × List Char)
                       else ([], rest)
           | [] => ([], [])) with
    | (sep, r1) =>
      match r1.takeWhile isDigitChar with
      | [] => none
      | ds => some (lit ++ sep ++ ds)

/-- Scan for the first `LIT[_\-]?\d+` match over a list of alternative
literals (tried in order at each position). -/
def scanLitId (lits : List (List Char)) : List Char → Option (List Char)
  | [] => none
  | c :: rest =>
    match lits.findSome? (fun lit => matchLitIdAt lit (c :: rest)) with
    | some m => some m
    | none => scanLitId lits rest

/-- Python `.replace("-", "_")`. -/
def dashToUnderscore (cs : List Char) : List Char :=
  cs.map (fun c => if c = '-' then '_' else c)

/-- Embedding of `_extract_order_id` (`(order[_\-]?\d+|ord[_\-]?\d+)`). -/
def extractOrderId (text : String) : List (String × Json) :=
  match scanLitId [('o' :: "rder".data), ('o' :: "rd".data)] text.data with
  | some m => [("orderId", Json.str m.asString)]
  | none => []

/-- `(ticket[_\-]?(?:item[_\-]?)?\d+)` at one position: the optional
`item` part is tried first and dropped when the digits fail. -/
def matchTicketAt (cs : List Char) : Option (List Char) :=
  match ciChopLit? ('t' :: "icket".data) cs with
  | none => none
  | some rest =>
    match (match rest with
           | c :: t => if c = '_' || c = '-' then (([c], t) : List Char × List Char)
                       else ([], rest)
           | [] => ([], [])) with
    | (sep1, r1) =>
      match (match ciChopLit? ('i' :: "tem".data) r1 with
             | none => none
             | some r2 =>
               match (match r2 with
                      | c :: t => if c = '_' || c = '-' then (([c], t) : List Char × List Char)
                                  else ([], r2)
                      | [] => ([], [])) with
               | (sep2, r3) =>
                 match r3.takeWhile isDigitChar with
                 | [] => none
                 | ds => some ('t' :: "icket".data ++ sep1 ++ ('i' :: "tem".data) ++ sep2 ++ ds)) with
      | some m => some m
      | none =>
        match r1.takeWhile isDigitChar with
        | [] => none
        | ds => some ('t' :: "icket".data ++ sep1 ++ ds)

/-- Scan for the first ticket-id match. -/
def scanTicket : List Char → Option (List Char)
  | [] => none
  | c :: rest =>
    match matchTicketAt (c :: rest) with
    | some m => some m
    | none => scanTicket rest

/-- Embedding of `_extract_ticket_id` (dashes normalized to underscores). -/
def extractTicketId (text : String) : List (String × Json) :=
  match scanTicket text.data with
  | some m => [("ticketId", Json.str (dashToUnderscore m).asString)]
  | none => []

/-- First `\b(\d+)\b` token: a maximal digit run with non-word
neighbours; positions inside a run fail the left boundary, so the scan
advances one character at a time. -/
def scanIntAux : Option Char → List Char → Option (List Char)
  | _, [] => none
  | prev, c :: rest =>
    if isDigitChar c && !(match prev with | some p => isWordChar p | none => false) &&
        boundaryAfter (rest.dropWhile isDigitChar) then
      some (c :: rest.takeWhile isDigitChar)
    else scanIntAux (some c) rest

/-- First standalone integer token of the text. -/
def scanIntToken (cs : List Char) : Option (List Char) := scanIntAux none cs

/-- Embedding of `_extract_quantity` (`max(1, min(50, int(...)))`). -/
def extractQuantity (text : String) : List (String × Json) :=
  match scanIntToken text.data with
  | some ds => [("quantity", Json.num ((max 1 (min 50 (digitsVal ds)) : Nat) : ℚ))]
  | none => []

/-- Embedding of `_extract_product_or_variant_id`. -/
def extractProductOrVariantId (text : String) : List (String × Json) :=
  (match scanLitId [('p' :: "rod".data)] text.data with
   | some m => [("productId", Json.str (dashToUnderscore m).asString)]
   | none => []) ++
  (match scanLitId [('v' :: "ar".data)] text.data with
   | some m => [("variantId", Json.str (dashToUnderscore m).asString)]
   | none => [])

/-- Embedding of `_extract_product_or_item_id`. -/
def extractProductOrItemId (text : String) : List (String × Json) :=
  match scanLitId [('i' :: "tem".data)] text.data with
  | some m => [("itemId", Json.str (dashToUnderscore m).asString)]
  | none => extractProductOrVariantId text

/-- Embedding of `_extract_delta`. -/
def extractDelta (text : String) : List (String × Json) :=
  if strContains text "set quantity" then []
  else if anySub text ["decrease", "reduce", "minus", "less"] then
    [("delta", Json.num (-(((match scanIntToken text.data with
      | some ds => max 1 (digitsVal ds)
      | none => 1) : Nat) : ℚ)))]
  else if anySub text ["increase", "plus", "more", "another"] then
    [("delta", Json.num (((match scanIntToken text.data with
      | some ds => max 1 (digitsVal ds)
      | none => 1) : Nat) : ℚ))]
  else []

/-- Embedding of `_contains_order_status_phrase`. -/
def containsOrderStatusPhrase (text : String) : Bool :=
  strContains text "order" &&
  anySub text ["order status", "where is my order", "track order", "hasn\x27t arrived",
    "hasnt arrived", "not arrived", "order is late", "order late", "delayed order",
    "order delayed"]

/-- Embedding of `_is_show_memory_request`. -/
def isShowMemoryRequest (text : String) : Bool :=
  anySub text ["what do you remember", "show my preferences", "show memory",
    "what are my preferences", "what do you know about me", "remembered about me"]

/-- Embedding of `_is_clear_memory_request`. -/
def isClearMemoryRequest (text : String) : Bool :=
  anySub text ["clear memory", "clear my memory", "forget everything",
    "reset my preferences", "clear preferences"]

/-- Embedding of `_is_preference_statement`. -/
def isPreferenceStatement (text : String) : Bool :=
  if anySub text ["remember", "note that", "save preference"] then true
  else if anySub text ["my size is", "i wear size", "budget", "price range"] then true
  else if strContains text "i prefer" || strContains text "i like" then
    !(anySub text ["show me", "find", "search", "add to cart", "checkout", "order status"])
  else false

/-- Embedding of `_extract_forget_preference`. -/
def extractForgetPreference (message : String) : List (String × Json) :=
  if !strContains (pyLower (pyStrip message)) "forget" &&
      !strContains (pyLower (pyStrip message)) "remove preference" then []
  else if strContains (pyLower (pyStrip message)) "everything" ||
      strContains (pyLower (pyStrip message)) "all preferences" then
    [("key", Json.str "all")]
  else if strContains (pyLower (pyStrip message)) "size" then [("key", Json.str "size")]
  else if strContains (pyLower (pyStrip message)) "price" ||
      strContains (pyLower (pyStrip message)) "budget" then
    [("key", Json.str "priceRange")]
  else if strContains (pyLower (pyStrip message)) "category" ||
      strContains (pyLower (pyStrip message)) "categories" then
    [("key", Json.str "categories")]
  else if strContains (pyLower (pyStrip message)) "style" then
    [("key", Json.str "stylePreferences")]
  else if strContains (pyLower (pyStrip message)) "color" then
    [("key", Json.str "colorPreferences")]
  else if strContains (pyLower (pyStrip message)) "brand" then
    [("key", Json.str "brandPreferences")]
  else
    match ["shoes", "clothing", "accessories", "denim", "black", "blue", "green",
        "red", "gray"].find? (fun t => strContains (pyLower (pyStrip message)) t) with
    | some t => [("value", Json.str t)]
    | none => []

/-- The size group `(xxs|xs|s|m|l|xl|xxl|\d\x7b1,2\x7d)\b` at one
position: the listed alternatives in order, then one or two digits (a
longer digit run always fails the trailing boundary). -/
def matchSizeGroup (cs : List Char) : Option (List Char) :=
  match [('x' :: "xs".data), ('x' :: "s".data), ['s'], ['m'], ['l'],
      ('x' :: "l".data), ('x' :: "xl".data)].findSome? (fun g =>
    match chopLit? g cs with
    | some rest => if boundaryAfter rest then some g else none
    | none => none) with
  | some g => some g
  | none =>
    match cs.takeWhile isDigitChar with
    | [] => none
    | [d] => if boundaryAfter (cs.drop 1) then some [d] else none
    | d1 :: d2 :: _ =>
      if boundaryAfter (cs.drop 2) then some [d1, d2] else none

/-- `(?:size\s*(?:is|=)?|wear size)\s*(GROUP)\b` at one position, with
the engine's backtracking order over spaces and the optional `is`/`=`. -/
def matchSizeAt (cs : List Char) : Option (List Char) :=
  ((match chopLit? ('s' :: "ize".data) cs with
    | some rest =>
      (spaceDrops rest).flatMap (fun r1 =>
        (match chopLit? ('i' :: "s".data) r1 with
         | some r2 => [r2]
         | none => []) ++
        (match r1 with
         | '=' :: t => [t]
         | _ => []) ++ [r1])
    | none => []) ++
   (match chopLit? ('w' :: "ear size".data) cs with
    | some rest => [rest]
    | none => [])).findSome? (fun r =>
    (spaceDrops r).findSome? (fun r2 => matchSizeGroup r2))

/-- Scan for the size pattern; the pattern begins at a word boundary. -/
def scanSize : Option Char → List Char → Option (List Char)
  | _, [] => none
  | prev, c :: rest =>
    match (if (match prev with | some p => !isWordChar p | none => true) then
        matchSizeAt (c :: rest) else none) with
    | some g => some g
    | none => scanSize (some c) rest

/-- Heads of `(?:under|below|max(?:imum)?)` at one position, in the
engine's order (the optional `imum` tried before its absence). -/
def prefMaxHeads (cs : List Char) : List (List Char) :=
  (match chopLit? ('u' :: "nder".data) cs with | some r => [r] | none => []) ++
  (match chopLit? ('b' :: "elow".data) cs with | some r => [r] | none => []) ++
  (match chopLit? ('m' :: "aximum".data) cs with | some r => [r] | none => []) ++
  (match chopLit? ('m' :: "ax".data) cs with | some r => [r] | none => [])

/-- Heads of `(?:over|above|min(?:imum)?)`. -/
def prefMinHeads (cs : List Char) : List (List Char) :=
  (match chopLit? ('o' :: "ver".data) cs with | some r => [r] | none => []) ++
  (match chopLit? ('a' :: "bove".data) cs with | some r => [r] | none => []) ++
  (match chopLit? ('m' :: "inimum".data) cs with | some r => [r] | none => []) ++
  (match chopLit? ('m' :: "in".data) cs with | some r => [r] | none => [])

/-- Scan for a head followed by `\s*\$?(\d+)`. -/
def scanPrefAmount (headsOf : List Char → List (List Char)) : List Char → Option (List Char)
  | [] => none
  | c :: rest =>
    match (headsOf (c :: rest)).findSome? priceTail with
    | some ds => some ds
    | none => scanPrefAmount headsOf rest

/-- Insert into a sorted duplicate-free list (`sorted(set(...))`). -/
def insertSorted (s : String) : List String → List String
  | [] => [s]
  | x :: xs => if s < x then s :: x :: xs else if s = x then x :: xs else x :: insertSorted s xs

/-- `sorted(set(l))` for string lists. -/
def sortedDedup (l : List String) : List String :=
  l.foldl (fun acc s => insertSorted s acc) []

/-- The category candidates collected by `_extract_preference_updates`. -/
def prefCategories (text : String) : List String :=
  ((["shoes", "clothing", "accessories"].filter (fun c => strContains text c)) ++
   (if strContains text "hoodie" || strContains text "jogger" then ["clothing"] else []) ++
   (if strContains text "runner" || strContains text "sneaker" then ["shoes"] else []))

/-- The style vocabulary. -/
def styleList : List String :=
  ["denim", "casual", "formal", "sport", "athleisure", "vintage", "streetwear", "minimal"]

/-- The character class `[a-z0-9,\s&-]` of the preference brand capture. -/
def prefBrandClass (c : Char) : Bool :=
  ('a' ≤ c && c ≤ 'z') || isDigitChar c || c = ',' || pyIsSpace c || c = '&' || c = '-'

/-- Heads of `(?:brand|brands?)`: `brand`, then `brands`, then `brand`
again (the second alternative with and without its optional `s`). -/
def brandHeads (cs : List Char) : List (List Char) :=
  match chopLit? ('b' :: "rand".data) cs with
  | some r => [r] ++ (match r with | 's' :: t => [t] | _ => []) ++ [r]
  | none => []

/-- Options of `(?:is|are|=|:)?` in order, the empty option last. -/
def prefBrandOpts (r : List Char) : List (List Char) :=
  (match chopLit? ('i' :: "s".data) r with | some t => [t] | none => []) ++
  (match chopLit? ('a' :: "re".data) r with | some t => [t] | none => []) ++
  (match r with | '=' :: t => [t] | _ => []) ++
  (match r with | ':' :: t => [t] | _ => []) ++ [r]

/-- `\s* OPTS? \s* ([cls]\x7blo,hi\x7d)` after a head, enumerating the
backtracking choice points in the engine's order: both space stars descend
from greedy, the option list is tried left to right with the empty option
last, and the capture takes the longest run up to `hi`, failing below
`lo`. -/
def classTail (cls : Char → Bool) (lo hi : Nat) (opts : List Char → List (List Char))
    (r : List Char) : Option (List Char) :=
  (spaceDrops r).findSome? (fun r1 =>
    (opts r1).findSome? (fun r2 =>
      (spaceDrops r2).findSome? (fun r3 =>
        if lo ≤ min hi (r3.takeWhile cls).length then
          some ((r3.takeWhile cls).take hi)
        else none)))

/-- Scan for a head followed by a class capture. -/
def scanClassCapture (headsOf : List Char → List (List Char))
    (opts : List Char → List (List Char)) (cls : Char → Bool) (lo hi : Nat) :
    List Char → Option (List Char)
  | [] => none
  | c :: rest =>
    match (headsOf (c :: rest)).findSome? (fun r => classTail cls lo hi opts r) with
    | some g => some g
    | none => scanClassCapture headsOf opts cls lo hi rest

/-- `re.split(r"(?:,|and)", ...)`: split at every comma or `and`
occurrence (no boundaries). -/
def splitCommaAndAux : List Char → List Char → List (List Char)
  | acc, [] => [acc.reverse]
  | acc, ',' :: rest => acc.reverse :: splitCommaAndAux [] rest
  | acc, 'a' :: 'n' :: 'd' :: rest => acc.reverse :: splitCommaAndAux [] rest
  | acc, c :: rest => splitCommaAndAux (c :: acc) rest

/-- `re.split(r"i prefer |i like ", text, maxsplit=1)`: the suffix after
the first occurrence of either phrase. -/
def splitPreferLike : List Char → Option (List Char)
  | [] => none
  | c :: rest =>
    match chopLit? ('i' :: " prefer ".data) (c :: rest) with
    | some r => some r
    | none =>
      match chopLit? ('i' :: " like ".data) (c :: rest) with
      | some r => some r
      | none => splitPreferLike rest

/-- `candidate.split()[0]`: the first whitespace-separated token. -/
def firstToken (s : String) : String :=
  ((s.data.dropWhile pyIsSpace).takeWhile (fun c => !pyIsSpace c)).asString

/-- Embedding of `_extract_preference_updates`, key insertion order as in
the source (`size`, `priceRange`, `categories`, `stylePreferences`,
`colorPreferences`, `brandPreferences`, then the `i prefer`/`i like`
style fallback appended last). -/
def extractPreferenceUpdates (message : String) : List (String × Json) :=
  (match scanSize none (pyLower (pyStrip message)).data with
   | some g => [("size", Json.str (pyUpper g.asString))]
   | none => []) ++
  (match scanPrefAmount prefMaxHeads (pyLower (pyStrip message)).data,
      scanPrefAmount prefMinHeads (pyLower (pyStrip message)).data with
   | none, none => []
   | maxM, minM =>
     [("priceRange", Json.obj (
       (match minM with
        | some ds => [("min", Json.num ((digitsVal ds : Nat) : ℚ))]
        | none => []) ++
       (match maxM with
        | some ds => [("max", Json.num ((digitsVal ds : Nat) : ℚ))]
        | none => [])))]) ++
  (match sortedDedup (prefCategories (pyLower (pyStrip message))) with
   | [] => []
   | cats => [("categories", Json.arr (cats.map Json.str))]) ++
  (match sortedDedup (styleList.filter (fun s =>
      strContains (pyLower (pyStrip message)) s)) with
   | [] => []
   | styles => [("stylePreferences", Json.arr (styles.map Json.str))]) ++
  (match sortedDedup (colorList.filter (fun c =>
      strContains (pyLower (pyStrip message)) c)) with
   | [] => []
   | cols => [("colorPreferences", Json.arr (cols.map Json.str))]) ++
  (match scanClassCapture brandHeads prefBrandOpts prefBrandClass 2 120
      (pyLower (pyStrip message)).data with
   | some g =>
     match ((splitCommaAndAux [] g).map (fun cs => pyStrip cs.asString)).filter
         (fun s => s ≠ "") with
     | [] => []
     | brands => [("brandPreferences", Json.arr (brands.map Json.str))]
   | none => []) ++
  (if (strContains (pyLower (pyStrip message)) "i prefer " ||
        strContains (pyLower (pyStrip message)) "i like ") &&
      (sortedDedup (prefCategories (pyLower (pyStrip message)))).isEmpty &&
      (sortedDedup (styleList.filter (fun s =>
        strContains (pyLower (pyStrip message)) s))).isEmpty &&
      (sortedDedup (colorList.filter (fun c =>
        strContains (pyLower (pyStrip message)) c))).isEmpty &&
      (match scanClassCapture brandHeads prefBrandOpts prefBrandClass 2 120
          (pyLower (pyStrip message)).data with
       | some g => ((splitCommaAndAux [] g).map (fun cs => pyStrip cs.asString)).filter
           (fun s => s ≠ "") |>.isEmpty
       | none => true) then
    match splitPreferLike (pyLower (pyStrip message)).data with
    | some suffix =>
      match (stripCharsList (' ' :: ".,!?".data) suffix).asString with
      | "" => []
      | candidate => [("stylePreferences", Json.arr [Json.str (firstToken candidate)])]
    | none => []
  else [])

/-- `cart\b` at one position (case-insensitive). -/
def cartTail (cs : List Char) : Option (List Char) :=
  match ciChopLit? ('c' :: "art".data) cs with
  | some r => if boundaryAfter r then some r else none
  | none => none

/-- `to\b\s+\b(my\s+)?cart\b` at one position (giving spaces back from
`\s+` never reaches a letter, so the greedy take is exact). -/
def toCartAt (cs : List Char) : Option (List Char) :=
  match ciChopLit? ('t' :: "o".data) cs with
  | none => none
  | some r =>
    if !boundaryAfter r then none
    else if (r.takeWhile pyIsSpace).length = 0 then none
    else
      match (match ciChopLit? ('m' :: "y".data) (r.dropWhile pyIsSpace) with
             | some r2 =>
               if (r2.takeWhile pyIsSpace).length = 0 then none
               else cartTail (r2.dropWhile pyIsSpace)
             | none => none) with
      | some r3 => some r3
      | none => cartTail (r.dropWhile pyIsSpace)

/-- `add\b` or `put\b` at one position. -/
def verbTail (cs : List Char) : Option (List Char) :=
  match ciChopLit? ('a' :: "dd".data) cs with
  | some r => if boundaryAfter r then some r else none
  | none =>
    match ciChopLit? ('p' :: "ut".data) cs with
    | some r => if boundaryAfter r then some r else none
    | none => none

/-- First start of `\b(and\s+)?(add|put)\b`: returns the kept prefix and
the remainder after the verb. -/
def comboScanAux : Option Char → List Char → Option (List Char × List Char)
  | _, [] => none
  | prev, c :: rest =>
    match (if (match prev with | some p => !isWordChar p | none => true) then
        match (match ciChopLit? ('a' :: "nd".data) (c :: rest) with
               | some r =>
                 if (r.takeWhile pyIsSpace).length = 0 then none
                 else verbTail (r.dropWhile pyIsSpace)
               | none => none) with
        | some r => some r
        | none => verbTail (c :: rest)
      else none) with
    | some r => some ([], r)
    | none =>
      match comboScanAux (some c) rest with
      | some (pre, r) => some (c :: pre, r)
      | none => none

/-- Suffix strictly after the last `\bcart\b` (the greedy `.*` of the
combo cleaner; a match at the very start is impossible because the verb
match requires a non-word character next). -/
def lastCartSuffix : Option Char → List Char → Option (List Char)
  | _, [] => none
  | prev, c :: rest =>
    match lastCartSuffix (some c) rest with
    | some r => some r
    | none =>
      if (match prev with | some p => !isWordChar p | none => true) then
        match ciChopLit? ('c' :: "art".data) (c :: rest) with
        | some r => if boundaryAfter r then some r else none
        | none => none
      else none

/-- Embedding of `_extract_search_query_for_combo`
(`re.sub(r"\b(and\s+)?(add|put)\b.*\bcart\b", " ", message)`, then
whitespace squash and strip). -/
def extractSearchQueryForCombo (message : String) : String :=
  pyStrip ((squashWsAux false
    (match comboScanAux none message.data with
     | some (pre, r) =>
       match lastCartSuffix none r with
       | some suffix => pre ++ (' ' :: suffix)
       | none => message.data
     | none => message.data)).asString)

/-- Word-alternation removal `re.sub(r"\b(w1|w2|...)\b", " ", ...)`
(case-insensitive): scan with the previous original character, replacing
each match by one space; every removed word ends in a word character, so
the stand-in previous character `x` preserves boundaries. -/
def removeWordsAux (ws : List String) : Option Char → Nat → List Char → List Char
  | _, _, [] => []
  | _, 0, cs => cs
  | prev, Nat.succ fuel, c :: rest =>
    match (if (match prev with | some p => !isWordChar p | none => true) then
        ws.findSome? (fun w =>
          match ciChopLit? w.data (c :: rest) with
          | some r => if boundaryAfter r then some r else none
          | none => none)
      else none) with
    | some r => ' ' :: removeWordsAux ws (some 'x') fuel r
    | none => c :: removeWordsAux ws (some c) fuel rest

/-- Apply a word-list removal over a whole character list. -/
def removeWords (ws : List String) (cs : List Char) : List Char :=
  removeWordsAux ws none cs.length cs

/-- Pattern removal for matchers that begin at a word boundary and end in
a word character (ids, digit tokens, the to-cart phrase). -/
def removeMatchesAux (matchAt : List Char → Option (List Char)) :
    Option Char → Nat → List Char → List Char
  | _, _, [] => []
  | _, 0, cs => cs
  | prev, Nat.succ fuel, c :: rest =>
    match (if (match prev with | some p => !isWordChar p | none => true) then
        matchAt (c :: rest) else none) with
    | some r => ' ' :: removeMatchesAux matchAt (some 'x') fuel r
    | none => c :: removeMatchesAux matchAt (some c) fuel rest

/-- Apply a pattern removal over a whole character list. -/
def removeMatches (matchAt : List Char → Option (List Char)) (cs : List Char) : List Char :=
  removeMatchesAux matchAt none cs.length cs

/-- `\b(prod[_\-]?\d+|var[_\-]?\d+|item[_\-]?\d+)\b` at one position,
returning the remainder. -/
def idTokenAt (cs : List Char) : Option (List Char) :=
  [('p' :: "rod".data), ('v' :: "ar".data), ('i' :: "tem".data)].findSome? (fun lit =>
    match matchLitIdAt lit cs with
    | some m =>
      if boundaryAfter (cs.drop m.length) then some (cs.drop m.length) else none
    | none => none)

/-- `\b\d+\b` at one position, returning the remainder. -/
def digitTokenAt (cs : List Char) : Option (List Char) :=
  match cs.takeWhile isDigitChar with
  | [] => none
  | ds => if boundaryAfter (cs.drop ds.length) then some (cs.drop ds.length) else none

/-- `re.sub(r"[,:;]", " ", ...)`. -/
def punctToSpace (cs : List Char) : List Char :=
  cs.map (fun c => if c = ',' || c = ':' || c = ';' then ' ' else c)

/-- Embedding of `_extract_add_query`. -/
def extractAddQuery (message : String) : String :=
  match pyStrip ((squashWsAux false (punctToSpace (removeWords
      ["please", "the", "a", "an", "item", "items", "quantity", "qty", "of", "for",
       "me", "my", "cart", "with", "color"]
      (removeMatches digitTokenAt
        (removeMatches idTokenAt
          (removeMatches toCartAt
            (removeWords ["add"] message.data))))))).asString) with
  | cleaned => if pyLower cleaned ∈ ["", "to", "cart"] then "" else cleaned

/-- Embedding of `_extract_cart_item_query`. -/
def extractCartItemQuery (message : String) : String :=
  pyStrip ((squashWsAux false (punctToSpace
    (removeMatches digitTokenAt
      (removeMatches idTokenAt
        (removeWords ["remove", "delete", "drop", "update", "change", "set", "increase",
          "decrease", "reduce", "quantity", "qty", "from", "in", "cart", "my", "the"]
          message.data))))).asString)

/-- Suffix after the first `\badd\b` (the non-greedy `^.*?\badd\b` of
the multi-add cleaner); `none` when the word never occurs. -/
def firstAddSuffix : Option Char → List Char → Option (List Char)
  | _, [] => none
  | prev, c :: rest =>
    match (if (match prev with | some p => !isWordChar p | none => true) then
        match ciChopLit? ('a' :: "dd".data) (c :: rest) with
        | some r => if boundaryAfter r then some r else none
        | none => none
      else none) with
    | some r => some r
    | none => firstAddSuffix (some c) rest

/-- Truncate at the first `\bto\b\s+\b(my\s+)?cart\b` (the
`...cart\b.*$` removal of the multi-add cleaner). -/
def truncAtToCart : Option Char → List Char → List Char
  | _, [] => []
  | prev, c :: rest =>
    if (match prev with | some p => !isWordChar p | none => true) &&
        (toCartAt (c :: rest)).isSome then []
    else c :: truncAtToCart (some c) rest

/-- The separator `\s*(?:,|\band\b)\s*` at one position; returns the
last matched character (for boundary tracking) and the remainder. -/
def sepAt (prev : Option Char) (cs : List Char) : Option (Char × List Char) :=
  match (match cs.dropWhile pyIsSpace with
         | ',' :: t => some ((',' : Char), t)
         | r1 =>
           if (cs.takeWhile pyIsSpace).length > 0 ||
               (match prev with | some p => !isWordChar p | none => true) then
             match chopLit? ('a' :: "nd".data) r1 with
             | some t => if boundaryAfter t then some ('d', t) else none
             | none => none
           else none) with
  | some (lastc, t) =>
    some (if (t.takeWhile pyIsSpace).length > 0 then ' ' else lastc,
      t.dropWhile pyIsSpace)
  | none => none

/-- `re.split(r"\s*(?:,|\band\b)\s*", body)`. -/
def splitSepAux : Option Char → Nat → List Char → List Char → List (List Char)
  | _, _, acc, [] => [acc.reverse]
  | _, 0, acc, cs => [(acc.reverse ++ cs)]
  | prev, Nat.succ fuel, acc, c :: rest =>
    match sepAt prev (c :: rest) with
    | some (lastc, r) => acc.reverse :: splitSepAux (some lastc) fuel [] r
    | none => splitSepAux (some c) fuel (c :: acc) rest

/-- Embedding of `_extract_multi_add_items`. -/
def extractMultiAddItems (message : String) : List Json :=
  if !strContains (pyLower message) "add" || !strContains (pyLower message) "cart" then []
  else
    match stripCharsList (' ' :: ".,;".data) (squashWsAux false
        ((pyStrip ((truncAtToCart none
          ((pyStrip (match firstAddSuffix none (pyLower message).data with
                     | some r => r.asString
                     | none => pyLower message)).data)).asString)).data)) with
    | [] => []
    | body =>
      ((splitSepAux none body.length [] body).map (fun part =>
        match stripCharsList (' ' :: ".,;".data) part with
        | [] => (none : Option Json)
        | chunk =>
          match pyStrip ((squashWsAux false
              (removeWords ["of", "a", "an", "the", "please", "to", "my", "cart"]
                (removeMatches digitTokenAt chunk))).asString) with
          | "" => none
          | q =>
            some (Json.obj (
              [("query", Json.str q),
               ("quantity", Json.num ((
                 (match scanIntToken chunk with
                  | some ds => max 1 (min 50 (digitsVal ds))
                  | none => 1) : Nat) : ℚ))] ++
              (match colorList.find? (fun c => strContains chunk.asString c) with
               | some c => [("color", Json.str c)]
               | none => [])))) ).filterMap id

/-- Heads and options of the explicit discount-code pattern
`(?:code|coupon|promo)\s*(?:is|=|:)?\s*([a-zA-Z0-9_-]\x7b4,20\x7d)`. -/
def discountHeads (cs : List Char) : List (List Char) :=
  (match ciChopLit? ('c' :: "ode".data) cs with | some r => [r] | none => []) ++
  (match ciChopLit? ('c' :: "oupon".data) cs with | some r => [r] | none => []) ++
  (match ciChopLit? ('p' :: "romo".data) cs with | some r => [r] | none => [])

/-- `(?:is|=|:)?` of the discount pattern. -/
def discountOpts (r : List Char) : List (List Char) :=
  (match ciChopLit? ('i' :: "s".data) r with | some t => [t] | none => []) ++
  (match r with | '=' :: t => [t] | _ => []) ++
  (match r with | ':' :: t => [t] | _ => []) ++ [r]

/-- The class `[a-zA-Z0-9_-]` of the discount capture. -/
def discountClass (c : Char) : Bool :=
  isAlnumChar c || c = '_' || c = '-'

/-- `re.findall(r"\b([A-Za-z0-9]\x7b4,20\x7d)\b", message)`: maximal
alphanumeric runs of length 4 to 20 with non-word neighbours. -/
def alnumTokensAux : Option Char → List Char → List (List Char)
  | _, [] => []
  | prev, c :: rest =>
    (if isAlnumChar c && !(match prev with | some p => isWordChar p | none => false) &&
        4 ≤ (c :: rest.takeWhile isAlnumChar).length &&
        (c :: rest.takeWhile isAlnumChar).length ≤ 20 &&
        boundaryAfter (rest.dropWhile isAlnumChar) then
      [c :: rest.takeWhile isAlnumChar]
    else []) ++ alnumTokensAux (some c) rest

/-- The stop words of `_extract_discount_code`. -/
def discountStopWords : List String :=
  ["APPLY", "DISCOUNT", "COUPON", "PROMO", "CODE", "PLEASE", "THIS", "THAT"]

/-- Embedding of `_extract_discount_code`. -/
def extractDiscountCode (message : String) : List (String × Json) :=
  match scanClassCapture discountHeads discountOpts discountClass 4 20 message.data with
  | some g => [("code", Json.str (pyUpper g.asString))]
  | none =>
    match (alnumTokensAux none message.data).findSome? (fun run =>
      if pyUpper run.asString ∈ discountStopWords then none
      else if run.any isDigitChar then some (pyUpper run.asString) else none) with
    | some token => [("code", Json.str token)]
    | none => []

/-- The value tail `\s*[:=]\s*([^,;]+)` of a shipping-address field; the
greedy space star yields just enough to keep the capture non-empty, and
the captured value is stripped as in the source. -/
def fieldTail (r : List Char) : Option String :=
  match r.dropWhile pyIsSpace with
  | c :: t =>
    if c = ':' || c = '=' then
      match t.takeWhile (fun d => !(d = ',' || d = ';')) with
      | [] => none
      | run =>
        some (pyStrip ((run.drop
          (min (t.takeWhile pyIsSpace).length (run.length - 1))).asString))
    else none
  | [] => none

/-- Alternative literal heads of a shipping-address field pattern. -/
def headsLits (lits : List String) (cs : List Char) : List (List Char) :=
  lits.flatMap (fun l =>
    match ciChopLit? l.data cs with
    | some r => [r]
    | none => [])

/-- Heads of `postal\s*code|postalcode|zip`. -/
def postalHeads (cs : List Char) : List (List Char) :=
  (match ciChopLit? ('p' :: "ostal".data) cs with
   | some r =>
     (spaceDrops r).flatMap (fun r1 =>
       match ciChopLit? ('c' :: "ode".data) r1 with
       | some r2 => [r2]
       | none => [])
   | none => []) ++
  headsLits ["postalcode", "zip"] cs

/-- Scan for a shipping-address field value. -/
def scanField (headsOf : List Char → List (List Char)) : List Char → Option String
  | [] => none
  | c :: rest =>
    match (headsOf (c :: rest)).findSome? fieldTail with
    | some v => some v
    | none => scanField headsOf rest

/-- Embedding of `_extract_shipping_address` (field order as built in the
source, `line2` appended last). -/
def extractShippingAddress (message : String) : List (String × Json) :=
  match scanField (headsLits ["line1", "address", "street"]) message.data,
      scanField (headsLits ["city"]) message.data,
      scanField (headsLits ["state"]) message.data,
      scanField postalHeads message.data,
      scanField (headsLits ["country"]) message.data with
  | some l1, some ct, some st, some pc, some co =>
    [("shippingAddress", Json.obj (
      [("name", Json.str ((scanField (headsLits ["name"]) message.data).getD "Customer")),
       ("line1", Json.str l1), ("city", Json.str ct), ("state", Json.str st),
       ("postalCode", Json.str pc), ("country", Json.str co)] ++
      (match scanField (headsLits ["line2", "apt", "suite"]) message.data with
       | some l2 => [("line2", Json.str l2)]
       | none => [])))]
  | _, _, _, _, _ => []

/-- Embedding of `_is_clear_cart_request`. -/
def isClearCartRequest (text : String) : Bool :=
  anySub text ["clear cart", "empty cart", "remove all from cart", "delete all from cart",
    "clear my cart", "empty my cart"]

/-- Embedding of `_is_adjust_cart_quantity_request`. -/
def isAdjustCartQuantityRequest (text : String) : Bool :=
  if strContains text "set quantity" then false
  else if !strContains text "cart" && !strContains text "quantity" &&
      !strContains text "qty" then false
  else anySub text ["increase", "decrease", "reduce", "minus", "plus", "one more",
    "one less", "another"]

/-- Embedding of `_is_support_escalation_request`. -/
def isSupportEscalationRequest (text : String) : Bool :=
  if anySub text ["human agent", "support agent", "talk to support", "talk to a person",
      "connect me to support", "open a ticket", "escalate", "need help with issue"] then
    true
  else strContains text "help" && strContains text "order" && strContains text "agent"

/-- Embedding of `_is_support_status_request`. -/
def isSupportStatusRequest (text : String) : Bool :=
  anySub text ["ticket status", "support status", "status of my ticket",
    "my support ticket", "any update on ticket"]

/-- Embedding of `_is_support_close_request`. -/
def isSupportCloseRequest (text : String) : Bool :=
  anySub text ["close ticket", "resolve ticket", "mark ticket resolved"]

/-- `(view|show|open|see|display)\s+(my\s+)?cart\b` after a word
boundary, the optional `my` tried first. -/
def viewVerbTail (cs : List Char) : Option (List Char) :=
  ["view", "show", "open", "see", "display"].findSome? (fun w =>
    match ciChopLit? w.data cs with
    | some r =>
      if (r.takeWhile pyIsSpace).length = 0 then none
      else
        match (match ciChopLit? ('m' :: "y".data) (r.dropWhile pyIsSpace) with
               | some r2 =>
                 if (r2.takeWhile pyIsSpace).length = 0 then none
                 else cartTail (r2.dropWhile pyIsSpace)
               | none => none) with
        | some r3 => some r3
        | none => cartTail (r.dropWhile pyIsSpace)
    | none => none)

/-- Scan of `\b(view|show|open|see|display)\s+(my\s+)?cart\b`. -/
def viewCartScan : Option Char → List Char → Bool
  | _, [] => false
  | prev, c :: rest =>
    if (match prev with | some p => !isWordChar p | none => true) &&
        (viewVerbTail (c :: rest)).isSome then true
    else viewCartScan (some c) rest

/-- Embedding of `_is_view_cart_request` (called on the phrase text). -/
def isViewCartRequest (text : String) : Bool :=
  if text = "" then false
  else if text ∈ ["cart", "my cart", "view cart", "show cart", "show me cart",
      "view my cart"] then true
  else if viewCartScan none text.data then true
  else (strContains text "what" || strContains text "whats" ||
      strContains text "what\x27s") && strContains text "cart"

/-- One row of `context.recent` carries product context: its stripped
`intent` is a product intent or its stripped `agent` is the product agent
(non-dict rows are skipped). -/
def rowIsProduct (row : Json) : Bool :=
  match row with
  | Json.obj fields =>
    pyStrip (pyStr ((jsonGet fields "intent").getD (Json.str ""))) = "product_search" ||
    pyStrip (pyStr ((jsonGet fields "intent").getD (Json.str ""))) = "search_and_add_to_cart" ||
    pyStrip (pyStr ((jsonGet fields "agent").getD (Json.str ""))) = "product"
  | _ => false

/-- Embedding of `_is_price_refinement_request`.  The scan over
`reversed(recent)` returns true on a product row, and the source then
falls through to an unconditional `return True`, which the
`if ... then true else true` mirrors: the scan's outcome never changes
the result. -/
def isPriceRefinementRequest (text : String) (context : Option (List (String × Json))) :
    Bool :=
  if (extractPriceRange text).isEmpty then false
  else if anySub text ["cart", "checkout", "order", "refund", "ticket", "support"] then
    false
  else
    match context with
    | none => true
    | some ctx =>
      match (jsonGet ctx "recent").getD (Json.arr []) with
      | Json.arr recent => if recent.reverse.any rowIsProduct then true else true
      | _ => true

/-- Embedding of `_looks_like_product_query` (called on the phrase text). -/
def looksLikeProductQuery (text : String) : Bool :=
  if text = "" then false
  else if anySub text ["support", "ticket", "order", "refund", "cancel", "checkout",
      "memory", "preference", "cart"] then false
  else anySub text ["shoe", "shoes", "sneaker", "sneakers", "runner", "running", "trail",
    "hoodie", "jogger", "joggers", "sock", "socks", "backpack", "bag", "clothing",
    "accessories", "denim", "athleisure"]

/-- Embedding of `_extract_brand`: the explicit case-insensitive capture
on the raw message, then the known-brand fallback on the lowered message. -/
def brandMsgClass (c : Char) : Bool :=
  isAlnumChar c || c = '&' || c = '-' || pyIsSpace c

/-- Heads of `(?:brand|from)` (case-insensitive). -/
def brandMsgHeads (cs : List Char) : List (List Char) :=
  (match ciChopLit? ('b' :: "rand".data) cs with | some r => [r] | none => []) ++
  (match ciChopLit? ('f' :: "rom".data) cs with | some r => [r] | none => [])

/-- `(?:is|=|:)?` of the brand pattern (case-insensitive, empty last). -/
def brandMsgOpts (r : List Char) : List (List Char) :=
  (match ciChopLit? ('i' :: "s".data) r with | some t => [t] | none => []) ++
  (match r with | '=' :: t => [t] | _ => []) ++
  (match r with | ':' :: t => [t] | _ => []) ++ [r]

/-- Embedding of `_extract_brand`. -/
def extractBrand (message : String) : List (String × Json) :=
  match (match scanClassCapture brandMsgHeads brandMsgOpts brandMsgClass 2 80
      message.data with
    | some g =>
      match (stripCharsList (' ' :: ".,;".data) g).asString with
      | "" => none
      | raw => some raw
    | none => none) with
  | some raw => [("brand", Json.str raw)]
  | none =>
    match ["strideforge", "peakroute", "aerothread", "carryworks"].find?
        (fun t => strContains (pyLower message) t) with
    | some t => [("brand", Json.str t)]
    | none => []

/-- The classifier's result record (`IntentResult`). -/
structure IntentResult where
  name : String
  confidence : ℚ
  entities : List (String × Json)

/-- Python `entities.update(d)` over the assoc-list model. -/
def dictMerge (base add : List (String × Json)) : List (String × Json) :=
  add.foldl (fun acc kv => dictSet acc kv.1 kv.2) base

/-- The entity payload shared by the three product-search branches. -/
def productEntities (text message : String) : List (String × Json) :=
  dictMerge (dictMerge (dictMerge (extractPriceRange text) (extractColor text))
    (extractBrand message)) [("query", Json.str (pyStrip message))]

/-- The ordered rule branches of `_classify_rules` (guard, result); the
first true guard wins.  `text` is the lowered stripped message and
`phrase` the underscore/whitespace-squashed phrase text, as in the
source. -/
def ruleBranches (message : String) (context : Option (List (String × Json))) :
    List (Bool × IntentResult) :=
  [((strContains (pyLower (pyStrip message)) "cart" ||
      strContains (pyLower (pyStrip message)) "my cart") &&
      containsOrderStatusPhrase (pyLower (pyStrip message)),
    ⟨"multi_status", mkRat 9 10, extractOrderId (pyLower (pyStrip message))⟩),
   (isShowMemoryRequest (pyLower (pyStrip message)),
    ⟨"show_memory", mkRat 93 100, []⟩),
   (isClearMemoryRequest (pyLower (pyStrip message)),
    ⟨"clear_memory", mkRat 92 100, []⟩),
   (!(extractForgetPreference message).isEmpty,
    ⟨"forget_preference", mkRat 9 10, extractForgetPreference message⟩),
   (!(extractPreferenceUpdates message).isEmpty &&
      isPreferenceStatement (pyLower (pyStrip message)),
    ⟨"save_preference", mkRat 88 100,
      [("updates", Json.obj (extractPreferenceUpdates message))]⟩),
   (strContains (pyLower (pyStrip message)) "order" &&
      strContains (pyLower (pyStrip message)) "address" &&
      (strContains (pyLower (pyStrip message)) "change" ||
       strContains (pyLower (pyStrip message)) "update" ||
       strContains (pyLower (pyStrip message)) "delivery"),
    ⟨"change_order_address", mkRat 88 100,
      dictMerge (extractOrderId (pyLower (pyStrip message)))
        (extractShippingAddress message)⟩),
   (strContains (pyLower (pyStrip message)) "cancel" &&
      strContains (pyLower (pyStrip message)) "order",
    ⟨"cancel_order", mkRat 91 100, extractOrderId (pyLower (pyStrip message))⟩),
   (strContains (pyLower (pyStrip message)) "refund" &&
      strContains (pyLower (pyStrip message)) "order",
    ⟨"request_refund", mkRat 9 10, extractOrderId (pyLower (pyStrip message))⟩),
   (containsOrderStatusPhrase (pyLower (pyStrip message)),
    ⟨"order_status", mkRat 9 10, extractOrderId (pyLower (pyStrip message))⟩),
   (strContains (pyLower (pyStrip message)) "checkout" ||
      strContains (pyLower (pyStrip message)) "place order" ||
      strContains (pyLower (pyStrip message)) "buy now",
    ⟨"checkout", mkRat 95 100, []⟩),
   (isSupportStatusRequest (pyLower (pyStrip message)),
    ⟨"support_status", mkRat 9 10, extractTicketId (pyLower (pyStrip message))⟩),
   (isSupportCloseRequest (pyLower (pyStrip message)),
    ⟨"support_close", mkRat 9 10, extractTicketId (pyLower (pyStrip message))⟩),
   (isSupportEscalationRequest (pyLower (pyStrip message)),
    ⟨"support_escalation", mkRat 88 100,
      dictMerge (extractTicketId (pyLower (pyStrip message)))
        [("query", Json.str (pyStrip message))]⟩),
   (strContains (pyLower (pyStrip message)) "add" &&
      strContains (pyLower (pyStrip message)) "cart" &&
      anySub (pyLower (pyStrip message)) ["find", "search", "show me", "recommend",
        "looking for", "under", "below", "over", "above"],
    ⟨"search_and_add_to_cart", mkRat 93 100,
      dictMerge (dictMerge (dictMerge (dictMerge (dictMerge
        (extractQuantity (pyLower (pyStrip message)))
        (extractProductOrVariantId (pyLower (pyStrip message))))
        (extractPriceRange (pyLower (pyStrip message))))
        (extractColor (pyLower (pyStrip message))))
        (extractBrand message))
        [("query", Json.str (extractSearchQueryForCombo message))]⟩),
   (isClearCartRequest (pyLower (pyStrip message)),
    ⟨"clear_cart", mkRat 94 100, []⟩),
   (isAdjustCartQuantityRequest (pyLower (pyStrip message)),
    ⟨"adjust_cart_quantity", mkRat 89 100,
      dictMerge (dictMerge (extractProductOrItemId (pyLower (pyStrip message)))
        (extractDelta (pyLower (pyStrip message))))
        (match extractCartItemQuery message with
         | "" => []
         | q => [("query", Json.str q)])⟩),
   ((extractMultiAddItems message).length ≥ 2,
    ⟨"add_multiple_to_cart", mkRat 9 10,
      [("items", Json.arr (extractMultiAddItems message))]⟩),
   (anySub (pyLower (pyStrip message)) ["discount", "coupon", "promo"] &&
      anySub (pyLower (pyStrip message)) ["apply", "use", "code"],
    ⟨"apply_discount", mkRat 9 10, extractDiscountCode message⟩),
   (strContains (pyLower (pyStrip message)) "remove" &&
      strContains (pyLower (pyStrip message)) "cart",
    ⟨"remove_from_cart", mkRat 88 100,
      dictMerge (dictMerge (extractQuantity (pyLower (pyStrip message)))
        (extractProductOrItemId (pyLower (pyStrip message))))
        (match extractCartItemQuery message with
         | "" => []
         | q => [("query", Json.str q)])⟩),
   (anySub (pyLower (pyStrip message)) ["update cart", "change quantity", "set quantity"],
    ⟨"update_cart", mkRat 86 100,
      dictMerge (dictMerge (extractQuantity (pyLower (pyStrip message)))
        (extractProductOrItemId (pyLower (pyStrip message))))
        (match extractCartItemQuery message with
         | "" => []
         | q => [("query", Json.str q)])⟩),
   (strContains (pyLower (pyStrip message)) "add" &&
      strContains (pyLower (pyStrip message)) "cart",
    ⟨"add_to_cart", mkRat 92 100,
      dictMerge (dictMerge (dictMerge (dictMerge
        (extractQuantity (pyLower (pyStrip message)))
        (extractProductOrVariantId (pyLower (pyStrip message))))
        (extractColor (pyLower (pyStrip message))))
        (extractBrand message))
        (match extractAddQuery message with
         | "" => []
         | q => [("query", Json.str q)])⟩),
   (isViewCartRequest (phraseTextOf (pyLower (pyStrip message))),
    ⟨"view_cart", mkRat 9 10, []⟩),
   (anySub (pyLower (pyStrip message)) ["find", "search", "show me", "recommend",
      "looking for"],
    ⟨"product_search", mkRat 84 100,
      productEntities (pyLower (pyStrip message)) message⟩),
   (isPriceRefinementRequest (phraseTextOf (pyLower (pyStrip message))) context,
    ⟨"product_search", mkRat 8 10,
      productEntities (pyLower (pyStrip message)) message⟩),
   (looksLikeProductQuery (phraseTextOf (pyLower (pyStrip message))),
    ⟨"product_search", mkRat 78 100,
      productEntities (pyLower (pyStrip message)) message⟩)]

/-- Embedding of `_classify_rules`: the empty-input branch, then the first
matching rule branch, then the `general_question` fallback carrying the
stripped message as the query. -/
def classifyRules (message : String) (context : Option (List (String × Json))) :
    IntentResult :=
  if pyLower (pyStrip message) = "" then ⟨"general_question", mkRat 2 10, []⟩
  else
    match (ruleBranches message context).find? (fun b => b.1) with
    | some b => b.2
    | none => ⟨"general_question", mkRat 6 10, [("query", Json.str (pyStrip message))]⟩

/-- The message is non-empty and no rule branch fires. -/
def fallsThrough (message : String) (context : Option (List (String × Json))) : Bool :=
  if pyLower (pyStrip message) = "" then false
  else (ruleBranches message context).all (fun b => !b.1)

/-- Embedding of `classify`: `llmChoice` is the result of
`_classify_with_llm` (`none` when no client is configured or the client
yields no prediction); an LLM choice wins only with confidence at least
`max(0.7, rule.confidence)`. -/
def classify (llmChoice : Option IntentResult) (message : String)
    (context : Option (List (String × Json))) : IntentResult :=
  match llmChoice with
  | none => classifyRules message context
  | some llm =>
    if llm.confidence ≥ max (mkRat 7 10) (classifyRules message context).confidence then
      llm
    else classifyRules message context

end Intent

end Commerce

/-- C8: a log built by repeated appends has `prevHash = ""` at entry 0 and
`entry[i].prevHash = entry[i-1].entryHash` for `i ≥ 1`; every `entryHash` is
the HMAC-SHA256 of the canonical JSON (keys sorted, minimal separators) of
the entry without `entryHash`; `verify_integrity` reports `ok = true` with no
issues on an untampered chain that fits its window, and every issue it can
ever report is one of `prev_hash_mismatch`, `missing_entry_hash`,
`entry_hash_mismatch`. -/
theorem C8_admin_activity_hash_chain (hmacHex : String → String → String)
    (tokenSecret : String)
    (htrim : ∀ k m, Commerce.pyStrip (hmacHex k m) = hmacHex k m)
    (hne : ∀ k m, hmacHex k m ≠ "")
    (logs : List Commerce.Chain.LogEntry)
    (hc : Commerce.Chain.IsChain hmacHex tokenSecret logs) :
    (∀ (h0 : 0 < logs.length), (logs.get ⟨0, h0⟩).prevHash = "") ∧
    (∀ (i : Nat) (hi : i + 1 < logs.length),
      (logs.get ⟨i + 1, hi⟩).prevHash =
        (logs.get ⟨i, Nat.lt_of_succ_lt hi⟩).entryHash) ∧
    (∀ e ∈ logs, e.entryHash = Commerce.Chain.computeEntryHash hmacHex tokenSecret e) ∧
    (logs.length ≤ 5000 →
      Commerce.Chain.verifyIntegrity hmacHex tokenSecret logs 5000 =
        (true, logs.length, [])) ∧
    (∀ (anyLogs : List Commerce.Chain.LogEntry) (limit : Int),
      ∀ iss ∈ (Commerce.Chain.verifyIntegrity hmacHex tokenSecret anyLogs limit).2.2,
        iss.2 = "prev_hash_mismatch" ∨ iss.2 = "missing_entry_hash" ∨
          iss.2 = "entry_hash_mismatch") := by
  have hinv := Commerce.Chain.chain_invariant hmacHex tokenSecret htrim logs hc
  refine ⟨?_, ?_, hinv.2, ?_, ?_⟩
  · exact Commerce.Chain.chainLinked_zero logs "" hinv.1
  · exact Commerce.Chain.chainLinked_succ logs "" hinv.1
  · intro hlen
    have hwindow : Commerce.Chain.verifyWindow logs 5000 = logs := by
      unfold Commerce.Chain.verifyWindow
      have : logs.length - ((max 1 (min (5000 : Int) 10000)).toNat) = 0 := by
        simp only [show (max 1 (min (5000 : Int) 10000)) = 5000 by decide]
        omega
      rw [this]
      exact List.drop_zero logs
    unfold Commerce.Chain.verifyIntegrity
    rw [hwindow]
    by_cases hempty : logs.isEmpty
    · have : logs = [] := List.isEmpty_iff.mp hempty
      subst this
      simp
    · rw [if_neg (by simp [hempty])]
      have hclean := Commerce.Chain.verifyScan_clean hmacHex tokenSecret htrim hne logs ""
        hinv.1 hinv.2 Commerce.Chain.pyStrip_empty
      rw [hclean]
      rfl
  · intro anyLogs limit iss hiss
    unfold Commerce.Chain.verifyIntegrity at hiss
    split at hiss
    · simp at hiss
    · exact Commerce.Chain.verifyScan_codes hmacHex tokenSecret "" _ iss hiss

/-- The concrete entry appended for the C8 witness. -/
def c8Data : Commerce.Chain.EntryData :=
  ⟨"admin_log_1", "admin_1", "a@x.io", "update", "product", "prod_1",
    some (.obj [("price", .num 5)]), some (.obj [("price", .num 7)]),
    "127.0.0.1", "ua", "2025-01-01T00:00:00+00:00"⟩

/-- The constant digest stub used by the C8 witness. -/
def c8Hmac : String → String → String := fun _ _ => "deadbeef"

/-- The one-entry chain for the C8 witness. -/
def c8Logs : List Commerce.Chain.LogEntry :=
  Commerce.Chain.record c8Hmac "secret" [] c8Data

/-- Witness for C8: the one-entry chain verifies clean. -/
theorem C8_admin_activity_hash_chain_witness :
    Commerce.Chain.verifyIntegrity c8Hmac "secret" c8Logs 5000 =
      (true, c8Logs.length, []) := by
  have htrim : ∀ k m, Commerce.pyStrip (c8Hmac k m) = c8Hmac k m := fun _ _ => rfl
  have hne : ∀ k m, c8Hmac k m ≠ "" := fun _ _ => by simp [c8Hmac]
  exact (C8_admin_activity_hash_chain c8Hmac "secret" htrim hne c8Logs
    (Commerce.Chain.IsChain.push [] c8Data Commerce.Chain.IsChain.nil)).2.2.2.1
    (by decide)


/-- C4: when provider dispatch for a due job fails, the job dead-letters with
a `VOICE_DEAD_LETTER` alert once the incremented attempt count reaches
`maxAttemptsPerCart`, and otherwise retries at
`now + backoff[min(attempt, len-1)]` over the settings' backoff list, reusing
the last element when the list is shorter than the attempt count. -/
theorem C4_retry_backoff_and_dead_letter
    (tz : String → Option Int) (settings : Commerce.Voice.VoiceSettings)
    (u : Commerce.Voice.VUser) (c : Commerce.Voice.VCart)
    (suppressed : List String) (calls : List Commerce.Voice.VCall)
    (job : Commerce.Voice.VJob) (now : Int) (e : String)
    (hwf : settings.retryBackoffSeconds =
      Commerce.Voice.normalizeBackoffList settings.retryBackoffSeconds)
    (hks : settings.killSwitch = false)
    (hitems : 0 < c.itemCount)
    (hsup : Commerce.pyStrip u.id ∉ suppressed)
    (hphone : Commerce.pyStrip u.phone ≠ "")
    (hquiet : Commerce.Voice.inQuietHours tz u now settings = false)
    (hguard : Commerce.Voice.budgetAndCapGuardrails calls (Commerce.pyStrip u.id) settings now = "ok")
    (hassistant : Commerce.pyStrip settings.assistantId ≠ "")
    (hfrom : Commerce.pyStrip settings.fromPhoneNumber ≠ "") :
    (((job.attempt + 1 : Nat) : Int) ≥ max 1 settings.maxAttemptsPerCart →
      Commerce.Voice.applyDecisionToJob
          (Commerce.Voice.processSingleJob tz settings (some u) (some c) suppressed calls
            true (.error e) job now) job =
        Commerce.Voice.completeJobUpdate job .deadLetter (some e) ∧
      (Commerce.Voice.applyDecisionToJob
          (Commerce.Voice.processSingleJob tz settings (some u) (some c) suppressed calls
            true (.error e) job now) job).status = .deadLetter ∧
      Commerce.Voice.decisionAlert
          (Commerce.Voice.processSingleJob tz settings (some u) (some c) suppressed calls
            true (.error e) job now) = some "VOICE_DEAD_LETTER") ∧
    (((job.attempt + 1 : Nat) : Int) < max 1 settings.maxAttemptsPerCart →
      (Commerce.Voice.applyDecisionToJob
          (Commerce.Voice.processSingleJob tz settings (some u) (some c) suppressed calls
            true (.error e) job now) job).status = .retrying ∧
      (Commerce.Voice.applyDecisionToJob
          (Commerce.Voice.processSingleJob tz settings (some u) (some c) suppressed calls
            true (.error e) job now) job).attempt = job.attempt + 1 ∧
      (Commerce.Voice.applyDecisionToJob
          (Commerce.Voice.processSingleJob tz settings (some u) (some c) suppressed calls
            true (.error e) job now) job).nextRunAt =
        some (now + settings.retryBackoffSeconds.getD
          (min job.attempt (settings.retryBackoffSeconds.length - 1)) 0) ∧
      (settings.retryBackoffSeconds.length ≤ job.attempt →
        (Commerce.Voice.applyDecisionToJob
            (Commerce.Voice.processSingleJob tz settings (some u) (some c) suppressed calls
              true (.error e) job now) job).nextRunAt =
          some (now + settings.retryBackoffSeconds.getLastD 0))) := by
  have hitems' : ¬ c.itemCount ≤ 0 := by omega
  have hd : Commerce.Voice.processSingleJob tz settings (some u) (some c) suppressed calls
      true (.error e) job now =
      (if ((job.attempt + 1 : Nat) : Int) ≥ max 1 settings.maxAttemptsPerCart then
        Commerce.Voice.ProcessDecision.dispatchFailedDead e
      else
        Commerce.Voice.ProcessDecision.dispatchFailedRetry e (job.attempt + 1)
          (now + (Commerce.Voice.normalizeBackoffList settings.retryBackoffSeconds).getD
            (min (job.attempt + 1 - 1)
              ((Commerce.Voice.normalizeBackoffList settings.retryBackoffSeconds).length - 1)) 0)) := by
    unfold Commerce.Voice.processSingleJob
    rw [if_neg (by simp [hks])]
    simp only [hitems', if_neg, hquiet, Bool.false_eq_true, not_false_iff, ite_false]
    rw [if_neg hsup, if_neg hphone, if_neg (by simp [hguard]), if_neg (by simp),
      if_neg (by simp [hassistant, hfrom])]
  constructor
  · intro hge
    rw [hd, if_pos hge]
    exact ⟨rfl, rfl, rfl⟩
  · intro hlt
    rw [hd, if_neg (by omega)]
    have hlen : settings.retryBackoffSeconds ≠ [] := by
      rw [hwf]
      exact Commerce.Voice.normalizeBackoffList_ne_nil _
    refine ⟨rfl, rfl, ?_, ?_⟩
    · simp only [Commerce.Voice.applyDecisionToJob, Commerce.Voice.rescheduleJobUpdate]
      rw [← hwf]
      simp
    · intro hshort
      simp only [Commerce.Voice.applyDecisionToJob, Commerce.Voice.rescheduleJobUpdate]
      rw [← hwf]
      have hmin : min (job.attempt + 1 - 1) (settings.retryBackoffSeconds.length - 1) =
          settings.retryBackoffSeconds.length - 1 := by omega
      rw [hmin, Commerce.Voice.getD_pred_length_eq_getLastD _ hlen]

/-- The C4 witness settings: one max attempt, backoff `[60]`. -/
def c4Settings : Commerce.Voice.VoiceSettings :=
  ⟨true, false, 30, 1, 2, 300, 0, 0, 0, 0, [60], "asst", "+100", "UTC"⟩

/-- The C4 witness user. -/
def c4User : Commerce.Voice.VUser := ⟨"user_1", "+200", ""⟩

/-- The C4 witness cart. -/
def c4Cart : Commerce.Voice.VCart := ⟨"cart_1", "user_1", "sess_1", 1, "t0", some 0⟩

/-- The C4 witness job. -/
def c4Job : Commerce.Voice.VJob :=
  ⟨0, .queued, "user_1", "sess_1", "cart_1", "cart_1::t0", 0, some 0, none⟩

/-- Witness for C4: with `maxAttemptsPerCart = 1` a failed dispatch
dead-letters the concrete job and emits the `VOICE_DEAD_LETTER` alert. -/
theorem C4_retry_backoff_and_dead_letter_witness :
    (Commerce.Voice.applyDecisionToJob
        (Commerce.Voice.processSingleJob (fun _ => none) c4Settings (some c4User)
          (some c4Cart) [] [] true (.error "boom") c4Job 0) c4Job).status =
      .deadLetter ∧
    Commerce.Voice.decisionAlert
        (Commerce.Voice.processSingleJob (fun _ => none) c4Settings (some c4User)
          (some c4Cart) [] [] true (.error "boom") c4Job 0) =
      some "VOICE_DEAD_LETTER" := by
  have hguard : Commerce.Voice.budgetAndCapGuardrails [] (Commerce.pyStrip c4User.id)
      c4Settings 0 = "ok" := by
    simp only [Commerce.Voice.budgetAndCapGuardrails, c4Settings, List.filter_nil,
      List.length_nil]
    norm_num
  have h := (C4_retry_backoff_and_dead_letter (fun _ => none) c4Settings c4User c4Cart
    [] [] c4Job 0 "boom" (by decide) rfl (by decide) (by decide) (by decide)
    (by decide) hguard (by decide) (by decide)).1 (by decide)
  exact ⟨h.2.1, h.2.2⟩

/-- C5: the quiet-hours predicate, evaluated at the offset resolved from the
user's timezone (falling back to the default timezone, then UTC), is never
quiet when `start == end`, is `start ≤ hour < end` when `start < end`, and is
`hour ≥ start ∨ hour < end` when `start > end`; a due job processed during
quiet hours is rescheduled with status `retrying` to the next non-quiet local
time converted back to UTC (strictly later than `now`, not quiet, and with
every instant in between quiet). -/
theorem C5_quiet_hours_reschedule
    (tz : String → Option Int) (settings : Commerce.Voice.VoiceSettings)
    (u : Commerce.Voice.VUser) (now : Int)
    (hs0 : 0 ≤ settings.quietHoursStart) (hs23 : settings.quietHoursStart ≤ 23)
    (he0 : 0 ≤ settings.quietHoursEnd) (he23 : settings.quietHoursEnd ≤ 23) :
    (settings.quietHoursStart = settings.quietHoursEnd →
      Commerce.Voice.inQuietHours tz u now settings = false) ∧
    (settings.quietHoursStart < settings.quietHoursEnd →
      (Commerce.Voice.inQuietHours tz u now settings = true ↔
        (settings.quietHoursStart ≤
            Commerce.Voice.localHourOf (now + Commerce.Voice.resolveOffset tz u settings) ∧
          Commerce.Voice.localHourOf (now + Commerce.Voice.resolveOffset tz u settings) <
            settings.quietHoursEnd))) ∧
    (settings.quietHoursEnd < settings.quietHoursStart →
      (Commerce.Voice.inQuietHours tz u now settings = true ↔
        (Commerce.Voice.localHourOf (now + Commerce.Voice.resolveOffset tz u settings) ≥
            settings.quietHoursStart ∨
          Commerce.Voice.localHourOf (now + Commerce.Voice.resolveOffset tz u settings) <
            settings.quietHoursEnd))) ∧
    (Commerce.Voice.inQuietHours tz u now settings = true →
      (∀ (c : Commerce.Voice.VCart) (suppressed : List String)
          (calls : List Commerce.Voice.VCall) (pe : Bool)
          (pr : Except String (List (String × Commerce.Json)))
          (job : Commerce.Voice.VJob),
        settings.killSwitch = false → 0 < c.itemCount →
        Commerce.pyStrip u.id ∉ suppressed → Commerce.pyStrip u.phone ≠ "" →
        Commerce.Voice.processSingleJob tz settings (some u) (some c) suppressed calls
            pe pr job now =
          .quietHours (Commerce.Voice.nextNonQuietTime tz u now settings) ∧
        (Commerce.Voice.applyDecisionToJob
            (Commerce.Voice.processSingleJob tz settings (some u) (some c) suppressed calls
              pe pr job now) job).status = .retrying ∧
        (Commerce.Voice.applyDecisionToJob
            (Commerce.Voice.processSingleJob tz settings (some u) (some c) suppressed calls
              pe pr job now) job).nextRunAt =
          some (Commerce.Voice.nextNonQuietTime tz u now settings)) ∧
      now < Commerce.Voice.nextNonQuietTime tz u now settings ∧
      Commerce.Voice.inQuietHours tz u (Commerce.Voice.nextNonQuietTime tz u now settings)
        settings = false ∧
      ∀ t, now < t → t < Commerce.Voice.nextNonQuietTime tz u now settings →
        Commerce.Voice.inQuietHours tz u t settings = true) := by
  refine ⟨?_, ?_, ?_, ?_⟩
  · intro h
    simp [Commerce.Voice.inQuietHours, Commerce.Voice.quietPred, h]
  · intro hlt
    have hne : settings.quietHoursStart ≠ settings.quietHoursEnd := by omega
    simp [Commerce.Voice.inQuietHours, Commerce.Voice.quietPred, hne, hlt]
  · intro hgt
    have hne : settings.quietHoursStart ≠ settings.quietHoursEnd := by omega
    have hnlt : ¬ settings.quietHoursStart < settings.quietHoursEnd := by omega
    simp [Commerce.Voice.inQuietHours, Commerce.Voice.quietPred, hne, hnlt]
  · intro hquiet
    have hcore := Commerce.Voice.nextNonQuietLocal_spec settings.quietHoursStart
      settings.quietHoursEnd (now + Commerce.Voice.resolveOffset tz u settings)
      hs0 hs23 he0 he23 hquiet
    have hne : settings.quietHoursStart ≠ settings.quietHoursEnd := by
      intro h
      rw [Commerce.Voice.inQuietHours] at hquiet
      simp [Commerce.Voice.quietPred, h] at hquiet
    have hnnq : Commerce.Voice.nextNonQuietTime tz u now settings =
        Commerce.Voice.nextNonQuietLocal settings.quietHoursStart settings.quietHoursEnd
          (now + Commerce.Voice.resolveOffset tz u settings) -
          Commerce.Voice.resolveOffset tz u settings := by
      unfold Commerce.Voice.nextNonQuietTime
      rw [if_neg hne]
    refine ⟨?_, ?_, ?_, ?_⟩
    · intro c suppressed calls pe pr job hks hitems hsup hphone
      have hitems' : ¬ c.itemCount ≤ 0 := by omega
      have hd : Commerce.Voice.processSingleJob tz settings (some u) (some c) suppressed
          calls pe pr job now =
          .quietHours (Commerce.Voice.nextNonQuietTime tz u now settings) := by
        unfold Commerce.Voice.processSingleJob
        rw [if_neg (by simp [hks])]
        simp only [hitems', if_neg, ite_false]
        rw [if_neg hsup, if_neg hphone, if_pos hquiet]
      exact ⟨hd, by rw [hd]; rfl, by rw [hd]; rfl⟩
    · rw [hnnq]
      have := hcore.1
      omega
    · rw [Commerce.Voice.inQuietHours, hnnq]
      have heq : Commerce.Voice.nextNonQuietLocal settings.quietHoursStart
          settings.quietHoursEnd (now + Commerce.Voice.resolveOffset tz u settings) -
          Commerce.Voice.resolveOffset tz u settings +
          Commerce.Voice.resolveOffset tz u settings =
          Commerce.Voice.nextNonQuietLocal settings.quietHoursStart settings.quietHoursEnd
            (now + Commerce.Voice.resolveOffset tz u settings) := by
        omega
      rw [heq]
      exact hcore.2.1
    · intro t ht1 ht2
      rw [Commerce.Voice.inQuietHours]
      refine hcore.2.2 (t + Commerce.Voice.resolveOffset tz u settings) (by omega) ?_
      rw [hnnq] at ht2
      omega

/-- The C5 witness settings: quiet window 21:00-08:00, UTC default. -/
def c5Settings : Commerce.Voice.VoiceSettings :=
  ⟨true, false, 30, 3, 2, 300, 0, 0, 21, 8, [60, 300, 900], "asst", "+100", "UTC"⟩

/-- Witness for C5: at local hour 23 the window 21-8 is quiet, and the
concrete job is rescheduled to 08:00, which is not quiet. -/
theorem C5_quiet_hours_reschedule_witness :
    Commerce.Voice.processSingleJob (fun _ => (none : Option Int)) c5Settings (some c4User)
        (some c4Cart) [] [] true (.error "boom") c4Job 82800 =
      .quietHours (Commerce.Voice.nextNonQuietTime (fun _ => (none : Option Int)) c4User
        82800 c5Settings) ∧
    Commerce.Voice.inQuietHours (fun _ => (none : Option Int)) c4User
      (Commerce.Voice.nextNonQuietTime (fun _ => (none : Option Int)) c4User 82800 c5Settings)
      c5Settings = false := by
  have hquiet : Commerce.Voice.inQuietHours (fun _ => (none : Option Int)) c4User 82800
      c5Settings = true := by decide
  have hitems : 0 < c4Cart.itemCount := by decide
  have hsup : Commerce.pyStrip c4User.id ∉ ([] : List String) := by decide
  have hphone : Commerce.pyStrip c4User.phone ≠ "" := by decide
  have h := (C5_quiet_hours_reschedule (fun _ => (none : Option Int)) c5Settings c4User 82800
    (by decide) (by decide) (by decide) (by decide)).2.2.2 hquiet
  exact ⟨(h.1 c4Cart [] [] true (.error "boom") c4Job rfl hitems hsup hphone).1, h.2.2.1⟩

/-- C1: for every decoded planner payload, however adversarial, the plan
returned by `plan_actions` holds at most 5 actions, and every action has a
name in the supported planner-action set, params whose keys all lie in that
action's allow-list, and param values with every string at most 300
characters, every list at most 8 elements and every nested dict at most 12
entries with keys of at most 80 characters. -/
theorem C1_planner_allowlist_closure (payload : Commerce.Json)
    (plan : Commerce.Planner.ActionPlan)
    (h : Commerce.Planner.planActionsOfPayload payload = some plan) :
    plan.actions.length ≤ Commerce.Planner.maxPlanActions ∧
    ∀ a ∈ plan.actions, ∃ target allowed,
      Commerce.Planner.plannerSpec a.name = some (target, allowed) ∧
      ∀ kv ∈ a.params, kv.1 ∈ allowed ∧ Commerce.Planner.valueBounded kv.2 = true := by
  cases payload with
  | obj fields =>
    simp only [Commerce.Planner.planActionsOfPayload] at h
    split at h
    · simp only [Option.some.injEq] at h
      subst h
      exact ⟨by simp [Commerce.Planner.maxPlanActions], by simp⟩
    · split at h
      · exact absurd h (by simp)
      · split at h
        · exact absurd h (by simp)
        · simp only [Option.some.injEq] at h
          subst h
          constructor
          · calc ((List.take Commerce.Planner.maxPlanActions _).filterMap
                Commerce.Planner.parsePlannedAction).length
                ≤ (List.take Commerce.Planner.maxPlanActions _).length :=
                  List.length_filterMap_le _ _
              _ ≤ Commerce.Planner.maxPlanActions := by
                  simp
          · intro a ha
            rcases List.mem_filterMap.mp ha with ⟨row, _, hrow⟩
            exact Commerce.Planner.parsePlannedAction_sound row a hrow
  | null => simp [Commerce.Planner.planActionsOfPayload] at h
  | bool b => simp [Commerce.Planner.planActionsOfPayload] at h
  | num n => simp [Commerce.Planner.planActionsOfPayload] at h
  | str s => simp [Commerce.Planner.planActionsOfPayload] at h
  | arr items => simp [Commerce.Planner.planActionsOfPayload] at h

/-- C7: a planner-driven multi-action run executes sequentially with a
per-step record (step `k` records action `k` with index `k+1`, its name and
its resolved target agent); in atomic mode every step after a non-success is
recorded as failed with code `SKIPPED_ATOMIC_MODE` and overall success is the
conjunction of the step successes; in partial mode all steps run,
`data.partialFailure` is set to `true` exactly when some step failed, and
overall success is the disjunction of the step successes. -/
theorem C7_atomic_partial_execution
    (exec : Commerce.Exec.Agent → Commerce.Exec.Action → Commerce.Exec.ExecResult)
    (routeAgent : Commerce.Exec.Agent) (rawMode : String)
    (actions : List Commerce.Exec.Action)
    (res : Commerce.Exec.ExecResult) (agentName : String)
    (steps : List Commerce.Exec.Step)
    (h : Commerce.Exec.executePlannedActions exec routeAgent rawMode actions =
      (res, agentName, steps)) :
    agentName = "orchestrator" ∧
    steps.length = actions.length ∧
    (∀ (k : Nat) (hk : k < steps.length) (hk' : k < actions.length),
      (steps.get ⟨k, hk⟩).index = k + 1 ∧
      (steps.get ⟨k, hk⟩).action = (actions.get ⟨k, hk'⟩).name ∧
      (steps.get ⟨k, hk⟩).targetAgent =
        ((actions.get ⟨k, hk'⟩).targetAgent.getD routeAgent).key) ∧
    (Commerce.Exec.plannerExecutionMode rawMode = "atomic" →
      res.success = steps.all (·.success) ∧
      ∀ (j1 j2 : Nat) (h1 : j1 < steps.length) (h2 : j2 < steps.length), j1 < j2 →
        (steps.get ⟨j1, h1⟩).success = false →
        (steps.get ⟨j2, h2⟩).success = false ∧
        (steps.get ⟨j2, h2⟩).error =
          some ("SKIPPED_ATOMIC_MODE", Commerce.Exec.skipMessage)) ∧
    (Commerce.Exec.plannerExecutionMode rawMode = "partial" →
      res.success = steps.any (·.success) ∧
      ((∃ s ∈ steps, s.success = false) ↔
        Commerce.Exec.dataGet res "partialFailure" = some (.bool true))) := by
  have hres : res = (Commerce.Exec.executePlannedActions exec routeAgent rawMode actions).1 := by
    rw [h]
  have hagent : agentName =
      (Commerce.Exec.executePlannedActions exec routeAgent rawMode actions).2.1 := by
    rw [h]
  have hsteps : steps =
      (Commerce.Exec.executePlannedActions exec routeAgent rawMode actions).2.2 := by
    rw [h]
  subst hres hagent hsteps
  have hspec := Commerce.Exec.runPlanned_spec exec routeAgent
    (decide (Commerce.Exec.plannerExecutionMode rawMode = "atomic")) actions 1
    Commerce.Exec.initState
  have hstepsEq : (Commerce.Exec.executePlannedActions exec routeAgent rawMode actions).2.2 =
      Commerce.Exec.plannedSteps exec routeAgent
        (decide (Commerce.Exec.plannerExecutionMode rawMode = "atomic")) 1 actions := by
    simp only [Commerce.Exec.executePlannedActions]
    rw [hspec.1]
    simp [Commerce.Exec.initState]
  have hlen : (Commerce.Exec.executePlannedActions exec routeAgent rawMode actions).2.2.length =
      actions.length := by
    rw [hstepsEq, Commerce.Exec.plannedSteps_length]
  refine ⟨rfl, hlen, ?_, ?_, ?_⟩
  · intro k hk hk'
    have hk2 : k < (Commerce.Exec.plannedSteps exec routeAgent
        (decide (Commerce.Exec.plannerExecutionMode rawMode = "atomic")) 1 actions).length := by
      rw [← hstepsEq]
      exact hk
    have hget := List.get_of_eq hstepsEq ⟨k, hk⟩
    rw [hget]
    have hrec := Commerce.Exec.plannedSteps_record exec routeAgent
      (decide (Commerce.Exec.plannerExecutionMode rawMode = "atomic")) actions 1 k hk2 hk'
    exact ⟨by rw [hrec.1]; omega, hrec.2.1, hrec.2.2⟩
  · intro hmode
    have hdec : decide (Commerce.Exec.plannerExecutionMode rawMode = "atomic") = true := by
      simp [hmode]
    constructor
    · show (Commerce.Exec.executePlannedActions exec routeAgent rawMode actions).1.success = _
      have hsucc : (Commerce.Exec.executePlannedActions exec routeAgent rawMode actions).1.success =
          (Commerce.Exec.runPlanned exec routeAgent
            (decide (Commerce.Exec.plannerExecutionMode rawMode = "atomic")) 1
            Commerce.Exec.initState actions).allSuccess := by
        simp only [Commerce.Exec.executePlannedActions]
        rw [if_pos hmode]
      rw [hsucc, hspec.2.1, hstepsEq]
      simp [Commerce.Exec.initState]
    · intro j1 j2 h1 h2 hlt hfail
      have h1' : j1 < (Commerce.Exec.plannedSteps exec routeAgent true 1 actions).length := by
        rw [← hdec, ← hstepsEq]
        exact h1
      have h2' : j2 < (Commerce.Exec.plannedSteps exec routeAgent true 1 actions).length := by
        rw [← hdec, ← hstepsEq]
        exact h2
      have heq : (Commerce.Exec.executePlannedActions exec routeAgent rawMode actions).2.2 =
          Commerce.Exec.plannedSteps exec routeAgent true 1 actions := by
        rw [hstepsEq, hdec]
      have hg1 := List.get_of_eq heq ⟨j1, h1⟩
      have hg2 := List.get_of_eq heq ⟨j2, h2⟩
      rw [hg1] at hfail
      rw [hg2]
      exact Commerce.Exec.plannedSteps_atomic_skip exec routeAgent actions 1 j1 j2 h1' h2' hlt hfail
  · intro hmode
    have hne : Commerce.Exec.plannerExecutionMode rawMode ≠ "atomic" := by
      rw [hmode]
      decide
    have hdec : decide (Commerce.Exec.plannerExecutionMode rawMode = "atomic") = false := by
      simp [hne]
    have hall : (Commerce.Exec.executePlannedActions exec routeAgent rawMode actions).2.2.all
        (·.success) =
        (Commerce.Exec.runPlanned exec routeAgent
          (decide (Commerce.Exec.plannerExecutionMode rawMode = "atomic")) 1
          Commerce.Exec.initState actions).allSuccess := by
      rw [hspec.2.1, hstepsEq]
      simp [Commerce.Exec.initState]
    constructor
    · show (Commerce.Exec.executePlannedActions exec routeAgent rawMode actions).1.success = _
      have hsucc : (Commerce.Exec.executePlannedActions exec routeAgent rawMode actions).1.success =
          (Commerce.Exec.runPlanned exec routeAgent
            (decide (Commerce.Exec.plannerExecutionMode rawMode = "atomic")) 1
            Commerce.Exec.initState actions).anySuccess := by
        simp only [Commerce.Exec.executePlannedActions]
        rw [if_neg hne]
      rw [hsucc, hspec.2.2, hstepsEq]
      simp [Commerce.Exec.initState]
    · have hdata : (Commerce.Exec.executePlannedActions exec routeAgent rawMode actions).1.data =
          .obj (if !(Commerce.Exec.runPlanned exec routeAgent
              (decide (Commerce.Exec.plannerExecutionMode rawMode = "atomic")) 1
              Commerce.Exec.initState actions).allSuccess
              && !(decide (Commerce.Exec.plannerExecutionMode rawMode = "atomic")) then
            Commerce.dictSet (Commerce.Exec.runPlanned exec routeAgent
              (decide (Commerce.Exec.plannerExecutionMode rawMode = "atomic")) 1
              Commerce.Exec.initState actions).combinedData "partialFailure" (.bool true)
          else (Commerce.Exec.runPlanned exec routeAgent
              (decide (Commerce.Exec.plannerExecutionMode rawMode = "atomic")) 1
              Commerce.Exec.initState actions).combinedData) := by
        simp only [Commerce.Exec.executePlannedActions]
      by_cases hfail : ∃ s ∈ (Commerce.Exec.executePlannedActions exec routeAgent rawMode actions).2.2,
          s.success = false
      · have hallfalse : (Commerce.Exec.runPlanned exec routeAgent
            (decide (Commerce.Exec.plannerExecutionMode rawMode = "atomic")) 1
            Commerce.Exec.initState actions).allSuccess = false := by
          rw [← hall]
          rcases hfail with ⟨s, hs, hsf⟩
          exact List.all_eq_false.mpr ⟨s, hs, by simp [hsf]⟩
        simp only [hfail, true_iff]
        simp only [Commerce.Exec.dataGet]
        rw [hdata, hallfalse, hdec]
        simp [Commerce.jsonGet_dictSet_self]
      · have halltrue : (Commerce.Exec.runPlanned exec routeAgent
            (decide (Commerce.Exec.plannerExecutionMode rawMode = "atomic")) 1
            Commerce.Exec.initState actions).allSuccess = true := by
          rw [← hall, List.all_eq_true]
          intro s hs
          by_contra hns
          exact hfail ⟨s, hs, by simpa using hns⟩
        simp only [hfail, false_iff]
        simp only [Commerce.Exec.dataGet]
        rw [hdata, halltrue]
        simp only [Bool.not_true, Bool.false_and, Bool.false_eq_true, if_neg, ite_false,
          not_false_iff]
        have hkeys := Commerce.Exec.runPlanned_combined_keys exec routeAgent
          (decide (Commerce.Exec.plannerExecutionMode rawMode = "atomic")) actions 1
          Commerce.Exec.initState (by simp [Commerce.Exec.initState])
        rw [Commerce.jsonGet_eq_none _ _ (fun kv hkv => by
          rcases hkeys kv hkv with ⟨ag, hag⟩
          rw [hag]
          exact Commerce.Exec.Agent.key_ne_partialFailure ag)]
        simp

/-- Concrete executor and plan for the C7 witness: two actions, the first
failing. -/
def c7Exec : Commerce.Exec.Agent → Commerce.Exec.Action → Commerce.Exec.ExecResult :=
  fun _ a => if a.name = "get_cart" then ⟨true, "ok", .obj [], []⟩
    else ⟨false, "boom", .obj [("code", .str "OUT_OF_STOCK")], []⟩

/-- The C7 witness plan. -/
def c7Actions : List Commerce.Exec.Action :=
  [⟨"add_item", some .cart⟩, ⟨"get_cart", some .cart⟩]

/-- The C7 witness output in partial mode. -/
def c7Out : Commerce.Exec.ExecResult × String × List Commerce.Exec.Step :=
  Commerce.Exec.executePlannedActions c7Exec .cart "partial" c7Actions

/-- Witness for C7: on a concrete two-action plan with one failure, partial
mode reports the disjunction of the step successes. -/
theorem C7_atomic_partial_execution_witness :
    c7Out.1.success = c7Out.2.2.any (·.success) ∧
    c7Out.2.1 = "orchestrator" :=
  ⟨((C7_atomic_partial_execution c7Exec .cart "partial" c7Actions
      c7Out.1 c7Out.2.1 c7Out.2.2 rfl).2.2.2.2 (by decide)).1,
    (C7_atomic_partial_execution c7Exec .cart "partial" c7Actions
      c7Out.1 c7Out.2.1 c7Out.2.2 rfl).1⟩

/-- Concrete adversarial payload exercising the planner validation: a
supported action with one allow-listed param, one unknown param and one
unknown action. -/
def c1Payload : Commerce.Json :=
  .obj [("confidence", .num 1),
        ("actions", .arr
          [.obj [("name", .str "add_item"),
                 ("params", .obj [("quantity", .num 2), ("evil", .str "x")])],
           .obj [("name", .str "drop_database"), ("params", .obj [("x", .num 1)])]])]

/-- The plan computed for `c1Payload`. -/
def c1Plan : Commerce.Planner.ActionPlan :=
  (Commerce.Planner.planActionsOfPayload c1Payload).getD ⟨[], 0, false, ""⟩

/-- Witness for C1: the concrete adversarial payload yields a plan, and the
theorem's bound applies to it. -/
theorem C1_planner_allowlist_closure_witness :
    Commerce.Planner.planActionsOfPayload c1Payload = some c1Plan ∧
    c1Plan.actions.length ≤ Commerce.Planner.maxPlanActions :=
  ⟨rfl, (C1_planner_allowlist_closure c1Payload c1Plan rfl).1⟩

/-- C6: with the feature flags on, planner eligibility is a pure function of
(`user_id or "anonymous"`, session id, canary percent): a canary percent ≤ 0
never enables the planner, a percent ≥ 100 always enables it, and a percent in
[1, 99] enables it exactly when the first 8 hex digits of the request seed's
SHA-256 digest, taken mod 100, are below the percent. -/
theorem C6_canary_determinism (sha256hex : String → String)
    (p : Int) (sid : String) (uid : Option String) :
    (p ≤ 0 →
      Commerce.Canary.plannerEnabledForRequest sha256hex true true true p sid uid = false)
    ∧ (p ≥ 100 →
      Commerce.Canary.plannerEnabledForRequest sha256hex true true true p sid uid = true)
    ∧ (1 ≤ p → p ≤ 99 →
      (Commerce.Canary.plannerEnabledForRequest sha256hex true true true p sid uid = true ↔
        ((Commerce.hexValue ((sha256hex
            (Commerce.Canary.userOrAnonymous uid ++ ":" ++ sid)).take 8) % 100 : Int) < p)))
    ∧ (∀ (uid2 : Option String) (sid2 : String),
        Commerce.Canary.userOrAnonymous uid2 = Commerce.Canary.userOrAnonymous uid →
        sid2 = sid →
        Commerce.Canary.plannerEnabledForRequest sha256hex true true true p sid2 uid2 =
          Commerce.Canary.plannerEnabledForRequest sha256hex true true true p sid uid) := by
  unfold Commerce.Canary.plannerEnabledForRequest
  refine ⟨?_, ?_, ?_, ?_⟩
  · intro hp
    simp [hp]
  · intro hp
    have : ¬ p ≤ 0 := by omega
    simp [this, hp]
  · intro h1 h99
    have h0 : ¬ p ≤ 0 := by omega
    have h100 : ¬ p ≥ 100 := by omega
    simp [h0, h100]
  · intro uid2 sid2 hu hs
    simp only [hu, hs]

/-- Witness for C6 at concrete inputs: percent 0 disables, percent 100
enables, percent 50 follows the digest bucket, and two requests with the same
seed agree. -/
theorem C6_canary_determinism_witness :
    (Commerce.Canary.plannerEnabledForRequest (fun _ => "00000000") true true true 0 "s1" none = false)
    ∧ (Commerce.Canary.plannerEnabledForRequest (fun _ => "00000000") true true true 100 "s1" none = true)
    ∧ (Commerce.Canary.plannerEnabledForRequest (fun _ => "00000000") true true true 50 "s1" none = true ↔
        ((Commerce.hexValue (((fun (_ : String) => "00000000")
            (Commerce.Canary.userOrAnonymous none ++ ":" ++ "s1")).take 8) % 100 : Int) < 50))
    ∧ (Commerce.Canary.plannerEnabledForRequest (fun _ => "00000000") true true true 50 "s1" (some "") =
        Commerce.Canary.plannerEnabledForRequest (fun _ => "00000000") true true true 50 "s1" none) := by
  refine ⟨?_, ?_, ?_, ?_⟩
  · exact (C6_canary_determinism (fun _ => "00000000") 0 "s1" none).1 (by decide)
  · exact (C6_canary_determinism (fun _ => "00000000") 100 "s1" none).2.1 (by decide)
  · exact (C6_canary_determinism (fun _ => "00000000") 50 "s1" none).2.2.1 (by decide) (by decide)
  · exact (C6_canary_determinism (fun _ => "00000000") 50 "s1" none).2.2.2 (some "") "s1" (by decide) rfl

/-- C2 (amended): re-delivering an identical webhook payload to a store
whose call ids are duplicate-free (the store keys calls by id) yields the
same end-state as a single delivery, emits no second follow-up action, and
the second call reports `idempotent = true` whenever the first delivery
matched a call; independently, the `followupApplied` guard of
`_update_call_terminal` makes the terminal-outcome follow-up fire at most
once per call.  The spec's unconditional form — the second call returns
`idempotent = true` for every payload — fails for payloads that match no
call (see the counterexample). -/
theorem C2_webhook_idempotency (eventKey : List (String × Commerce.Json) → String)
    (calls : List Commerce.Voice.VCall) (payload : List (String × Commerce.Json))
    (r1 r2 : Commerce.Ingest.IngestResult)
    (calls1 calls2 : List Commerce.Voice.VCall)
    (eff1 eff2 : Option Commerce.Ingest.FollowupEffect)
    (hnodup : (calls.map Commerce.Voice.VCall.id).Nodup)
    (h1 : Commerce.Ingest.ingestProviderCallback eventKey calls payload = (r1, calls1, eff1))
    (h2 : Commerce.Ingest.ingestProviderCallback eventKey calls1 payload = (r2, calls2, eff2)) :
    calls2 = calls1 ∧ eff2 = none ∧ (r1.matched = true → r2.idempotent = true) ∧
    (∀ (cs : List Commerce.Voice.VCall) (id : Nat)
        (s s' : Commerce.Voice.CallStatus) (o o' : String),
      (Commerce.Ingest.updateCallTerminal
        (Commerce.Ingest.updateCallTerminal cs id s o).1 id s' o').2 = none) := by
  have h := Commerce.Ingest.ingest_idempotent eventKey calls payload hnodup
  rw [h1] at h
  simp only at h
  rw [h2] at h
  simp only at h
  exact ⟨h.1, h.2.1, h.2.2,
    fun cs id s s' o o' => Commerce.Ingest.updateCallTerminal_once cs id s s' o o'⟩

/-- C2 counterexample to the unconditional claim: a payload whose provider
call id matches no stored call is accepted with `matched = false`, and the
second identical delivery still reports `idempotent = false`, not the
`idempotent = true` the claim demands for every payload. -/
theorem C2_webhook_idempotency_counterexample :
    ((Commerce.Ingest.ingestProviderCallback (fun _ => "evt")
      (Commerce.Ingest.ingestProviderCallback (fun _ => "evt") []
        [("call_id", Commerce.Json.str "missing")]).2.1
      [("call_id", Commerce.Json.str "missing")]).1).idempotent = false := by
  decide

/-- The C2 witness call: an initiated call with provider call id pc_1 and
an empty event buffer. -/
def c2Call : Commerce.Voice.VCall :=
  ⟨1, "cart_1::t0", "user_1", "sess_1", "cart_1", Commerce.Voice.CallStatus.initiated, 1,
    some "pc_1", "", false, 0, [], []⟩

/-- The C2 witness payload: a terminal event whose status uses the
`success` synonym and whose outcome arrives through the `disposition`
fallback key with a dash. -/
def c2Payload : List (String × Commerce.Json) :=
  [("event_id", Commerce.Json.str "evt_001"), ("call_id", Commerce.Json.str "pc_1"),
   ("status", Commerce.Json.str "success"), ("disposition", Commerce.Json.str "opt-out")]

/-- The C2 witness event-key derivation (constant on the one payload used). -/
def c2EventKey : List (String × Commerce.Json) → String := fun _ => "evt_001"

/-- First delivery of the C2 witness payload. -/
def c2Out1 : Commerce.Ingest.IngestResult × List Commerce.Voice.VCall ×
    Option Commerce.Ingest.FollowupEffect :=
  Commerce.Ingest.ingestProviderCallback c2EventKey [c2Call] c2Payload

/-- Second, identical delivery of the C2 witness payload. -/
def c2Out2 : Commerce.Ingest.IngestResult × List Commerce.Voice.VCall ×
    Option Commerce.Ingest.FollowupEffect :=
  Commerce.Ingest.ingestProviderCallback c2EventKey c2Out1.2.1 c2Payload

/-- Witness for C2: on the concrete matched delivery, the second identical
delivery leaves the store unchanged, emits no follow-up, and reports an
idempotent success. -/
theorem C2_webhook_idempotency_witness :
    c2Out2.2.1 = c2Out1.2.1 ∧ c2Out2.2.2 = none ∧ c2Out2.1.idempotent = true := by
  have h := C2_webhook_idempotency c2EventKey [c2Call] c2Payload c2Out1.1 c2Out2.1
    c2Out1.2.1 c2Out2.2.1 c2Out1.2.2 c2Out2.2.2 (by decide) rfl rfl
  exact ⟨h.1, h.2.1, h.2.2.1 (by decide)⟩

/-- C9: the classifier returns `product_search` for a bare price utterance
even when the recent context holds no product interaction.  On the failing
input `classify("under 150")` with `recent = [{intent: checkout, agent:
order}]` the code yields `product_search` with `maxPrice = 150` (first
conjunct) although the context scan finds no product row (second
conjunct): the scan in `_is_price_refinement_request` is dead code because
the function ends in an unconditional `return True`, contradicting the
claim that product_search requires a recent product intent. -/
theorem C9_price_refinement_dead_context :
    Commerce.Intent.classify none "under 150"
        (some [("recent", Commerce.Json.arr [Commerce.Json.obj
          [("intent", Commerce.Json.str "checkout"),
           ("agent", Commerce.Json.str "order")]])]) =
      ⟨"product_search", mkRat 8 10,
        [("maxPrice", Commerce.Json.num ((150 : Nat) : ℚ)),
         ("query", Commerce.Json.str "under 150")]⟩ ∧
    [Commerce.Json.obj [("intent", Commerce.Json.str "checkout"),
        ("agent", Commerce.Json.str "order")]].reverse.any
      Commerce.Intent.rowIsProduct = false :=
  ⟨rfl, rfl⟩

/-- C10: with no LLM prediction, an empty or whitespace-only message
classifies as `general_question` with confidence 0.2 and no entities, and
a non-empty message on which no rule branch fires classifies as
`general_question` with confidence 0.6 and the stripped message as the
`query` entity. -/
theorem C10_empty_and_fallback_classifier (message : String)
    (context : Option (List (String × Commerce.Json))) :
    (Commerce.pyStrip message = "" →
      Commerce.Intent.classify none message context =
        ⟨"general_question", mkRat 2 10, []⟩) ∧
    (Commerce.Intent.fallsThrough message context = true →
      Commerce.Intent.classify none message context =
        ⟨"general_question", mkRat 6 10,
          [("query", Commerce.Json.str (Commerce.pyStrip message))]⟩) := by
  constructor
  · intro h
    show Commerce.Intent.classifyRules message context = _
    unfold Commerce.Intent.classifyRules
    rw [h, if_pos (show Commerce.pyLower "" = "" from rfl)]
  · intro h
    show Commerce.Intent.classifyRules message context = _
    unfold Commerce.Intent.fallsThrough at h
    by_cases hempty : Commerce.pyLower (Commerce.pyStrip message) = ""
    · rw [if_pos hempty] at h
      exact absurd h (by simp)
    · rw [if_neg hempty] at h
      unfold Commerce.Intent.classifyRules
      rw [if_neg hempty]
      have hnone : (Commerce.Intent.ruleBranches message context).find?
          (fun b => b.1) = none := by
        rw [List.find?_eq_none]
        intro x hx
        have hall := (List.all_eq_true.mp h) x hx
        simp only [Bool.not_eq_true'] at hall
        simp [hall]
      rw [hnone]

/-- Witness for C10: the whitespace message classifies at confidence 0.2
with no entities, and the fall-through message keeps its stripped text as
the query at confidence 0.6. -/
theorem C10_empty_and_fallback_classifier_witness :
    Commerce.Intent.classify none "   " none =
      ⟨"general_question", mkRat 2 10, []⟩ ∧
    Commerce.Intent.classify none "hello there" none =
      ⟨"general_question", mkRat 6 10,
        [("query", Commerce.Json.str "hello there")]⟩ := by
  constructor
  · exact (C10_empty_and_fallback_classifier "   " none).1 (by decide)
  · exact (C10_empty_and_fallback_classifier "hello there" none).2 (by decide)
